import Mathlib

/-!
tensor.hpp : a dense row-major tensor container.

A shallow embedding of `src/tensor.hpp`.  The C++ class `Tensor<ComponentType>` owns a raw
array through the pointer `data_`; the embedding keeps that structure: a `Tensor` is the
record of the four private fields, the arrays made by `new[]` live in a `Memory`, and every
member function is a function on `Memory`, so that two tensors can be told apart from one
tensor (`this != &other`) and a shared array from a copied one.

* `size_t` is the 64-bit unsigned type and `int` the 32-bit signed type; arithmetic on
  them is written out with explicit `%`.
* Reads and writes outside a live array, which C++ leaves undefined, are reported as
  `Fault.undefinedBehaviour`.
* `new[]` is taken to succeed (no `std::bad_alloc`), and `ComponentType{}` is the zero of
  the component type.
* A file is the list of its characters; the formatted insertion and extraction of the
  standard library are given for integers and characters with the default flags.
-/

namespace TensorHpp

/-! ## Machine integers -/

/-- Number of values of `size_t` (64 bits): `size_t` arithmetic is arithmetic modulo `sizeMod`. -/
def sizeMod : Nat := 2 ^ 64

/-- Conversion of a `size_t` value to `int` (32 bits, two's complement, modular), as in the
initialiser `int i = matrix_shape.size() - 1` of `calculateFlatIndex`. -/
def toInt (n : Nat) : Int :=
  if n % 2 ^ 32 < 2 ^ 31 then Int.ofNat (n % 2 ^ 32) else Int.ofNat (n % 2 ^ 32) - 2 ^ 32

/-! ## Outcomes other than a value -/

/-- Ways in which a function does not return a value: the two `std::out_of_range`
exceptions thrown by `checkIndices`, the `std::runtime_error` of the file functions for the
file of the given name, and an
access that C++ leaves undefined (an element outside a live array, a null or dangling
`data_`, a second `delete[]`). -/
inductive Fault
  | mismatchedNumberOfIndices
  | indexOutOfBounds
  | errorOpeningFile (filename : List Char)
  | undefinedBehaviour
  deriving DecidableEq, Repr

deriving instance DecidableEq for Except

/-- Text carried by the exception (`what()`); the undefined accesses carry none. -/
def Fault.what : Fault → String
  | Fault.mismatchedNumberOfIndices => "Mismatched number of indices"
  | Fault.indexOutOfBounds => "Index out of bounds"
  | Fault.errorOpeningFile filename => "Error opening file: " ++ String.mk filename
  | Fault.undefinedBehaviour => ""

/-! ## Objects and memory -/

/-- Private fields of `Tensor<ComponentType>` (tensor.hpp lines 86-89).  `data_` is a pointer:
`none` is `nullptr`, `some p` the address of an array in `Memory.arrays`. -/
structure Tensor where
  rank_ : Nat
  matrix_shape : List Nat
  elements_ : Nat
  data_ : Option Nat
  deriving DecidableEq, Repr

/-- Program memory: the tensor object stored at each address, and the arrays obtained from
`new ComponentType[n]`, indexed by their address; an entry is `none` once `delete[]` ran on
it.  Addresses of arrays are never reused. -/
structure Memory (α : Type) where
  tensors : Nat → Tensor
  arrays : List (Option (List α))

/-- Live array behind a pointer, if any (`none` for `nullptr`, a deleted or an unknown
address). -/
def Memory.array {α : Type} (m : Memory α) : Option Nat → Option (List α)
  | none => none
  | some p => m.arrays.getD p none

/-- Overwrite the fields of the tensor object at address `self`. -/
def Memory.setTensor {α : Type} (m : Memory α) (self : Nat) (t : Tensor) : Memory α :=
  Memory.mk (fun q => if q = self then t else m.tensors q) m.arrays

/-- Memory after `new ComponentType[buf.length]` whose elements were then set to `buf`
(by `std::fill` or `std::copy`); the new array gets the next unused address
`m.arrays.length`. -/
def Memory.newArray {α : Type} (m : Memory α) (buf : List α) : Memory α :=
  Memory.mk m.tensors (m.arrays ++ [some buf])

/-- Effect of `delete[] p`: nothing for `nullptr`, the array is released when `p` is live,
undefined otherwise. -/
def Memory.deleteArray {α : Type} (m : Memory α) : Option Nat → Except Fault (Memory α)
  | none => Except.ok m
  | some p =>
    match m.array (some p) with
    | some _ => Except.ok (Memory.mk m.tensors (m.arrays.set p none))
    | none => Except.error Fault.undefinedBehaviour

/-- Elements read by `std::copy(src, src + n, dst)`: the first `n` elements of the array at
`src`.  Nothing is read when `n = 0` and `src` is `nullptr`; reading past the end of the
array or through a dangling pointer is undefined. -/
def Memory.copyRange {α : Type} (m : Memory α) (src : Option Nat) (n : Nat) :
    Except Fault (List α) :=
  match src with
  | none => if n = 0 then Except.ok [] else Except.error Fault.undefinedBehaviour
  | some p =>
    match m.array (some p) with
    | some buf => if n ≤ buf.length then Except.ok (buf.take n)
                  else Except.error Fault.undefinedBehaviour
    | none => Except.error Fault.undefinedBehaviour

/-! ## Private helpers (tensor.hpp lines 91-120) -/

/-- Translation of `calculateNumElements` (lines 91-97): the running product over the extents,
in `size_t`. -/
def calculateNumElements (matrix_shape : List Nat) : Nat :=
  matrix_shape.foldl (fun numElements dimensionSize => numElements * dimensionSize % sizeMod) 1

/-- Loop of `checkIndices` (lines 103-107) over `i = 0, 1, ...`, on the remaining
`idx[i..]` and `matrix_shape[i..]`; it runs only when both have the same length. -/
def checkIndicesLoop : List Nat → List Nat → Except Fault Unit
  | i :: idx, d :: matrix_shape =>
    if i ≥ d then Except.error Fault.indexOutOfBounds else checkIndicesLoop idx matrix_shape
  | _, _ => Except.ok ()

/-- Translation of `checkIndices` (lines 98-108): the arity test comes first, then the
bounds loop. -/
def checkIndices (matrix_shape idx : List Nat) : Except Fault Unit :=
  if idx.length ≠ matrix_shape.length then Except.error Fault.mismatchedNumberOfIndices
  else checkIndicesLoop idx matrix_shape

/-- Loop of `calculateFlatIndex` (lines 114-117).  The first argument is `i + 1` for the loop
variable `i`, so `0` is the exit `i = -1`; each pass runs
`flatIndex += idx[i] * multiplier; multiplier *= matrix_shape[i]` in `size_t`.  The loop is
only entered with `i < matrix_shape.size() = idx.size()`, so the default of `getD` is never
used. -/
def flatIndexLoop (matrix_shape idx : List Nat) : Nat → Nat → Nat → Nat
  | 0, flatIndex, _ => flatIndex
  | i + 1, flatIndex, multiplier =>
    flatIndexLoop matrix_shape idx i
      ((flatIndex + idx.getD i 0 * multiplier % sizeMod) % sizeMod)
      (multiplier * matrix_shape.getD i 0 % sizeMod)

/-- Translation of `calculateFlatIndex` (lines 110-120).  The loop variable is an `int`
initialised from the `size_t` value `matrix_shape.size() - 1`; the loop runs for
`i, i-1, ..., 0`, that is `i + 1` passes when the start value `i` is not negative and none
when it is negative (`Int.toNat` of `i + 1`), in which case `flatIndex` stays `0`. -/
def calculateFlatIndex (matrix_shape idx : List Nat) : Nat :=
  flatIndexLoop matrix_shape idx
    (toInt ((matrix_shape.length + sizeMod - 1) % sizeMod) + 1).toNat 0 1

/-! ## Public members (tensor.hpp lines 19-76) -/

/-- Translation of `rank()` (lines 55-57). -/
def Tensor.rank (t : Tensor) : Nat := t.matrix_shape.length

/-- Translation of `numElements()` (lines 62-64). -/
def Tensor.numElements (t : Tensor) : Nat := t.elements_

/-- Translation of the default constructor (lines 19-22) run on the storage at `self`:
`matrix_shape` is default-initialised to the empty vector, `data_` points to a new array of
one `ComponentType{}`, and `rank_` and `elements_` are not assigned: they keep whatever the
storage held. -/
def Tensor.defaultCtor {α : Type} [Zero α] (m : Memory α) (self : Nat) : Memory α :=
  (m.newArray [(0 : α)]).setTensor self
    (Tensor.mk (m.tensors self).rank_ [] (m.tensors self).elements_ (some m.arrays.length))

/-- Translation of `Tensor(matrix_shape, fillValue)` (lines 32-38) run on the storage at
`self`. -/
def Tensor.fillCtor {α : Type} (m : Memory α) (self : Nat) (matrix_shape : List Nat)
    (fillValue : α) : Memory α :=
  (m.newArray (List.replicate (calculateNumElements matrix_shape) fillValue)).setTensor self
    (Tensor.mk matrix_shape.length matrix_shape (calculateNumElements matrix_shape)
      (some m.arrays.length))

/-- Translation of `Tensor(matrix_shape)` (lines 24-30): as `fillCtor` with
`ComponentType{}`, the zero of an arithmetic type. -/
def Tensor.shapeCtor {α : Type} [Zero α] (m : Memory α) (self : Nat)
    (matrix_shape : List Nat) : Memory α :=
  (m.newArray (List.replicate (calculateNumElements matrix_shape) (0 : α))).setTensor self
    (Tensor.mk matrix_shape.length matrix_shape (calculateNumElements matrix_shape)
      (some m.arrays.length))

/-- Translation of the read through `operator()` (lines 66-70 and, when the reference it
returns is only read, 72-76): `checkIndices`, then `data_[calculateFlatIndex(idx)]`. -/
def Tensor.call {α : Type} (m : Memory α) (self : Nat) (idx : List Nat) : Except Fault α :=
  match checkIndices (m.tensors self).matrix_shape idx with
  | Except.error e => Except.error e
  | Except.ok _ =>
    match m.array (m.tensors self).data_ with
    | none => Except.error Fault.undefinedBehaviour
    | some buf =>
      match buf[calculateFlatIndex (m.tensors self).matrix_shape idx]? with
      | some x => Except.ok x
      | none => Except.error Fault.undefinedBehaviour

/-- Translation of the write `t(idx) = v` through the mutable `operator()` (lines 72-76):
the same checks and offset, then the element of the array is overwritten. -/
def Tensor.assignAt {α : Type} (m : Memory α) (self : Nat) (idx : List Nat) (v : α) :
    Except Fault (Memory α) :=
  match checkIndices (m.tensors self).matrix_shape idx with
  | Except.error e => Except.error e
  | Except.ok _ =>
    match (m.tensors self).data_ with
    | none => Except.error Fault.undefinedBehaviour
    | some p =>
      match m.array (some p) with
      | none => Except.error Fault.undefinedBehaviour
      | some buf =>
        if calculateFlatIndex (m.tensors self).matrix_shape idx < buf.length then
          Except.ok (Memory.mk m.tensors (m.arrays.set p
            (some (buf.set (calculateFlatIndex (m.tensors self).matrix_shape idx) v))))
        else Except.error Fault.undefinedBehaviour

/-! ## Reference notions used by the specification -/

/-- Row-major offset as the specification words it: the sum over `k` of
`idx[k] * product(shape[k+1 .. rank-1])`, in unbounded arithmetic. -/
def rowMajorOffset (shape idx : List Nat) : Nat :=
  ((List.range shape.length).map (fun k => idx.getD k 0 * (shape.drop (k + 1)).prod)).sum

/-- A multi-index is valid for a shape: one component per dimension, each below its
extent. -/
def ValidIndex (shape idx : List Nat) : Prop :=
  idx.length = shape.length ∧ ∀ k, k < shape.length → idx.getD k 0 < shape.getD k 0

instance (shape idx : List Nat) : Decidable (ValidIndex shape idx) := by
  unfold ValidIndex; infer_instance

/-- Memory with no array, every tensor storage zeroed. -/
def Memory.empty (α : Type) : Memory α := Memory.mk (fun _ => Tensor.mk 0 [] 0 none) []

/-! ## Copy and move (tensor.hpp lines 123-172) -/

/-- Translation of the copy constructor (lines 123-130) run on the storage at `self`: the
three fields are copied, a new array of `other.elements_` elements is made and filled by
`std::copy` from `other.data_`. -/
def Tensor.copyCtor {α : Type} (m : Memory α) (self other : Nat) : Except Fault (Memory α) :=
  match m.copyRange (m.tensors other).data_ (m.tensors other).elements_ with
  | Except.error e => Except.error e
  | Except.ok buf =>
    Except.ok ((m.newArray buf).setTensor self
      (Tensor.mk (m.tensors other).rank_ (m.tensors other).matrix_shape
        (m.tensors other).elements_ (some m.arrays.length)))

/-- State in which the move members leave their source (lines 138-140, 167-169): `rank_` and
`elements_` are set to `0`, `data_` to `nullptr`, and `matrix_shape` is the vector that
`std::move` was applied to, which the standard library leaves empty. -/
def Tensor.movedFrom : Tensor := Tensor.mk 0 [] 0 none

/-- Translation of the move constructor (lines 132-141) run on the storage at `self`: the
fields of `other`, pointer included, are taken over and `other` is reset. -/
def Tensor.moveCtor {α : Type} (m : Memory α) (self other : Nat) : Memory α :=
  (m.setTensor self (m.tensors other)).setTensor other Tensor.movedFrom

/-- Translation of copy assignment (lines 143-155).  `self` and `other` are the addresses
`this` and `&other`; when they differ the old array is deleted and the object is rebuilt as
in the copy constructor. -/
def Tensor.copyAssign {α : Type} (m : Memory α) (self other : Nat) : Except Fault (Memory α) :=
  if self ≠ other then
    match m.deleteArray (m.tensors self).data_ with
    | Except.error e => Except.error e
    | Except.ok m1 =>
      match m1.copyRange (m1.tensors other).data_ (m1.tensors other).elements_ with
      | Except.error e => Except.error e
      | Except.ok buf =>
        Except.ok ((m1.newArray buf).setTensor self
          (Tensor.mk (m1.tensors other).rank_ (m1.tensors other).matrix_shape
            (m1.tensors other).elements_ (some m1.arrays.length)))
  else Except.ok m

/-- Translation of move assignment (lines 157-172): when `this` and `&other` differ the old
array is deleted, the fields of `other` are taken over and `other` is reset. -/
def Tensor.moveAssign {α : Type} (m : Memory α) (self other : Nat) : Except Fault (Memory α) :=
  if self ≠ other then
    match m.deleteArray (m.tensors self).data_ with
    | Except.error e => Except.error e
    | Except.ok m1 =>
      Except.ok ((m1.setTensor self (m1.tensors other)).setTensor other Tensor.movedFrom)
  else Except.ok m

/-! ## Equality (tensor.hpp lines 174-189) -/

/-- Loop of `operator==` (lines 181-185) from index `i` with the given number of passes
left; `!=` on the component type is the negation of equality (integer components). -/
def equalLoop {α : Type} [DecidableEq α] (a b : Option (List α)) : Nat → Nat → Except Fault Bool
  | _, 0 => Except.ok true
  | i, remaining + 1 =>
    match a.bind (fun buf => buf[i]?), b.bind (fun buf => buf[i]?) with
    | some x, some y => if x ≠ y then Except.ok false else equalLoop a b (i + 1) remaining
    | _, _ => Except.error Fault.undefinedBehaviour

/-- Translation of `operator==` (lines 174-189) on the tensors at addresses `a` and `b`:
`elements_` is compared first, then the arrays position by position. -/
def Tensor.operatorEq {α : Type} [DecidableEq α] (m : Memory α) (a b : Nat) : Except Fault Bool :=
  if (m.tensors a).elements_ ≠ (m.tensors b).elements_ then Except.ok false
  else equalLoop (m.array (m.tensors a).data_) (m.array (m.tensors b).data_) 0
    (m.tensors a).numElements

/-! ## Reading a file (tensor.hpp lines 229-252) -/

/-- Formatted extraction on `std::ifstream`, which is library code: `extractSize file n` is
`file >> n` for a `size_t` variable currently holding `n`, `extractValue file x` the same
for a component; each gives the new value of the variable and the stream afterwards. -/
structure IStream (σ α : Type) where
  extractSize : σ → Nat → Nat × σ
  extractValue : σ → α → α × σ

/-- Loop of lines 241-243, `file >> shape[i]` for `i` up to `rank`; the first argument
counts the passes left. -/
def readShapeLoop {σ α : Type} (io : IStream σ α) : Nat → Nat → σ → List Nat → List Nat × σ
  | 0, _, file, shape => (shape, file)
  | remaining + 1, i, file, shape =>
    readShapeLoop io remaining (i + 1) (io.extractSize file (shape.getD i 0)).2
      (shape.set i (io.extractSize file (shape.getD i 0)).1)

/-- Loop of lines 247-249, `file >> tensor.data_[i]` for `i` up to `numElements()`, on the
contents of the array. -/
def readDataLoop {σ α : Type} (io : IStream σ α) :
    Nat → Nat → σ → List α → Except Fault (List α × σ)
  | 0, _, file, buf => Except.ok (buf, file)
  | remaining + 1, i, file, buf =>
    match buf[i]? with
    | none => Except.error Fault.undefinedBehaviour
    | some x =>
      readDataLoop io remaining (i + 1) (io.extractValue file x).2
        (buf.set i (io.extractValue file x).1)

/-- Lines 237-243: `file >> rank`, the vector `shape(rank)` of `rank` zeros, then the shape
loop.  `rank` is the value the uninitialised local holds before the extraction. -/
def readShape {σ α : Type} (io : IStream σ α) (file : σ) (rank : Nat) : List Nat × σ :=
  readShapeLoop io (io.extractSize file rank).1 0 (io.extractSize file rank).2
    (List.replicate (io.extractSize file rank).1 0)

/-- Lines 247-249 on the tensor at `self`: the data loop runs `numElements()` times on the
array behind `data_`. -/
def readData {σ α : Type} (io : IStream σ α) (m : Memory α) (self : Nat) (file : σ) :
    Except Fault (Memory α × σ) :=
  match (m.tensors self).data_ with
  | none => Except.error Fault.undefinedBehaviour
  | some p =>
    match m.array (some p) with
    | none => Except.error Fault.undefinedBehaviour
    | some buf =>
      match readDataLoop io (m.tensors self).numElements 0 file buf with
      | Except.error e => Except.error e
      | Except.ok r => Except.ok (Memory.mk m.tensors (m.arrays.set p (some r.1)), r.2)

/-- Translation of `readTensorFromFile` (lines 229-252), the returned tensor being built on
the storage at `self`.  `file` is the stream opened on `filename`, `none` when the file
cannot be opened; `rank` is the value the uninitialised local `rank` holds before
`file >> rank`. -/
def readTensorFromFile {σ α : Type} [Zero α] (io : IStream σ α) (filename : List Char)
    (file : Option σ) (m : Memory α) (self : Nat) (rank : Nat) : Except Fault (Memory α) :=
  match file with
  | none => Except.error (Fault.errorOpeningFile filename)
  | some f =>
    match readData io (Tensor.shapeCtor m self (readShape io f rank).1) self
        (readShape io f rank).2 with
    | Except.error e => Except.error e
    | Except.ok r => Except.ok r.1

/-! ## State predicates of the specification -/

/-- Contents of the buffer a tensor points to; empty for `nullptr` and for a pointer to no
live array. -/
def Memory.buffer {α : Type} (m : Memory α) (t : Tensor) : List α :=
  (m.array t.data_).getD []

/-- The tensor owns a buffer of exactly `elements_` values ("buffer length ==
elementCount"): `data_` points to a live array of that length, or it is `nullptr` and
`elements_` is `0`. -/
def Tensor.HoldsElements {α : Type} (m : Memory α) (t : Tensor) : Prop :=
  (t.data_ = none ∧ t.elements_ = 0) ∨
    (t.data_ ≠ none ∧ (m.array t.data_).map List.length = some t.elements_)

instance {α : Type} (m : Memory α) (t : Tensor) : Decidable (Tensor.HoldsElements m t) := by
  unfold Tensor.HoldsElements; infer_instance

/-- State predicate of the specification (section 3): buffer length == elementCount ==
product(shape), the product being the `size_t` product that `numElements()` reports, and
rank == length(shape). -/
def Tensor.Consistent {α : Type} (m : Memory α) (t : Tensor) : Prop :=
  Tensor.HoldsElements m t ∧ t.elements_ = t.matrix_shape.prod % 2 ^ 64 ∧
    t.rank_ = t.matrix_shape.length

instance {α : Type} (m : Memory α) (t : Tensor) : Decidable (Tensor.Consistent m t) := by
  unfold Tensor.Consistent; infer_instance

/-- The statement `delete[] data_` is defined for the tensor: `data_` is `nullptr` or points
to a live array. -/
def Tensor.Deletable {α : Type} (m : Memory α) (t : Tensor) : Prop :=
  t.data_ = none ∨ (m.array t.data_).isSome = true

instance {α : Type} (m : Memory α) (t : Tensor) : Decidable (Tensor.Deletable m t) := by
  unfold Tensor.Deletable; infer_instance

/-- Two tensor objects do not share an array (exclusive ownership of the buffer). -/
def Tensor.Unshared (t u : Tensor) : Prop :=
  t.data_ = u.data_ → t.data_ = none

instance (t u : Tensor) : Decidable (Tensor.Unshared t u) := by
  unfold Tensor.Unshared; infer_instance

/-! ## Reference notions for the offset map -/

/-- Number of passes of the loop of `calculateFlatIndex` for a tensor of the given rank:
`i + 1` for the `int` start value `i` of the loop variable, none when it is negative. -/
def flatIndexPasses (rank : Nat) : Nat :=
  (toInt ((rank + sizeMod - 1) % sizeMod) + 1).toNat

/-- The loop of `calculateFlatIndex` with every `size_t` operation watched: the same passes
in unbounded arithmetic, giving `none` as soon as `idx[i] * multiplier`, the new
`flatIndex` or the new `multiplier` does not fit in 64 bits. -/
def flatIndexLoopChecked (matrix_shape idx : List Nat) : Nat → Nat → Nat → Option Nat
  | 0, flatIndex, _ => some flatIndex
  | i + 1, flatIndex, multiplier =>
    if idx.getD i 0 * multiplier < sizeMod ∧
        flatIndex + idx.getD i 0 * multiplier < sizeMod ∧
        multiplier * matrix_shape.getD i 0 < sizeMod then
      flatIndexLoopChecked matrix_shape idx i (flatIndex + idx.getD i 0 * multiplier)
        (multiplier * matrix_shape.getD i 0)
    else none

/-- Watched version of `calculateFlatIndex`: its result when no intermediate value wraps
around, `none` otherwise. -/
def calculateFlatIndexChecked (matrix_shape idx : List Nat) : Option Nat :=
  flatIndexLoopChecked matrix_shape idx (flatIndexPasses matrix_shape.length) 0 1

/-- Lexicographic comparison of two multi-indices of the same length, first dimension most
significant. -/
def lexLessB : List Nat → List Nat → Bool
  | i :: idx, j :: jdx => decide (i < j) || (decide (i = j) && lexLessB idx jdx)
  | _, _ => false

/-- The multi-index `idx` comes before `jdx` in lexicographic order. -/
def lexLess (idx jdx : List Nat) : Prop := lexLessB idx jdx = true

instance (idx jdx : List Nat) : Decidable (lexLess idx jdx) := by
  unfold lexLess; infer_instance

/-! ## Text of a stream

The stream operators `<<` and `>>` on numbers are library code; what follows is their
behaviour for the default formatting flags (decimal, `skipws`). -/

/-- Decimal digit `d` as a character. -/
def digitChar (d : Nat) : Char := Char.ofNat (48 + d)

/-- Decimal numeral of `n`, most significant digit first; the first argument bounds the
number of digits. -/
def renderNatAux : Nat → Nat → List Char
  | 0, _ => []
  | fuel + 1, n =>
    if n < 10 then [digitChar n] else renderNatAux fuel (n / 10) ++ [digitChar (n % 10)]

/-- Library behaviour of `out << n` for an unsigned integer such as `size_t`: the decimal
numeral. -/
def renderNat (n : Nat) : List Char := renderNatAux (n + 1) n

/-- Library behaviour of `out << x` for a signed or unsigned integer type other than the
character types: a minus sign for a negative value, then the decimal numeral. -/
def renderInt (x : Int) : List Char :=
  if x < 0 then '-' :: renderNat x.natAbs else renderNat x.natAbs

/-- Library behaviour of `out << c` for a character type: the character itself. -/
def renderChar (c : Char) : List Char := [c]

/-- Decimal digits `0` to `9`. -/
def isDigit (c : Char) : Bool := decide (48 ≤ c.toNat) && decide (c.toNat ≤ 57)

/-- White space of `std::isspace` in the classic locale: space, `\t`, `\n`, `\v`, `\f`,
`\r`. -/
def isSpace (c : Char) : Bool :=
  decide (c.toNat = 32) || (decide (9 ≤ c.toNat) && decide (c.toNat ≤ 13))

/-- Value of a run of decimal digits. -/
def digitsValue (ds : List Char) : Nat :=
  ds.foldl (fun acc c => acc * 10 + (c.toNat - 48)) 0

/-- An input file stream: the characters not yet read, and whether `failbit` is set. -/
structure IFStream where
  rest : List Char
  fail : Bool
  deriving DecidableEq, Repr

/-- Characters after an optional sign. -/
def afterSign : List Char → List Char
  | c :: cs => if c = '-' ∨ c = '+' then cs else c :: cs
  | [] => []

/-- The field starts with a minus sign. -/
def hasMinus : List Char → Bool
  | c :: _ => decide (c = '-')
  | [] => false

/-- What the first stages of a numeric extraction find. -/
inductive Scanned
  | untouched (st : IFStream)
  | noDigits (st : IFStream)
  | number (negative : Bool) (magnitude : Nat) (st : IFStream)
  deriving DecidableEq, Repr

/-- Library behaviour of the common part of `in >> n` for an integer `n`.  On a stream that
has failed, or that ends after the leading white space, nothing is extracted and the
variable is left untouched (`failbit` is set).  Otherwise an optional sign and the longest
run of digits are consumed; with no digit the extraction fails. -/
def scanInteger (st : IFStream) : Scanned :=
  if st.fail then Scanned.untouched st
  else if st.rest.dropWhile isSpace = [] then Scanned.untouched (IFStream.mk [] true)
  else if (afterSign (st.rest.dropWhile isSpace)).takeWhile isDigit = [] then
    Scanned.noDigits
      (IFStream.mk ((afterSign (st.rest.dropWhile isSpace)).dropWhile isDigit) true)
  else
    Scanned.number (hasMinus (st.rest.dropWhile isSpace))
      (digitsValue ((afterSign (st.rest.dropWhile isSpace)).takeWhile isDigit))
      (IFStream.mk ((afterSign (st.rest.dropWhile isSpace)).dropWhile isDigit) false)

/-- Library behaviour of `in >> n` for a `size_t` variable holding `current`: the value read
when it fits in 64 bits (negated modulo `2^64` after a minus sign), the largest value and
`failbit` when it does not fit, `0` and `failbit` when there is no digit. -/
def extractSize (st : IFStream) (current : Nat) : Nat × IFStream :=
  match scanInteger st with
  | Scanned.untouched st1 => (current, st1)
  | Scanned.noDigits st1 => (0, st1)
  | Scanned.number negative magnitude st1 =>
    if sizeMod ≤ magnitude then (sizeMod - 1, IFStream.mk st1.rest true)
    else if negative then ((sizeMod - magnitude) % sizeMod, st1)
    else (magnitude, st1)

/-- Smallest value of an integer type of the given signedness and width. -/
def intLo (signed : Bool) (bits : Nat) : Int :=
  if signed then -(2 ^ (bits - 1)) else 0

/-- Largest value of an integer type of the given signedness and width. -/
def intHi (signed : Bool) (bits : Nat) : Int :=
  if signed then 2 ^ (bits - 1) - 1 else 2 ^ bits - 1

/-- Library behaviour of `in >> x` for a variable `x` of an integer type other than the
character types, holding `current`: the value read when the type can represent it, the
nearest bound of the type and `failbit` when it cannot, `0` and `failbit` when there is no
digit; an unsigned type takes a negative numeral modulo `2^bits`. -/
def extractInteger (signed : Bool) (bits : Nat) (st : IFStream) (current : Int) :
    Int × IFStream :=
  match scanInteger st with
  | Scanned.untouched st1 => (current, st1)
  | Scanned.noDigits st1 => (0, st1)
  | Scanned.number negative magnitude st1 =>
    if signed then
      if negative then
        if -(magnitude : Int) < intLo signed bits then
          (intLo signed bits, IFStream.mk st1.rest true)
        else (-(magnitude : Int), st1)
      else if intHi signed bits < (magnitude : Int) then
        (intHi signed bits, IFStream.mk st1.rest true)
      else ((magnitude : Int), st1)
    else if intHi signed bits < (magnitude : Int) then
      (intHi signed bits, IFStream.mk st1.rest true)
    else if negative then ((2 ^ bits - (magnitude : Int)) % 2 ^ bits, st1)
    else ((magnitude : Int), st1)

/-- Library behaviour of `in >> c` for a variable of a character type: the next character
after the leading white space; on a failed stream or at the end of the file the variable is
left untouched and `failbit` is set. -/
def extractChar (st : IFStream) (current : Char) : Char × IFStream :=
  if st.fail then (current, st)
  else
    match st.rest.dropWhile isSpace with
    | [] => (current, IFStream.mk [] true)
    | c :: cs => (c, IFStream.mk cs false)

/-- The stream operations of `readTensorFromFile` for a tensor of an integer component
type of the given signedness and width. -/
def integerStream (signed : Bool) (bits : Nat) : IStream IFStream Int :=
  IStream.mk extractSize (extractInteger signed bits)

/-- The stream operations of `readTensorFromFile` for a tensor of `char`. -/
def charStream : IStream IFStream Char :=
  IStream.mk extractSize extractChar

instance : Zero Char := ⟨Char.ofNat 0⟩

/-! ## Writing a file and printing (tensor.hpp lines 212-227 and 254-275) -/

/-- Loop of lines 265-267: `file << shape[i] << '\n'` from index `i`, with the given number
of passes left (`rank()` at the start); reading outside the vector is undefined. -/
def writeShape (shape : List Nat) : Nat → Nat → Except Fault (List Char)
  | 0, _ => Except.ok []
  | remaining + 1, i =>
    match shape[i]? with
    | none => Except.error Fault.undefinedBehaviour
    | some d =>
      match writeShape shape remaining (i + 1) with
      | Except.error e => Except.error e
      | Except.ok text => Except.ok (renderNat d ++ '\n' :: text)

/-- Loop of lines 270-272: `file << data[i] << ' '` from index `i`, with the given number of
passes left; reading outside the array is undefined. -/
def writeData {α : Type} (render : α → List Char) (data : Option (List α)) :
    Nat → Nat → Except Fault (List Char)
  | 0, _ => Except.ok []
  | remaining + 1, i =>
    match data.bind (fun buf => buf[i]?) with
    | none => Except.error Fault.undefinedBehaviour
    | some x =>
      match writeData render data remaining (i + 1) with
      | Except.error e => Except.error e
      | Except.ok text => Except.ok (render x ++ ' ' :: text)

/-- Translation of `writeTensorToFile` (lines 254-275) for the tensor at address `tensor`.
`opened` tells whether the file could be opened; the result is the text of the file and
the notice sent to the standard output. -/
def writeTensorToFile {α : Type} (render : α → List Char) (m : Memory α) (tensor : Nat)
    (opened : Bool) (filename : List Char) : Except Fault (List Char × List Char) :=
  if opened then
    match writeShape (m.tensors tensor).matrix_shape (m.tensors tensor).rank 0 with
    | Except.error e => Except.error e
    | Except.ok extents =>
      match writeData render (m.array (m.tensors tensor).data_)
          (m.tensors tensor).numElements 0 with
      | Except.error e => Except.error e
      | Except.ok text =>
        Except.ok (renderNat (m.tensors tensor).rank ++ '\n' :: (extents ++ text),
          "Tensor written to file: ".toList ++ filename ++ ['\n'])
  else Except.error (Fault.errorOpeningFile filename)

/-- Loop of lines 220-225 of `printTensorElements`: each pass sends the output `body` of
the recursive call, then `", "` when `i < extent - 1`.  The first argument counts the
passes left; inside the loop `extent` is at least `1`, so `extent - 1` does not wrap. -/
def printLoop (body : Except Fault (List Char)) (extent : Nat) :
    Nat → Nat → Except Fault (List Char)
  | 0, _ => Except.ok []
  | remaining + 1, i =>
    match body with
    | Except.error e => Except.error e
    | Except.ok text =>
      match printLoop body extent remaining (i + 1) with
      | Except.error e => Except.error e
      | Except.ok more =>
        Except.ok (text ++ (if i < extent - 1 then [',', ' '] else []) ++ more)

/-- Translation of `printTensorElements` (lines 212-227); the arguments after `shape` are
`rank` and `currentIndex`.  With `rank == 0` it sends `data[currentIndex]` and `std::endl`;
otherwise `"["`, then `shape[currentIndex]` times the output of the call with `rank - 1`
and `currentIndex + 1`, then `"]"`. -/
def printTensorElements {α : Type} (render : α → List Char) (data : List α)
    (shape : List Nat) : Nat → Nat → Except Fault (List Char)
  | 0, currentIndex =>
    match data[currentIndex]? with
    | none => Except.error Fault.undefinedBehaviour
    | some x => Except.ok (render x ++ ['\n'])
  | rank + 1, currentIndex =>
    match shape[currentIndex]? with
    | none => Except.error Fault.undefinedBehaviour
    | some extent =>
      match printLoop (printTensorElements render data shape rank (currentIndex + 1))
          extent extent 0 with
      | Except.error e => Except.error e
      | Except.ok text => Except.ok ('[' :: (text ++ [']']))

/-- Text of a sequence of extents, each as a decimal numeral followed by `'\n'`. -/
def shapeText : List Nat → List Char
  | [] => []
  | d :: matrix_shape => renderNat d ++ '\n' :: shapeText matrix_shape

/-- Text of a sequence of values in flat order, each followed by a single space. -/
def valuesText {α : Type} (render : α → List Char) : List α → List Char
  | [] => []
  | x :: xs => render x ++ ' ' :: valuesText render xs

/-- Text of `k` element tokens in the format of the file: decimal numerals separated by
one space, the last one followed by a space when `trailing` holds and by the end of the
file otherwise. -/
def tokensText {α : Type} (render : α → List Char) (trailing : Bool) : List α → List Char
  | [] => []
  | [x] => render x ++ (if trailing then [' '] else [])
  | x :: y :: xs => render x ++ ' ' :: tokensText render trailing (y :: xs)

/-! ## Lemmas on the private helpers -/

theorem foldl_mul_mod (s : List Nat) (a : Nat) :
    s.foldl (fun numElements dimensionSize => numElements * dimensionSize % sizeMod)
      (a % sizeMod) = a * s.prod % sizeMod := by
  induction s generalizing a with
  | nil => simp
  | cons d ds ih =>
    simp only [List.foldl_cons, List.prod_cons]
    rw [Nat.mod_mul_mod, ih, Nat.mul_assoc]

theorem calculateNumElements_eq (s : List Nat) : calculateNumElements s = s.prod % sizeMod := by
  have h := foldl_mul_mod s 1
  have h1 : 1 % sizeMod = 1 := by decide
  rw [h1, Nat.one_mul] at h
  exact h

theorem checkIndicesLoop_cases (idx s : List Nat) :
    checkIndicesLoop idx s = Except.ok () ∨
      checkIndicesLoop idx s = Except.error Fault.indexOutOfBounds := by
  induction idx generalizing s with
  | nil => left; simp [checkIndicesLoop]
  | cons i idx ih =>
    cases s with
    | nil => left; simp [checkIndicesLoop]
    | cons d ds =>
      simp only [checkIndicesLoop]
      split
      · right; rfl
      · exact ih ds

theorem checkIndicesLoop_ok_iff (idx s : List Nat) (h : idx.length = s.length) :
    checkIndicesLoop idx s = Except.ok () ↔
      ∀ k, k < s.length → idx.getD k 0 < s.getD k 0 := by
  induction idx generalizing s with
  | nil =>
    cases s with
    | nil => simp [checkIndicesLoop]
    | cons d ds => simp at h
  | cons i idx ih =>
    cases s with
    | nil => simp at h
    | cons d ds =>
      simp only [List.length_cons, Nat.add_right_cancel_iff] at h
      simp only [checkIndicesLoop]
      constructor
      · intro hk k hlt
        by_cases hid : i ≥ d
        · simp [hid] at hk
        · simp only [hid, if_false] at hk
          cases k with
          | zero => simpa using hid
          | succ k =>
            have := (ih ds h).1 hk k (by simpa using hlt)
            simpa using this
      · intro hall
        have h0 := hall 0 (by simp)
        simp only [List.getD_cons_zero] at h0
        have hid : ¬ i ≥ d := by omega
        simp only [hid, if_false]
        refine (ih ds h).2 ?_
        intro k hk
        have := hall (k + 1) (by simpa using hk)
        simpa using this

theorem checkIndices_mismatch (s idx : List Nat) (h : idx.length ≠ s.length) :
    checkIndices s idx = Except.error Fault.mismatchedNumberOfIndices := by
  simp [checkIndices, h]

theorem checkIndices_ok_iff (s idx : List Nat) :
    checkIndices s idx = Except.ok () ↔ ValidIndex s idx := by
  unfold checkIndices ValidIndex
  by_cases h : idx.length = s.length
  · simp only [h, ne_eq, not_true_eq_false, if_false, true_and]
    exact checkIndicesLoop_ok_iff idx s h
  · simp [h]

theorem checkIndices_bounds_iff (s idx : List Nat) :
    checkIndices s idx = Except.error Fault.indexOutOfBounds ↔
      idx.length = s.length ∧ ∃ k, k < s.length ∧ s.getD k 0 ≤ idx.getD k 0 := by
  unfold checkIndices
  by_cases h : idx.length = s.length
  · simp only [h, ne_eq, not_true_eq_false, if_false, true_and]
    have hok := checkIndicesLoop_ok_iff idx s h
    rcases checkIndicesLoop_cases idx s with hc | hc
    · rw [hc]
      have := hok.1 hc
      constructor
      · intro hh; cases hh
      · rintro ⟨k, hk, hle⟩
        have := this k hk
        omega
    · rw [hc]
      simp only [true_iff]
      by_contra hcon
      push_neg at hcon
      have := hok.2 hcon
      rw [hc] at this
      cases this
  · simp [h]

/-! ## Element count of a constructed tensor -/

/-- C2: for every shape `s`, the tensors built by `Tensor(s)` and by `Tensor(s, fill)` report
`numElements()` equal to the `size_t` product of the extents, `product(s) mod 2^64`; this is
`1` for the empty shape, `0` when some extent is `0`, and the mathematical product whenever
that is below `2^64`. -/
theorem numElements_ctor_eq_prod {α : Type} [Zero α] (m : Memory α) (self : Nat)
    (s : List Nat) (fill : α) :
    (((Tensor.shapeCtor m self s).tensors self).numElements = s.prod % 2 ^ 64 ∧
      ((Tensor.fillCtor m self s fill).tensors self).numElements = s.prod % 2 ^ 64) ∧
    (s = [] → ((Tensor.shapeCtor m self s).tensors self).numElements = 1 ∧
      ((Tensor.fillCtor m self s fill).tensors self).numElements = 1) ∧
    (0 ∈ s → ((Tensor.shapeCtor m self s).tensors self).numElements = 0 ∧
      ((Tensor.fillCtor m self s fill).tensors self).numElements = 0) ∧
    (s.prod < 2 ^ 64 → ((Tensor.shapeCtor m self s).tensors self).numElements = s.prod ∧
      ((Tensor.fillCtor m self s fill).tensors self).numElements = s.prod) := by
  have h1 : ((Tensor.shapeCtor m self s).tensors self).numElements = s.prod % 2 ^ 64 := by
    simp [Tensor.shapeCtor, Memory.setTensor, Tensor.numElements, calculateNumElements_eq,
      sizeMod]
  have h2 : ((Tensor.fillCtor m self s fill).tensors self).numElements = s.prod % 2 ^ 64 := by
    simp [Tensor.fillCtor, Memory.setTensor, Tensor.numElements, calculateNumElements_eq,
      sizeMod]
  rw [h1, h2]
  refine ⟨⟨rfl, rfl⟩, ?_, ?_, ?_⟩
  · intro hs
    subst hs
    simp
  · intro h0
    have : s.prod = 0 := List.prod_eq_zero h0
    simp [this]
  · intro hlt
    rw [Nat.mod_eq_of_lt hlt]
    exact ⟨rfl, rfl⟩

/-- Instances of C2: shapes `[2,3]`, `[]`, `[2,0,3]` and the overflowing `[2^32, 2^32]`. -/
theorem numElements_ctor_eq_prod_witness :
    ((Tensor.shapeCtor (Memory.empty Int) 0 [2, 3]).tensors 0).numElements = 6 ∧
    ((Tensor.fillCtor (Memory.empty Int) 0 [] 7).tensors 0).numElements = 1 ∧
    ((Tensor.fillCtor (Memory.empty Int) 0 [2, 0, 3] 7).tensors 0).numElements = 0 ∧
    ((Tensor.shapeCtor (Memory.empty Int) 0 [2 ^ 32, 2 ^ 32]).tensors 0).numElements = 0 :=
  ⟨((numElements_ctor_eq_prod (Memory.empty Int) 0 [2, 3] 7).2.2.2 (by decide)).1,
   ((numElements_ctor_eq_prod (Memory.empty Int) 0 [] 7).2.1 rfl).2,
   ((numElements_ctor_eq_prod (Memory.empty Int) 0 [2, 0, 3] 7).2.2.1 (by decide)).2,
   (numElements_ctor_eq_prod (Memory.empty Int) 0 [2 ^ 32, 2 ^ 32] 7).1.1⟩

/-! ## The two reported errors of element access -/

/-- C3: for every tensor, of any rank, and every index list whose length differs from the
rank, element access (read or write) throws the arity error "Mismatched number of indices"
and yields no element, whatever the components of the index list are. -/
theorem call_arity_error {α : Type} (m : Memory α) (self : Nat) (idx : List Nat) (v : α)
    (h : idx.length ≠ (m.tensors self).rank) :
    Tensor.call m self idx = Except.error Fault.mismatchedNumberOfIndices ∧
    Tensor.assignAt m self idx v = Except.error Fault.mismatchedNumberOfIndices ∧
    Fault.mismatchedNumberOfIndices.what = "Mismatched number of indices" := by
  have hc := checkIndices_mismatch (m.tensors self).matrix_shape idx h
  refine ⟨?_, ?_, rfl⟩
  · simp [Tensor.call, hc]
  · simp [Tensor.assignAt, hc]

/-- Instance of C3: on a tensor of shape `[2,3]` the one-component index `(9)`, whose
component is also beyond every extent, gets the arity error. -/
theorem call_arity_error_witness :
    [9].length ≠ ((Tensor.shapeCtor (Memory.empty Int) 0 [2, 3]).tensors 0).rank ∧
    Tensor.call (Tensor.shapeCtor (Memory.empty Int) 0 [2, 3]) 0 [9] =
      Except.error Fault.mismatchedNumberOfIndices :=
  ⟨by decide, (call_arity_error (Tensor.shapeCtor (Memory.empty Int) 0 [2, 3]) 0 [9] 0
    (by decide)).1⟩

/-- C4: for every tensor and every index list with as many components as the rank, element
access throws the bounds error "Index out of bounds" exactly when some component `idx[k]`
is at least the extent `shape[k]`; so every such access to a tensor with a `0` extent throws
it, and an access with every `idx[k] < shape[k]` passes `checkIndices` and throws neither
`std::out_of_range`. -/
theorem call_bounds_error_iff {α : Type} (m : Memory α) (self : Nat) (idx : List Nat)
    (h : idx.length = (m.tensors self).rank) :
    (Tensor.call m self idx = Except.error Fault.indexOutOfBounds ↔
      ∃ k, k < (m.tensors self).rank ∧
        (m.tensors self).matrix_shape.getD k 0 ≤ idx.getD k 0) ∧
    ((∃ k, k < (m.tensors self).rank ∧ (m.tensors self).matrix_shape.getD k 0 = 0) →
      Tensor.call m self idx = Except.error Fault.indexOutOfBounds) ∧
    ((∀ k, k < (m.tensors self).rank →
        idx.getD k 0 < (m.tensors self).matrix_shape.getD k 0) →
      checkIndices (m.tensors self).matrix_shape idx = Except.ok () ∧
      Tensor.call m self idx ≠ Except.error Fault.indexOutOfBounds ∧
      Tensor.call m self idx ≠ Except.error Fault.mismatchedNumberOfIndices) ∧
    Fault.indexOutOfBounds.what = "Index out of bounds" := by
  have hiff := checkIndices_bounds_iff (m.tensors self).matrix_shape idx
  have hmain : Tensor.call m self idx = Except.error Fault.indexOutOfBounds ↔
      ∃ k, k < (m.tensors self).rank ∧
        (m.tensors self).matrix_shape.getD k 0 ≤ idx.getD k 0 := by
    rcases hc : checkIndices (m.tensors self).matrix_shape idx with e | u
    · have hcall : Tensor.call m self idx = Except.error e := by simp [Tensor.call, hc]
      rw [hcall]
      constructor
      · intro he
        have hee : e = Fault.indexOutOfBounds := by injection he
        subst hee
        exact (hiff.1 hc).2
      · intro hk
        have hee := hc.symm.trans (hiff.2 ⟨h, hk⟩)
        have hee2 : e = Fault.indexOutOfBounds := by injection hee
        rw [hee2]
    · constructor
      · intro hcall
        exfalso
        simp only [Tensor.call, hc] at hcall
        split at hcall
        · cases hcall
        · split at hcall <;> cases hcall
      · intro hk
        have := hiff.2 ⟨h, hk⟩
        rw [hc] at this
        cases this
  refine ⟨hmain, ?_, ?_, rfl⟩
  · rintro ⟨k, hk, h0⟩
    exact hmain.2 ⟨k, hk, by omega⟩
  · intro hall
    have hok : checkIndices (m.tensors self).matrix_shape idx = Except.ok () :=
      (checkIndices_ok_iff _ _).2 ⟨h, hall⟩
    refine ⟨hok, ?_, ?_⟩
    · intro hcall
      obtain ⟨k, hk, hle⟩ := hmain.1 hcall
      have := hall k hk
      omega
    · intro hcall
      simp only [Tensor.call, hok] at hcall
      split at hcall
      · cases hcall
      · split at hcall <;> cases hcall

/-- Instance of C4: on shape `[2,3]` the index `(1,3)` gets the bounds error. -/
theorem call_bounds_error_iff_witness :
    [1, 3].length = ((Tensor.shapeCtor (Memory.empty Int) 0 [2, 3]).tensors 0).rank ∧
    Tensor.call (Tensor.shapeCtor (Memory.empty Int) 0 [2, 3]) 0 [1, 3] =
      Except.error Fault.indexOutOfBounds :=
  ⟨by decide, (call_bounds_error_iff (Tensor.shapeCtor (Memory.empty Int) 0 [2, 3]) 0 [1, 3]
    (by decide)).1.2 ⟨1, by decide, by decide⟩⟩

/-! ## The offset computation -/

theorem rowMajorOffset_nil (idx : List Nat) : rowMajorOffset [] idx = 0 := by
  simp [rowMajorOffset]

theorem rowMajorOffset_cons (d i : Nat) (ds idx : List Nat) :
    rowMajorOffset (d :: ds) (i :: idx) = i * ds.prod + rowMajorOffset ds idx := by
  simp [rowMajorOffset, List.range_succ_eq_map, List.map_map, Function.comp_def]

theorem validIndex_cons (d i : Nat) (ds idx : List Nat) :
    ValidIndex (d :: ds) (i :: idx) ↔ i < d ∧ ValidIndex ds idx := by
  unfold ValidIndex
  constructor
  · rintro ⟨hl, hall⟩
    refine ⟨by simpa using hall 0 (by simp), by simpa using hl, ?_⟩
    intro k hk
    simpa using hall (k + 1) (by simpa using hk)
  · rintro ⟨hid, hl, hall⟩
    refine ⟨by simpa using hl, ?_⟩
    intro k hk
    cases k with
    | zero => simpa using hid
    | succ k => simpa using hall k (by simpa using hk)

theorem rowMajorOffset_lt_prod (s idx : List Nat) (hv : ValidIndex s idx) :
    rowMajorOffset s idx < s.prod := by
  induction s generalizing idx with
  | nil => simp [rowMajorOffset_nil]
  | cons d ds ih =>
    cases idx with
    | nil => simp [ValidIndex] at hv
    | cons i idx =>
      obtain ⟨hid, hv2⟩ := (validIndex_cons d i ds idx).1 hv
      have h1 := ih idx hv2
      rw [rowMajorOffset_cons, List.prod_cons]
      calc i * ds.prod + rowMajorOffset ds idx < i * ds.prod + ds.prod := by omega
        _ = (i + 1) * ds.prod := by ring
        _ ≤ d * ds.prod := Nat.mul_le_mul_right _ hid

theorem validIndex_pos (s idx : List Nat) (hv : ValidIndex s idx) : ∀ x ∈ s, 1 ≤ x := by
  intro x hx
  obtain ⟨k, hk, rfl⟩ := List.getElem_of_mem hx
  have := hv.2 k hk
  rw [List.getD_eq_getElem s 0 hk] at this
  omega

theorem prod_take_le (s : List Nat) (hpos : ∀ x ∈ s, 1 ≤ x) (n : Nat) :
    (s.take n).prod ≤ s.prod := by
  have h := List.prod_take_mul_prod_drop s n
  have h1 : 1 ≤ (s.drop n).prod :=
    List.one_le_prod_of_one_le (fun x hx => hpos x (List.mem_of_mem_drop hx))
  calc (s.take n).prod = (s.take n).prod * 1 := by ring
    _ ≤ (s.take n).prod * (s.drop n).prod := Nat.mul_le_mul_left _ h1
    _ = s.prod := h

theorem prod_drop_le (s : List Nat) (hpos : ∀ x ∈ s, 1 ≤ x) (n : Nat) :
    (s.drop n).prod ≤ s.prod := by
  have h := List.prod_take_mul_prod_drop s n
  have h1 : 1 ≤ (s.take n).prod :=
    List.one_le_prod_of_one_le (fun x hx => hpos x (List.mem_of_mem_take hx))
  calc (s.drop n).prod = 1 * (s.drop n).prod := by ring
    _ ≤ (s.take n).prod * (s.drop n).prod := Nat.mul_le_mul_right _ h1
    _ = s.prod := h

theorem validIndex_drop (s idx : List Nat) (hv : ValidIndex s idx) (k : Nat) :
    ValidIndex (s.drop k) (idx.drop k) := by
  refine ⟨by simp [hv.1], ?_⟩
  intro j hj
  have hj2 : k + j < s.length := by
    simp only [List.length_drop] at hj
    omega
  have := hv.2 (k + j) hj2
  simpa [List.getD_eq_getElem?_getD] using this

/-- Every pass of the loop keeps `flatIndex` below `multiplier`, so after the passes for
`i = n-1, ..., 0` the result is below the product of the first `n` extents. -/
theorem flatIndexLoop_lt (s idx : List Nat) (hv : ValidIndex s idx) (n : Nat) :
    ∀ flat mult, n ≤ s.length → flat < mult → mult * (s.take n).prod < sizeMod →
      flatIndexLoop s idx n flat mult < mult * (s.take n).prod := by
  have hpos := validIndex_pos s idx hv
  induction n with
  | zero =>
    intro flat mult _ hfm _
    simpa [flatIndexLoop] using hfm
  | succ n ih =>
    intro flat mult hn hfm hbound
    have hn2 : n < s.length := hn
    have hidx := hv.2 n hn2
    rw [List.getD_eq_getElem s 0 hn2] at hidx
    rw [List.prod_take_succ s n hn2] at hbound ⊢
    have h1 : 1 ≤ (s.take n).prod :=
      List.one_le_prod_of_one_le (fun x hx => hpos x (List.mem_of_mem_take hx))
    have hms : mult * s[n] ≤ mult * ((s.take n).prod * s[n]) :=
      Nat.mul_le_mul_left _ (Nat.le_mul_of_pos_left _ h1)
    have hms2 : mult * s[n] < sizeMod := by omega
    have hstep : flat + idx.getD n 0 * mult < mult * s[n] := by
      calc flat + idx.getD n 0 * mult < mult + idx.getD n 0 * mult := by omega
        _ = mult * (idx.getD n 0 + 1) := by ring
        _ ≤ mult * s[n] := Nat.mul_le_mul_left _ hidx
    have hle : (flat + idx.getD n 0 * mult % sizeMod) % sizeMod ≤ flat + idx.getD n 0 * mult :=
      (Nat.mod_le _ _).trans (Nat.add_le_add_left (Nat.mod_le _ _) _)
    simp only [flatIndexLoop]
    rw [List.getD_eq_getElem s 0 hn2, Nat.mod_eq_of_lt hms2]
    have := ih ((flat + idx.getD n 0 * mult % sizeMod) % sizeMod) (mult * s[n]) (by omega)
      (by omega) (by rw [Nat.mul_assoc, Nat.mul_comm s[n]]; exact hbound)
    calc flatIndexLoop s idx n ((flat + idx.getD n 0 * mult % sizeMod) % sizeMod) (mult * s[n])
        < mult * s[n] * (s.take n).prod := this
      _ = mult * ((s.take n).prod * s[n]) := by ring

/-- Run from the last dimension, the loop extends the offset of the trailing dimensions to
the offset of the whole index, with no wrap-around when the product of the extents fits. -/
theorem flatIndexLoop_eq (s idx : List Nat) (hv : ValidIndex s idx) (hp : s.prod < sizeMod)
    (k : Nat) (hk : k ≤ s.length) :
    flatIndexLoop s idx k (rowMajorOffset (s.drop k) (idx.drop k)) (s.drop k).prod =
      rowMajorOffset s idx := by
  have hpos := validIndex_pos s idx hv
  induction k with
  | zero => simp [flatIndexLoop]
  | succ k ih =>
    have hk2 : k < s.length := hk
    have hk3 : k < idx.length := by rw [hv.1]; exact hk2
    have hds : s.drop k = s[k] :: s.drop (k + 1) := List.drop_eq_getElem_cons hk2
    have hdi : idx.drop k = idx[k] :: idx.drop (k + 1) := List.drop_eq_getElem_cons hk3
    have hoff := rowMajorOffset_lt_prod _ _ (validIndex_drop s idx hv k)
    have hle := prod_drop_le s hpos k
    have ih2 := ih (Nat.le_of_lt hk2)
    rw [hds, hdi, rowMajorOffset_cons] at ih2
    rw [hds, hdi, rowMajorOffset_cons] at hoff
    rw [hds] at hle
    simp only [List.prod_cons] at ih2 hoff hle
    simp only [flatIndexLoop]
    rw [List.getD_eq_getElem s 0 hk2, List.getD_eq_getElem idx 0 hk3]
    have e1 : (rowMajorOffset (s.drop (k + 1)) (idx.drop (k + 1)) +
        idx[k] * (s.drop (k + 1)).prod % sizeMod) % sizeMod =
        idx[k] * (s.drop (k + 1)).prod + rowMajorOffset (s.drop (k + 1)) (idx.drop (k + 1)) := by
      have : idx[k] * (s.drop (k + 1)).prod < sizeMod := by omega
      rw [Nat.mod_eq_of_lt this, Nat.mod_eq_of_lt (by omega)]
      ring
    have e2 : (s.drop (k + 1)).prod * s[k] % sizeMod = s[k] * (s.drop (k + 1)).prod := by
      rw [Nat.mul_comm]
      exact Nat.mod_eq_of_lt (by omega)
    rw [e1, e2]
    exact ih2

theorem toInt_of_lt (n : Nat) (h : n < 2 ^ 31) : toInt n = Int.ofNat n := by
  have h2 : n % 2 ^ 32 = n := Nat.mod_eq_of_lt (by omega)
  unfold toInt
  rw [h2, if_pos h]

theorem toInt_ofNat_le (n i : Nat) (h : toInt n = Int.ofNat i) : i ≤ n := by
  unfold toInt at h
  have hle : n % 2 ^ 32 ≤ n := Nat.mod_le _ _
  have hlt : n % 2 ^ 32 < 2 ^ 32 := Nat.mod_lt _ (by norm_num)
  split at h
  · have := Int.ofNat.inj h
    omega
  · exfalso
    simp only [Int.ofNat_eq_coe] at h
    omega

theorem toInt_negSucc (n : Nat) (h : 2 ^ 31 ≤ n % 2 ^ 32) : ∃ j, toInt n = Int.negSucc j := by
  have hlt : n % 2 ^ 32 < 2 ^ 32 := Nat.mod_lt _ (by norm_num)
  apply Int.eq_negSucc_of_lt_zero
  unfold toInt
  rw [if_neg (by omega)]
  simp only [Int.ofNat_eq_coe]
  omega

theorem calculateFlatIndex_ofNat (s idx : List Nat) (i : Nat)
    (h : toInt ((s.length + sizeMod - 1) % sizeMod) = Int.ofNat i) :
    calculateFlatIndex s idx = flatIndexLoop s idx (i + 1) 0 1 := by
  unfold calculateFlatIndex
  rw [h]
  rfl

theorem calculateFlatIndex_negSucc (s idx : List Nat) (j : Nat)
    (h : toInt ((s.length + sizeMod - 1) % sizeMod) = Int.negSucc j) :
    calculateFlatIndex s idx = 0 := by
  unfold calculateFlatIndex
  rw [h]
  have : (Int.negSucc j + 1).toNat = 0 := by
    rw [Int.toNat_eq_zero, Int.negSucc_eq]
    omega
  rw [this]
  rfl

/-- The loop of `calculateFlatIndex` makes `n` passes, for `i = n-1, ..., 0`, with
`n ≤ rank`, and `n = rank` as long as `rank - 1` fits in an `int`. -/
theorem calculateFlatIndex_passes (s idx : List Nat) :
    ∃ n, n ≤ s.length ∧ calculateFlatIndex s idx = flatIndexLoop s idx n 0 1 ∧
      (s.length ≤ 2 ^ 31 → n = s.length) := by
  rcases Nat.eq_zero_or_pos s.length with h0 | hpos
  · have hneg : 2 ^ 31 ≤ (s.length + sizeMod - 1) % sizeMod % 2 ^ 32 := by
      rw [h0]
      norm_num [sizeMod]
    obtain ⟨j, hj⟩ := toInt_negSucc _ hneg
    refine ⟨0, Nat.zero_le _, ?_, fun _ => h0.symm⟩
    rw [calculateFlatIndex_negSucc s idx j hj]
    rfl
  · have e : s.length + sizeMod - 1 = (s.length - 1) + sizeMod := by omega
    have hm : (s.length + sizeMod - 1) % sizeMod ≤ s.length - 1 := by
      rw [e, Nat.add_mod_right]
      exact Nat.mod_le _ _
    by_cases hsmall : s.length ≤ 2 ^ 31
    · have hbig : (2 : Nat) ^ 31 < sizeMod := by norm_num [sizeMod]
      have hm2 : (s.length + sizeMod - 1) % sizeMod = s.length - 1 := by
        rw [e, Nat.add_mod_right]
        exact Nat.mod_eq_of_lt (by omega)
      have ht := toInt_of_lt (s.length - 1) (by omega)
      refine ⟨s.length, Nat.le_refl _, ?_, fun _ => rfl⟩
      have hc := calculateFlatIndex_ofNat s idx (s.length - 1) (by rw [hm2]; exact ht)
      rw [hc, Nat.sub_add_cancel hpos]
    · rcases hti : toInt ((s.length + sizeMod - 1) % sizeMod) with i | j
      · have := toInt_ofNat_le _ i hti
        exact ⟨i + 1, by omega, calculateFlatIndex_ofNat s idx i hti,
          fun h => absurd h hsmall⟩
      · refine ⟨0, Nat.zero_le _, ?_, fun h => absurd h hsmall⟩
        rw [calculateFlatIndex_negSucc s idx j hti]
        rfl

/-- With a valid index and a product of extents that fits in `size_t`, the computed offset
is inside the array of `product(shape)` elements, for every rank. -/
theorem calculateFlatIndex_lt (s idx : List Nat) (hv : ValidIndex s idx)
    (hp : s.prod < sizeMod) : calculateFlatIndex s idx < s.prod := by
  obtain ⟨n, hn, heq, _⟩ := calculateFlatIndex_passes s idx
  have hpos := validIndex_pos s idx hv
  have hle := prod_take_le s hpos n
  have := flatIndexLoop_lt s idx hv n 0 1 hn (by norm_num) (by omega)
  rw [heq]
  omega

/-- With a valid index, a product of extents that fits in `size_t` and a rank of at most
`2^31`, the computed offset is the row-major reference offset. -/
theorem calculateFlatIndex_eq (s idx : List Nat) (hv : ValidIndex s idx)
    (hp : s.prod < sizeMod) (hr : s.length ≤ 2 ^ 31) :
    calculateFlatIndex s idx = rowMajorOffset s idx := by
  obtain ⟨n, _, heq, hn⟩ := calculateFlatIndex_passes s idx
  have h := flatIndexLoop_eq s idx hv hp s.length (Nat.le_refl _)
  rw [heq, hn hr]
  have hd : idx.drop s.length = [] := by rw [← hv.1]; exact List.drop_length idx
  rw [List.drop_length, hd, rowMajorOffset_nil, List.prod_nil] at h
  exact h

/-! ## Memory after a constructor -/

theorem array_newArray {α : Type} (m : Memory α) (buf : List α) (self : Nat) (t : Tensor) :
    ((m.newArray buf).setTensor self t).array (some m.arrays.length) = some buf := by
  simp [Memory.array, Memory.newArray, Memory.setTensor, List.getD_eq_getElem?_getD]

theorem array_newArray_of_lt {α : Type} (m : Memory α) (buf : List α) (self : Nat) (t : Tensor)
    (p : Nat) (hp : p < m.arrays.length) :
    ((m.newArray buf).setTensor self t).array (some p) = m.array (some p) := by
  simp [Memory.array, Memory.newArray, Memory.setTensor, List.getD_eq_getElem?_getD,
    List.getElem?_append_left hp]

theorem tensors_fillCtor {α : Type} (m : Memory α) (self : Nat) (s : List Nat) (v : α) :
    (Tensor.fillCtor m self s v).tensors self =
      Tensor.mk s.length s (calculateNumElements s) (some m.arrays.length) := by
  simp [Tensor.fillCtor, Memory.setTensor, Memory.newArray]

theorem tensors_shapeCtor {α : Type} [Zero α] (m : Memory α) (self : Nat) (s : List Nat) :
    (Tensor.shapeCtor m self s).tensors self =
      Tensor.mk s.length s (calculateNumElements s) (some m.arrays.length) := by
  simp [Tensor.shapeCtor, Memory.setTensor, Memory.newArray]

theorem array_fillCtor {α : Type} (m : Memory α) (self : Nat) (s : List Nat) (v : α) :
    (Tensor.fillCtor m self s v).array ((Tensor.fillCtor m self s v).tensors self).data_ =
      some (List.replicate (calculateNumElements s) v) := by
  rw [tensors_fillCtor]
  exact array_newArray m _ self _

theorem array_shapeCtor {α : Type} [Zero α] (m : Memory α) (self : Nat) (s : List Nat) :
    (Tensor.shapeCtor m self s).array ((Tensor.shapeCtor m self s).tensors self).data_ =
      some (List.replicate (calculateNumElements s) (0 : α)) := by
  rw [tensors_shapeCtor]
  exact array_newArray m _ self _

theorem call_eq_ok {α : Type} (m : Memory α) (self : Nat) (idx : List Nat) (buf : List α)
    (x : α) (hv : ValidIndex (m.tensors self).matrix_shape idx)
    (ha : m.array (m.tensors self).data_ = some buf)
    (hx : buf[calculateFlatIndex (m.tensors self).matrix_shape idx]? = some x) :
    Tensor.call m self idx = Except.ok x := by
  have hc := (checkIndices_ok_iff _ _).2 hv
  simp [Tensor.call, hc, ha, hx]

/-- Reading an element of a freshly filled array of `product(s)` elements. -/
theorem call_replicate {α : Type} (m : Memory α) (self : Nat) (s idx : List Nat) (v : α)
    (hs : (m.tensors self).matrix_shape = s)
    (ha : m.array (m.tensors self).data_ = some (List.replicate (calculateNumElements s) v))
    (hv : ValidIndex s idx) (hp : s.prod < 2 ^ 64) :
    Tensor.call m self idx = Except.ok v := by
  have hlt := calculateFlatIndex_lt s idx hv hp
  have hn : calculateNumElements s = s.prod := by
    rw [calculateNumElements_eq]
    exact Nat.mod_eq_of_lt hp
  refine call_eq_ok m self idx _ v (hs ▸ hv) ha ?_
  rw [hs, hn, List.getElem?_replicate]
  simp [hlt]

/-! ## Element access at the row-major offset -/

theorem rowMajorOffset_replicate (n : Nat) :
    rowMajorOffset (List.replicate n 1 ++ [2]) (List.replicate n 0 ++ [1]) = 1 := by
  induction n with
  | zero => decide
  | succ n ih =>
    rw [List.replicate_succ, List.replicate_succ, List.cons_append, List.cons_append,
      rowMajorOffset_cons, ih]
    simp

theorem prod_replicate_one (n : Nat) : (List.replicate n 1 ++ [2]).prod = 2 := by
  rw [List.prod_append, List.prod_replicate, one_pow]
  simp

theorem validIndex_replicate (n : Nat) :
    ValidIndex (List.replicate n 1 ++ [2]) (List.replicate n 0 ++ [1]) := by
  induction n with
  | zero => decide
  | succ n ih =>
    rw [List.replicate_succ, List.replicate_succ, List.cons_append, List.cons_append,
      validIndex_cons]
    exact ⟨by decide, ih⟩

theorem calculateFlatIndex_negative_start (s idx : List Nat) (h : s.length = 2 ^ 31 + 1) :
    calculateFlatIndex s idx = 0 := by
  have hneg : 2 ^ 31 ≤ (s.length + sizeMod - 1) % sizeMod % 2 ^ 32 := by
    rw [h]
    norm_num [sizeMod]
  obtain ⟨j, hj⟩ := toInt_negSucc _ hneg
  exact calculateFlatIndex_negSucc s idx j hj

/-- C1 as stated fails.  For the shape `[2^63, 4]`, whose product `2^65` wraps to `0`, the
valid index `(2^62, 0)` has reference offset `2^64` but `calculateFlatIndex` gives `0`, the
buffer is empty and the access reads outside it.  For a shape of `2^31 + 1` extents
`1, ..., 1, 2` (product `2`) and the valid index `(0, ..., 0, 1)`, the `int` loop variable
starts negative, so `calculateFlatIndex` gives `0` where the reference offset is `1`. -/
theorem call_at_rowMajorOffset_counterexample :
    (ValidIndex [2 ^ 63, 4] [2 ^ 62, 0] ∧
      rowMajorOffset [2 ^ 63, 4] [2 ^ 62, 0] = 2 ^ 64 ∧
      calculateFlatIndex [2 ^ 63, 4] [2 ^ 62, 0] = 0 ∧
      (Tensor.shapeCtor (Memory.empty Int) 0 [2 ^ 63, 4]).array
        ((Tensor.shapeCtor (Memory.empty Int) 0 [2 ^ 63, 4]).tensors 0).data_ = some [] ∧
      Tensor.call (Tensor.shapeCtor (Memory.empty Int) 0 [2 ^ 63, 4]) 0 [2 ^ 62, 0] =
        Except.error Fault.undefinedBehaviour) ∧
    (ValidIndex (List.replicate (2 ^ 31) 1 ++ [2]) (List.replicate (2 ^ 31) 0 ++ [1]) ∧
      (List.replicate (2 ^ 31) 1 ++ [2]).prod = 2 ∧
      rowMajorOffset (List.replicate (2 ^ 31) 1 ++ [2]) (List.replicate (2 ^ 31) 0 ++ [1]) = 1 ∧
      calculateFlatIndex (List.replicate (2 ^ 31) 1 ++ [2])
        (List.replicate (2 ^ 31) 0 ++ [1]) = 0) := by
  refine ⟨⟨by decide, by decide, by decide, by decide, by decide⟩,
    validIndex_replicate _, prod_replicate_one _, rowMajorOffset_replicate _, ?_⟩
  apply calculateFlatIndex_negative_start
  rw [List.length_append, List.length_replicate, List.length_singleton]

/-! ## Contents right after construction -/

/-- C5 (as amended): for every shape `s`, `Tensor(s, v)` and `Tensor(s)` own a buffer of
`product(s) mod 2^64` slots that all hold the fill value, respectively zero; and when
`product(s)` is below `2^64`, `Tensor(s, v)(idx) == v` and `Tensor(s)(idx) == 0` for every
valid multi-index `idx`. -/
theorem call_after_ctor {α : Type} [Zero α] (m : Memory α) (self : Nat) (s : List Nat)
    (v : α) :
    (Tensor.fillCtor m self s v).array ((Tensor.fillCtor m self s v).tensors self).data_ =
      some (List.replicate (s.prod % 2 ^ 64) v) ∧
    (Tensor.shapeCtor m self s).array ((Tensor.shapeCtor m self s).tensors self).data_ =
      some (List.replicate (s.prod % 2 ^ 64) (0 : α)) ∧
    (s.prod < 2 ^ 64 → ∀ idx, ValidIndex s idx →
      Tensor.call (Tensor.fillCtor m self s v) self idx = Except.ok v ∧
      Tensor.call (Tensor.shapeCtor m self s) self idx = Except.ok (0 : α)) := by
  have hn : calculateNumElements s = s.prod % 2 ^ 64 := calculateNumElements_eq s
  refine ⟨?_, ?_, ?_⟩
  · rw [array_fillCtor, hn]
  · rw [array_shapeCtor, hn]
  · intro hp idx hv
    exact ⟨call_replicate _ self s idx v (by rw [tensors_fillCtor])
        (array_fillCtor m self s v) hv hp,
      call_replicate _ self s idx 0 (by rw [tensors_shapeCtor])
        (array_shapeCtor m self s) hv hp⟩

/-- Instance of C5: `Tensor({2,3}, 7)` read at `(1,2)` gives `7`. -/
theorem call_after_ctor_witness :
    [2, 3].prod < 2 ^ 64 ∧ ValidIndex [2, 3] [1, 2] ∧
    Tensor.call (Tensor.fillCtor (Memory.empty Int) 0 [2, 3] 7) 0 [1, 2] = Except.ok 7 ∧
    Tensor.call (Tensor.shapeCtor (Memory.empty Int) 0 [2, 3]) 0 [1, 2] = Except.ok 0 :=
  ⟨by decide, by decide,
    (call_after_ctor (Memory.empty Int) 0 [2, 3] 7).2.2 (by decide) [1, 2] (by decide)⟩

/-- C5 as stated fails: the shape `[2^63, 4]` has product `2^65`, which wraps to `0`
elements, so `Tensor({2^63, 4}, 7)` owns an empty buffer and the valid index `(0, 0)` reads
outside it instead of returning `7`. -/
theorem call_after_ctor_counterexample :
    ValidIndex [2 ^ 63, 4] [0, 0] ∧
    ((Tensor.fillCtor (Memory.empty Int) 0 [2 ^ 63, 4] 7).tensors 0).numElements = 0 ∧
    (Tensor.fillCtor (Memory.empty Int) 0 [2 ^ 63, 4] 7).array
      ((Tensor.fillCtor (Memory.empty Int) 0 [2 ^ 63, 4] 7).tensors 0).data_ = some [] ∧
    Tensor.call (Tensor.fillCtor (Memory.empty Int) 0 [2 ^ 63, 4] 7) 0 [0, 0] =
      Except.error Fault.undefinedBehaviour ∧
    Tensor.call (Tensor.fillCtor (Memory.empty Int) 0 [2 ^ 63, 4] 7) 0 [0, 0] ≠
      Except.ok 7 := by
  refine ⟨by decide, by decide, by decide, by decide, by decide⟩

/-! ## Arrays under the memory operations -/

theorem array_isSome_lt {α : Type} (m : Memory α) (p : Nat)
    (h : (m.array (some p)).isSome = true) : p < m.arrays.length := by
  by_contra hge
  have hn : m.arrays[p]? = none := List.getElem?_eq_none (Nat.le_of_not_lt hge)
  simp [Memory.array, List.getD_eq_getElem?_getD, hn] at h

theorem array_newArray_of_isSome {α : Type} (m : Memory α) (buf : List α) (self : Nat)
    (t : Tensor) (p : Option Nat) (h : p = none ∨ (m.array p).isSome = true) :
    ((m.newArray buf).setTensor self t).array p = m.array p := by
  cases p with
  | none => rfl
  | some q =>
    have hq : (m.array (some q)).isSome = true := by
      rcases h with h | h
      · cases h
      · exact h
    exact array_newArray_of_lt m buf self t q (array_isSome_lt m q hq)

theorem array_set_ne {α : Type} (m : Memory α) (p r : Nat) (x : Option (List α))
    (h : r ≠ p) : (Memory.mk m.tensors (m.arrays.set p x)).array (some r) = m.array (some r) := by
  simp [Memory.array, List.getD_eq_getElem?_getD, List.getElem?_set_ne (Ne.symm h)]

theorem array_set_eq {α : Type} (m : Memory α) (p : Nat) (x : Option (List α))
    (h : p < m.arrays.length) : (Memory.mk m.tensors (m.arrays.set p x)).array (some p) = x := by
  simp [Memory.array, List.getD_eq_getElem?_getD, List.getElem?_set_self, h]

theorem holdsElements_deletable {α : Type} (m : Memory α) (t : Tensor)
    (h : Tensor.HoldsElements m t) : Tensor.Deletable m t := by
  rcases h with ⟨h, _⟩ | ⟨_, h⟩
  · exact Or.inl h
  · right
    cases hb : m.array t.data_ with
    | none => simp [hb] at h
    | some buf => rfl

theorem holdsElements_buffer_length {α : Type} (m : Memory α) (t : Tensor)
    (h : Tensor.HoldsElements m t) : (m.buffer t).length = t.elements_ := by
  unfold Memory.buffer
  rcases h with ⟨h, h0⟩ | ⟨_, h⟩
  · rw [h, h0]
    rfl
  · cases hb : m.array t.data_ with
    | none => simp [hb] at h
    | some buf =>
      rw [hb] at h
      simpa using h

theorem holdsElements_of_array {α : Type} (m : Memory α) (t : Tensor) (p : Nat)
    (buf : List α) (hd : t.data_ = some p) (ha : m.array (some p) = some buf)
    (hl : buf.length = t.elements_) : Tensor.HoldsElements m t := by
  right
  rw [hd]
  exact ⟨by simp, by simp [ha, hl]⟩

/-! ## Equality -/

theorem equalLoop_true_iff {α : Type} [DecidableEq α] (A B : Option (List α)) (n i : Nat) :
    equalLoop A B i n = Except.ok true ↔
      ∀ j, i ≤ j → j < i + n →
        ∃ x, A.bind (fun buf => buf[j]?) = some x ∧ B.bind (fun buf => buf[j]?) = some x := by
  induction n generalizing i with
  | zero =>
    simp only [equalLoop, true_iff]
    intro j h1 h2
    omega
  | succ n ih =>
    rw [equalLoop]
    split
    · rename_i x y hx hy
      by_cases hxy : x = y
      · subst hxy
        simp only [ne_eq, not_true_eq_false, if_false]
        rw [ih (i + 1)]
        constructor
        · intro h j h1 h2
          rcases Nat.eq_or_lt_of_le h1 with rfl | hlt
          · exact ⟨x, hx, hy⟩
          · exact h j hlt (by omega)
        · intro h j h1 h2
          exact h j (by omega) (by omega)
      · simp only [ne_eq, hxy, not_false_eq_true, if_true]
        constructor
        · intro h
          cases h
        · intro h
          obtain ⟨z, hz1, hz2⟩ := h i (Nat.le_refl _) (by omega)
          rw [hx] at hz1
          rw [hy] at hz2
          exact absurd ((Option.some.inj hz1).trans (Option.some.inj hz2).symm) hxy
    · rename_i hno
      constructor
      · intro h
        cases h
      · intro h
        obtain ⟨z, hz1, hz2⟩ := h i (Nat.le_refl _) (by omega)
        exact absurd hz2 (hno z z hz1)

theorem equalLoop_returns {α : Type} [DecidableEq α] (A B : Option (List α)) (n i : Nat)
    (h : ∀ j, i ≤ j → j < i + n →
      (A.bind (fun buf => buf[j]?)).isSome = true ∧
        (B.bind (fun buf => buf[j]?)).isSome = true) :
    equalLoop A B i n = Except.ok true ∨ equalLoop A B i n = Except.ok false := by
  induction n generalizing i with
  | zero => left; rfl
  | succ n ih =>
    rw [equalLoop]
    obtain ⟨h1, h2⟩ := h i (Nat.le_refl _) (by omega)
    obtain ⟨x, hx⟩ := Option.isSome_iff_exists.1 h1
    obtain ⟨y, hy⟩ := Option.isSome_iff_exists.1 h2
    rw [hx, hy]
    simp only
    by_cases hxy : x = y
    · simp only [hxy, ne_eq, not_true_eq_false, if_false]
      exact ih (i + 1) (fun j hj1 hj2 => h j (by omega) (by omega))
    · simp only [ne_eq, hxy, not_false_eq_true, if_true]
      right
      trivial

theorem bind_getElem_eq_buffer {α : Type} (m : Memory α) (t : Tensor) (j : Nat) :
    (m.array t.data_).bind (fun buf => buf[j]?) = (m.buffer t)[j]? := by
  unfold Memory.buffer
  cases m.array t.data_ <;> simp

theorem operatorEq_true_iff {α : Type} [DecidableEq α] (m : Memory α) (a b : Nat) :
    Tensor.operatorEq m a b = Except.ok true ↔
      (m.tensors a).numElements = (m.tensors b).numElements ∧
      ∀ i, i < (m.tensors a).numElements →
        ∃ x, (m.buffer (m.tensors a))[i]? = some x ∧
          (m.buffer (m.tensors b))[i]? = some x := by
  unfold Tensor.operatorEq
  by_cases hn : (m.tensors a).elements_ = (m.tensors b).elements_
  · simp only [ne_eq, hn, not_true_eq_false, if_false]
    rw [equalLoop_true_iff]
    simp only [bind_getElem_eq_buffer, Nat.zero_add, Tensor.numElements, hn, true_and]
    constructor
    · intro h i hi
      exact h i (Nat.zero_le _) hi
    · intro h j _ hj
      exact h j hj
  · simp only [ne_eq, hn, not_false_eq_true, if_true, Tensor.numElements, false_and,
      iff_false]
    intro h
    cases h

/-- C7: for all tensors `a` and `b`, `a == b` returns true if and only if
`a.numElements() == b.numElements()` and the two buffers hold equal values at every flat
position below `numElements()`; the shapes are not looked at.  For tensors that own
`numElements()` values the comparison always returns, true or false. -/
theorem operatorEq_iff {α : Type} [DecidableEq α] (m : Memory α) (a b : Nat) :
    (Tensor.operatorEq m a b = Except.ok true ↔
      (m.tensors a).numElements = (m.tensors b).numElements ∧
      ∀ i, i < (m.tensors a).numElements →
        ∃ x, (m.buffer (m.tensors a))[i]? = some x ∧ (m.buffer (m.tensors b))[i]? = some x) ∧
    (Tensor.HoldsElements m (m.tensors a) → Tensor.HoldsElements m (m.tensors b) →
      (Tensor.operatorEq m a b = Except.ok true ∨
        Tensor.operatorEq m a b = Except.ok false) ∧
      (Tensor.operatorEq m a b = Except.ok true ↔
        (m.tensors a).numElements = (m.tensors b).numElements ∧
        ∀ i, i < (m.tensors a).numElements →
          (m.buffer (m.tensors a))[i]? = (m.buffer (m.tensors b))[i]?)) := by
  have hmain := operatorEq_true_iff m a b
  refine ⟨hmain, ?_⟩
  intro ha hb
  have hla := holdsElements_buffer_length m _ ha
  have hlb := holdsElements_buffer_length m _ hb
  constructor
  · unfold Tensor.operatorEq
    by_cases hn : (m.tensors a).elements_ = (m.tensors b).elements_
    · simp only [ne_eq, hn, not_true_eq_false, if_false]
      apply equalLoop_returns
      intro j _ hj
      simp only [bind_getElem_eq_buffer]
      simp only [Tensor.numElements, Nat.zero_add] at hj
      constructor
      · rw [List.getElem?_eq_getElem (by omega)]
        rfl
      · rw [List.getElem?_eq_getElem (by omega)]
        rfl
    · simp only [ne_eq, hn, not_false_eq_true, if_true]
      right
      trivial
  · rw [hmain]
    constructor
    · rintro ⟨hn, h⟩
      refine ⟨hn, fun i hi => ?_⟩
      obtain ⟨x, hx1, hx2⟩ := h i hi
      rw [hx1, hx2]
    · rintro ⟨hn, h⟩
      refine ⟨hn, fun i hi => ?_⟩
      have hi2 : i < (m.buffer (m.tensors a)).length := by
        rw [hla]
        exact hi
      refine ⟨(m.buffer (m.tensors a))[i], List.getElem?_eq_getElem hi2, ?_⟩
      rw [← h i hi]
      exact List.getElem?_eq_getElem hi2

/-- Instances of C7: `Tensor({2,2}, 5) == Tensor({2,2}, 5)` is true, `Tensor({4}, 5) ==
Tensor({2,2}, 5)` is true as well, and `Tensor({2,2}, 6) == Tensor({2,2}, 5)` is false. -/
theorem operatorEq_iff_witness :
    Tensor.operatorEq
      (Tensor.fillCtor (Tensor.fillCtor (Memory.empty Int) 0 [2, 2] 5) 1 [2, 2] 5) 0 1 =
        Except.ok true ∧
    Tensor.operatorEq
      (Tensor.fillCtor (Tensor.fillCtor (Memory.empty Int) 0 [4] 5) 1 [2, 2] 5) 0 1 =
        Except.ok true ∧
    Tensor.operatorEq
      (Tensor.fillCtor (Tensor.fillCtor (Memory.empty Int) 0 [2, 2] 6) 1 [2, 2] 5) 0 1 =
        Except.ok false :=
  ⟨((operatorEq_iff
      (Tensor.fillCtor (Tensor.fillCtor (Memory.empty Int) 0 [2, 2] 5) 1 [2, 2] 5) 0 1).2
      (by decide) (by decide)).2.2 ⟨by decide, by decide⟩,
   ((operatorEq_iff
      (Tensor.fillCtor (Tensor.fillCtor (Memory.empty Int) 0 [4] 5) 1 [2, 2] 5) 0 1).2
      (by decide) (by decide)).2.2 ⟨by decide, by decide⟩,
   by decide⟩

/-! ## Reading through the buffer -/

theorem call_eq_buffer {α : Type} (m : Memory α) (self : Nat) (idx : List Nat) :
    Tensor.call m self idx =
      match checkIndices (m.tensors self).matrix_shape idx with
      | Except.error e => Except.error e
      | Except.ok _ =>
        match (m.buffer (m.tensors self))[calculateFlatIndex (m.tensors self).matrix_shape idx]? with
        | some x => Except.ok x
        | none => Except.error Fault.undefinedBehaviour := by
  unfold Tensor.call Memory.buffer
  cases checkIndices (m.tensors self).matrix_shape idx with
  | error e => rfl
  | ok u =>
    cases m.array (m.tensors self).data_ with
    | none => simp
    | some buf => simp

/-- Two tensors with the same shape and the same buffer contents read the same at every
index list. -/
theorem call_congr {α : Type} (m1 m2 : Memory α) (a b : Nat) (idx : List Nat)
    (hs : (m1.tensors a).matrix_shape = (m2.tensors b).matrix_shape)
    (hb : m1.buffer (m1.tensors a) = m2.buffer (m2.tensors b)) :
    Tensor.call m1 a idx = Tensor.call m2 b idx := by
  rw [call_eq_buffer, call_eq_buffer, hs, hb]

/-! ## Copy and move: what the memory becomes -/

theorem copyRange_of_holds {α : Type} (m : Memory α) (t : Tensor)
    (h : Tensor.HoldsElements m t) :
    m.copyRange t.data_ t.elements_ = Except.ok (m.buffer t) := by
  unfold Memory.copyRange Memory.buffer
  rcases h with ⟨h, h0⟩ | ⟨hne, h⟩
  · rw [h, h0]
    rfl
  · cases hd : t.data_ with
    | none => exact absurd hd hne
    | some p =>
      rw [hd] at h
      cases hb : m.array (some p) with
      | none => simp [hb] at h
      | some buf =>
        rw [hb] at h
        have hl : buf.length = t.elements_ := by simpa using h
        simp [hl.symm, hb]

theorem copyCtor_eq {α : Type} (m : Memory α) (self other : Nat)
    (ho : Tensor.HoldsElements m (m.tensors other)) :
    Tensor.copyCtor m self other =
      Except.ok ((m.newArray (m.buffer (m.tensors other))).setTensor self
        (Tensor.mk (m.tensors other).rank_ (m.tensors other).matrix_shape
          (m.tensors other).elements_ (some m.arrays.length))) := by
  unfold Tensor.copyCtor
  rw [copyRange_of_holds m _ ho]

theorem tensors_setTensor_self {α : Type} (m : Memory α) (self : Nat) (t : Tensor) :
    (m.setTensor self t).tensors self = t := by
  simp [Memory.setTensor]

theorem tensors_setTensor_ne {α : Type} (m : Memory α) (self q : Nat) (t : Tensor)
    (h : q ≠ self) : (m.setTensor self t).tensors q = m.tensors q := by
  simp [Memory.setTensor, h]

theorem buffer_newArray_self {α : Type} (m : Memory α) (buf : List α) (self : Nat)
    (t : Tensor) (hd : t.data_ = some m.arrays.length) :
    ((m.newArray buf).setTensor self t).buffer t = buf := by
  unfold Memory.buffer
  rw [hd, array_newArray]
  rfl

theorem buffer_newArray_of_deletable {α : Type} (m : Memory α) (buf : List α) (self : Nat)
    (t u : Tensor) (h : Tensor.Deletable m u) :
    ((m.newArray buf).setTensor self t).buffer u = m.buffer u := by
  unfold Memory.buffer
  rw [array_newArray_of_isSome m buf self t u.data_ h]

theorem holdsElements_newArray {α : Type} (m : Memory α) (buf : List α) (self : Nat)
    (t u : Tensor) (h : Tensor.HoldsElements m u) :
    Tensor.HoldsElements ((m.newArray buf).setTensor self t) u := by
  have hd := holdsElements_deletable m u h
  unfold Tensor.HoldsElements at h ⊢
  rw [array_newArray_of_isSome m buf self t u.data_ hd]
  exact h

theorem holdsElements_newArray_self {α : Type} (m : Memory α) (buf : List α) (self : Nat)
    (t : Tensor) (hd : t.data_ = some m.arrays.length) (hl : buf.length = t.elements_) :
    Tensor.HoldsElements ((m.newArray buf).setTensor self t) t :=
  holdsElements_of_array _ t m.arrays.length buf hd (array_newArray m buf self t) hl

theorem deleteArray_spec {α : Type} (m : Memory α) (t : Tensor)
    (h : Tensor.Deletable m t) :
    ∃ m1, m.deleteArray t.data_ = Except.ok m1 ∧ m1.tensors = m.tensors ∧
      m1.arrays.length = m.arrays.length ∧
      ∀ p : Option Nat, (p = t.data_ → p = none) → m1.array p = m.array p := by
  cases hd : t.data_ with
  | none => exact ⟨m, rfl, rfl, rfl, fun _ _ => rfl⟩
  | some q =>
    have hs : (m.array (some q)).isSome = true := by
      rcases h with h | h
      · rw [hd] at h
        cases h
      · rw [hd] at h
        exact h
    obtain ⟨buf, hbuf⟩ := Option.isSome_iff_exists.1 hs
    refine ⟨Memory.mk m.tensors (m.arrays.set q none), ?_, rfl, by simp, ?_⟩
    · simp [Memory.deleteArray, hbuf]
    · intro p hp
      cases p with
      | none => rfl
      | some r =>
        have hne : r ≠ q := by
          intro hrq
          have := hp (by rw [hrq])
          cases this
        exact array_set_ne m q r none hne

theorem unshared_array {α : Type} (m m1 : Memory α) (t u : Tensor)
    (hu : Tensor.Unshared t u)
    (h : ∀ p : Option Nat, (p = t.data_ → p = none) → m1.array p = m.array p) :
    m1.array u.data_ = m.array u.data_ := by
  apply h
  intro hp
  rw [hp]
  exact hu hp.symm

theorem copyAssign_eq_copyCtor {α : Type} (m m1 : Memory α) (self other : Nat)
    (hne : self ≠ other) (hd : m.deleteArray (m.tensors self).data_ = Except.ok m1) :
    Tensor.copyAssign m self other = Tensor.copyCtor m1 self other := by
  unfold Tensor.copyAssign Tensor.copyCtor
  rw [if_pos hne, hd]

theorem moveAssign_eq_moveCtor {α : Type} (m m1 : Memory α) (self other : Nat)
    (hne : self ≠ other) (hd : m.deleteArray (m.tensors self).data_ = Except.ok m1) :
    Tensor.moveAssign m self other = Except.ok (Tensor.moveCtor m1 self other) := by
  unfold Tensor.moveAssign Tensor.moveCtor
  rw [if_pos hne, hd]

/-- After `delete[] data_` of the destination, a source that does not share its array still
owns its elements, with the same contents. -/
theorem source_after_delete {α : Type} (m : Memory α) (self other : Nat)
    (hd : Tensor.Deletable m (m.tensors self))
    (hu : Tensor.Unshared (m.tensors self) (m.tensors other)) :
    ∃ m1, m.deleteArray (m.tensors self).data_ = Except.ok m1 ∧ m1.tensors = m.tensors ∧
      m1.arrays.length = m.arrays.length ∧
      m1.buffer (m1.tensors other) = m.buffer (m.tensors other) ∧
      (Tensor.HoldsElements m (m.tensors other) →
        Tensor.HoldsElements m1 (m1.tensors other)) := by
  obtain ⟨m1, h1, h2, h3, h4⟩ := deleteArray_spec m _ hd
  have ha := unshared_array m m1 _ _ hu h4
  refine ⟨m1, h1, h2, h3, ?_, ?_⟩
  · unfold Memory.buffer
    rw [h2, ha]
  · intro ho
    unfold Tensor.HoldsElements at ho ⊢
    rw [h2, ha]
    exact ho

/-- What the copy constructor produces, from a source that owns its elements. -/
theorem copyCtor_post {α : Type} (m : Memory α) (a b : Nat) (hab : b ≠ a)
    (ha : Tensor.HoldsElements m (m.tensors a)) :
    ∃ m1, Tensor.copyCtor m b a = Except.ok m1 ∧
      m1.tensors b = Tensor.mk (m.tensors a).rank_ (m.tensors a).matrix_shape
        (m.tensors a).elements_ (some m.arrays.length) ∧
      m1.tensors a = m.tensors a ∧
      m1.buffer (m1.tensors b) = m.buffer (m.tensors a) ∧
      m1.buffer (m1.tensors a) = m.buffer (m.tensors a) ∧
      Tensor.HoldsElements m1 (m1.tensors b) ∧
      Tensor.HoldsElements m1 (m1.tensors a) := by
  refine ⟨_, copyCtor_eq m b a ha, tensors_setTensor_self _ _ _,
    tensors_setTensor_ne _ _ _ _ hab.symm, ?_, ?_, ?_, ?_⟩
  · rw [tensors_setTensor_self]
    exact buffer_newArray_self m _ b _ rfl
  · rw [tensors_setTensor_ne _ _ _ _ hab.symm]
    exact buffer_newArray_of_deletable m _ b _ _ (holdsElements_deletable m _ ha)
  · rw [tensors_setTensor_self]
    exact holdsElements_newArray_self m _ b _ rfl (holdsElements_buffer_length m _ ha)
  · rw [tensors_setTensor_ne _ _ _ _ hab.symm]
    exact holdsElements_newArray m _ b _ _ ha

/-- What copy assignment produces, onto a destination whose array can be deleted and is not
the array of the source. -/
theorem copyAssign_post {α : Type} (m : Memory α) (a b : Nat) (hab : b ≠ a)
    (ha : Tensor.HoldsElements m (m.tensors a))
    (hd : Tensor.Deletable m (m.tensors b))
    (hu : Tensor.Unshared (m.tensors b) (m.tensors a)) :
    ∃ m1, Tensor.copyAssign m b a = Except.ok m1 ∧
      m1.tensors b = Tensor.mk (m.tensors a).rank_ (m.tensors a).matrix_shape
        (m.tensors a).elements_ (some m.arrays.length) ∧
      m1.tensors a = m.tensors a ∧
      m1.buffer (m1.tensors b) = m.buffer (m.tensors a) ∧
      m1.buffer (m1.tensors a) = m.buffer (m.tensors a) ∧
      Tensor.HoldsElements m1 (m1.tensors b) ∧
      Tensor.HoldsElements m1 (m1.tensors a) := by
  obtain ⟨m0, h1, h2, h3, h4, h5⟩ := source_after_delete m b a hd hu
  obtain ⟨m1, g1, g2, g3, g4, g5, g6, g7⟩ := copyCtor_post m0 a b hab (h5 ha)
  refine ⟨m1, ?_, ?_, ?_, ?_, ?_, g6, g7⟩
  · rw [copyAssign_eq_copyCtor m m0 b a hab h1]
    exact g1
  · rw [g2, h2, h3]
  · rw [g3, h2]
  · rw [g4, h4]
  · rw [g5, h4]

/-- Consequences of being an element-wise copy with the same shape. -/
theorem copy_consequences {α : Type} [DecidableEq α] (m m1 : Memory α) (a b : Nat)
    (hs : (m1.tensors b).matrix_shape = (m.tensors a).matrix_shape)
    (he : (m1.tensors b).elements_ = (m.tensors a).elements_)
    (ht : m1.tensors a = m.tensors a)
    (hb : m1.buffer (m1.tensors b) = m.buffer (m.tensors a))
    (hba : m1.buffer (m1.tensors a) = m.buffer (m.tensors a))
    (hh : Tensor.HoldsElements m1 (m1.tensors b)) :
    Tensor.operatorEq m1 b a = Except.ok true ∧
    (∀ idx, Tensor.call m1 b idx = Tensor.call m1 a idx) ∧
    (∀ idx, Tensor.call m1 a idx = Tensor.call m a idx) := by
  refine ⟨?_, ?_, ?_⟩
  · rw [operatorEq_true_iff m1 b a]
    refine ⟨by rw [Tensor.numElements, Tensor.numElements, he, ht], ?_⟩
    intro i hi
    have hl := holdsElements_buffer_length m1 _ hh
    have hi2 : i < (m1.buffer (m1.tensors b)).length := by
      rw [hl]
      exact hi
    refine ⟨(m1.buffer (m1.tensors b))[i], List.getElem?_eq_getElem hi2, ?_⟩
    rw [hba, ← hb]
    exact List.getElem?_eq_getElem hi2
  · intro idx
    exact call_congr m1 m1 b a idx (by rw [hs, ht]) (by rw [hb, hba])
  · intro idx
    exact call_congr m1 m a a idx (by rw [ht]) hba

/-! ## Writing an element -/

theorem assignAt_inv {α : Type} (m m2 : Memory α) (self : Nat) (idx : List Nat) (v : α)
    (h : Tensor.assignAt m self idx v = Except.ok m2) :
    ∃ p buf, (m.tensors self).data_ = some p ∧ m.array (some p) = some buf ∧
      checkIndices (m.tensors self).matrix_shape idx = Except.ok () ∧
      calculateFlatIndex (m.tensors self).matrix_shape idx < buf.length ∧
      m2 = Memory.mk m.tensors (m.arrays.set p
        (some (buf.set (calculateFlatIndex (m.tensors self).matrix_shape idx) v))) := by
  unfold Tensor.assignAt at h
  cases hc : checkIndices (m.tensors self).matrix_shape idx with
  | error e =>
    rw [hc] at h
    cases h
  | ok u =>
    rw [hc] at h
    cases hd : (m.tensors self).data_ with
    | none =>
      rw [hd] at h
      cases h
    | some p =>
      rw [hd] at h
      cases hb : m.array (some p) with
      | none =>
        simp only [hb] at h
        cases h
      | some buf =>
        simp only [hb] at h
        by_cases hlt : calculateFlatIndex (m.tensors self).matrix_shape idx < buf.length
        · rw [if_pos hlt] at h
          exact ⟨p, buf, rfl, hb, rfl, hlt, (Except.ok.inj h).symm⟩
        · rw [if_neg hlt] at h
          cases h

theorem assignAt_ok {α : Type} (m : Memory α) (self p : Nat) (idx : List Nat) (v : α)
    (buf : List α) (hd : (m.tensors self).data_ = some p) (hb : m.array (some p) = some buf)
    (hv : ValidIndex (m.tensors self).matrix_shape idx)
    (hlt : calculateFlatIndex (m.tensors self).matrix_shape idx < buf.length) :
    Tensor.assignAt m self idx v = Except.ok (Memory.mk m.tensors (m.arrays.set p
      (some (buf.set (calculateFlatIndex (m.tensors self).matrix_shape idx) v)))) := by
  have hc := (checkIndices_ok_iff _ _).2 hv
  unfold Tensor.assignAt
  rw [hc, hd]
  simp only [hb]
  rw [if_pos hlt]

/-- A write through `operator()` leaves the fields of every tensor as they were, keeps the
length of every buffer, and leaves the contents of every buffer other than the written one
as they were. -/
theorem assignAt_frame {α : Type} (m m2 : Memory α) (self : Nat) (idx : List Nat) (v : α)
    (h : Tensor.assignAt m self idx v = Except.ok m2) :
    m2.tensors = m.tensors ∧
    (∀ t : Tensor, Tensor.HoldsElements m t → Tensor.HoldsElements m2 t) ∧
    (∀ t : Tensor, t.data_ ≠ (m.tensors self).data_ → m2.buffer t = m.buffer t) ∧
    m2.buffer (m.tensors self) =
      (m.buffer (m.tensors self)).set
        (calculateFlatIndex (m.tensors self).matrix_shape idx) v := by
  obtain ⟨p, buf, hd, hb, _, hlt, rfl⟩ := assignAt_inv m m2 self idx v h
  have hp : p < m.arrays.length := array_isSome_lt m p (by rw [hb]; rfl)
  refine ⟨rfl, ?_, ?_, ?_⟩
  · intro t ht
    rcases ht with ht | ⟨hne, ht⟩
    · exact Or.inl ht
    · right
      refine ⟨hne, ?_⟩
      cases htd : t.data_ with
      | none => exact absurd htd hne
      | some r =>
        rw [htd] at ht
        by_cases hrp : r = p
        · subst hrp
          rw [array_set_eq m r _ hp]
          rw [hb] at ht
          simpa using ht
        · rw [array_set_ne m p r _ hrp]
          exact ht
  · intro t hne
    unfold Memory.buffer
    cases htd : t.data_ with
    | none => rfl
    | some r =>
      have hrp : r ≠ p := by
        intro hrp
        apply hne
        rw [htd, hd, hrp]
      rw [array_set_ne m p r _ hrp]
  · unfold Memory.buffer
    rw [hd, array_set_eq m p _ hp, hb]
    rfl

theorem holdsElements_data_lt {α : Type} (m : Memory α) (t : Tensor) (p : Nat)
    (h : Tensor.HoldsElements m t) (hd : t.data_ = some p) : p < m.arrays.length := by
  have := holdsElements_deletable m t h
  rcases this with h1 | h1
  · rw [hd] at h1
    cases h1
  · rw [hd] at h1
    exact array_isSome_lt m p h1

theorem copy_post {α : Type} (m m1 : Memory α) (a b : Nat) (hab : b ≠ a)
    (ha : Tensor.HoldsElements m (m.tensors a))
    (hm : Tensor.copyCtor m b a = Except.ok m1 ∨
      (Tensor.Deletable m (m.tensors b) ∧ Tensor.Unshared (m.tensors b) (m.tensors a) ∧
        Tensor.copyAssign m b a = Except.ok m1)) :
    m1.tensors b = Tensor.mk (m.tensors a).rank_ (m.tensors a).matrix_shape
      (m.tensors a).elements_ (some m.arrays.length) ∧
    m1.tensors a = m.tensors a ∧
    m1.buffer (m1.tensors b) = m.buffer (m.tensors a) ∧
    m1.buffer (m1.tensors a) = m.buffer (m.tensors a) ∧
    Tensor.HoldsElements m1 (m1.tensors b) ∧
    Tensor.HoldsElements m1 (m1.tensors a) := by
  rcases hm with hm | ⟨hd, hu, hm⟩
  · obtain ⟨m2, h, hrest⟩ := copyCtor_post m a b hab ha
    rw [hm] at h
    cases h
    exact hrest
  · obtain ⟨m2, h, hrest⟩ := copyAssign_post m a b hab ha hd hu
    rw [hm] at h
    cases h
    exact hrest

/-! ## Moves -/

theorem array_setTensor {α : Type} (m : Memory α) (self : Nat) (t : Tensor)
    (p : Option Nat) : (m.setTensor self t).array p = m.array p := by
  cases p <;> rfl

theorem buffer_setTensor {α : Type} (m : Memory α) (self : Nat) (t u : Tensor) :
    (m.setTensor self t).buffer u = m.buffer u := by
  unfold Memory.buffer
  rw [array_setTensor]

theorem holdsElements_setTensor {α : Type} (m : Memory α) (self : Nat) (t u : Tensor) :
    Tensor.HoldsElements (m.setTensor self t) u ↔ Tensor.HoldsElements m u := by
  unfold Tensor.HoldsElements
  rw [array_setTensor]

/-- What the move constructor produces. -/
theorem moveCtor_post {α : Type} (m : Memory α) (a b : Nat) (hab : b ≠ a) :
    (Tensor.moveCtor m b a).tensors b = m.tensors a ∧
    (Tensor.moveCtor m b a).tensors a = Tensor.movedFrom ∧
    (∀ t : Tensor, (Tensor.moveCtor m b a).buffer t = m.buffer t) ∧
    (∀ t : Tensor, Tensor.HoldsElements (Tensor.moveCtor m b a) t ↔
      Tensor.HoldsElements m t) := by
  unfold Tensor.moveCtor
  refine ⟨?_, tensors_setTensor_self _ _ _, ?_, ?_⟩
  · rw [tensors_setTensor_ne _ _ _ _ hab, tensors_setTensor_self]
  · intro t
    rw [buffer_setTensor, buffer_setTensor]
  · intro t
    rw [holdsElements_setTensor, holdsElements_setTensor]

/-- What move assignment produces, onto a destination whose array can be deleted and is not
the array of the source. -/
theorem moveAssign_post {α : Type} (m : Memory α) (a b : Nat) (hab : b ≠ a)
    (hd : Tensor.Deletable m (m.tensors b))
    (hu : Tensor.Unshared (m.tensors b) (m.tensors a)) :
    ∃ m1, Tensor.moveAssign m b a = Except.ok m1 ∧
      m1.tensors b = m.tensors a ∧
      m1.tensors a = Tensor.movedFrom ∧
      m1.buffer (m1.tensors b) = m.buffer (m.tensors a) ∧
      (Tensor.HoldsElements m (m.tensors a) → Tensor.HoldsElements m1 (m1.tensors b)) := by
  obtain ⟨m0, h1, h2, _, h4, h5⟩ := source_after_delete m b a hd hu
  obtain ⟨g1, g2, g3, g4⟩ := moveCtor_post m0 a b hab
  refine ⟨_, moveAssign_eq_moveCtor m m0 b a hab h1, ?_, g2, ?_, ?_⟩
  · rw [g1, h2]
  · rw [g1, g3, h4]
  · intro ha
    rw [g1, g4]
    exact h5 ha

/-- C10 (move validity): for every tensor `a`, after move construction `b = move(a)`, and
after move assignment onto any destination `b` whose own array can be deleted and is not
the array of `a`, `b` has the fields of the original `a` (shape, `numElements()`, the
pointer to the buffer), the buffer contents of the original `a`, so `b(idx)` is the original
`a(idx)` for every index list, and `a` is left with `rank() == 0`, `numElements() == 0` and
a null buffer. -/
theorem move_transfers {α : Type} (m : Memory α) (a b : Nat) (hab : b ≠ a) :
    ((Tensor.moveCtor m b a).tensors b = m.tensors a ∧
      (Tensor.moveCtor m b a).buffer ((Tensor.moveCtor m b a).tensors b) =
        m.buffer (m.tensors a) ∧
      (∀ idx, Tensor.call (Tensor.moveCtor m b a) b idx = Tensor.call m a idx) ∧
      ((Tensor.moveCtor m b a).tensors a).rank = 0 ∧
      ((Tensor.moveCtor m b a).tensors a).numElements = 0 ∧
      ((Tensor.moveCtor m b a).tensors a).data_ = none) ∧
    (Tensor.Deletable m (m.tensors b) → Tensor.Unshared (m.tensors b) (m.tensors a) →
      ∃ m1, Tensor.moveAssign m b a = Except.ok m1 ∧
        m1.tensors b = m.tensors a ∧
        m1.buffer (m1.tensors b) = m.buffer (m.tensors a) ∧
        (∀ idx, Tensor.call m1 b idx = Tensor.call m a idx) ∧
        (m1.tensors a).rank = 0 ∧
        (m1.tensors a).numElements = 0 ∧
        (m1.tensors a).data_ = none) := by
  constructor
  · obtain ⟨g1, g2, g3, _⟩ := moveCtor_post m a b hab
    have hb : (Tensor.moveCtor m b a).buffer ((Tensor.moveCtor m b a).tensors b) =
        m.buffer (m.tensors a) := by rw [g1, g3]
    refine ⟨g1, hb, fun idx => call_congr _ m b a idx (by rw [g1]) hb, ?_, ?_, ?_⟩
    · rw [g2]
      rfl
    · rw [g2]
      rfl
    · rw [g2]
      rfl
  · intro hd hu
    obtain ⟨m1, h1, h2, h3, h4, _⟩ := moveAssign_post m a b hab hd hu
    refine ⟨m1, h1, h2, h4, fun idx => call_congr m1 m b a idx (by rw [h2]) h4, ?_, ?_, ?_⟩
    · rw [h3]
      rfl
    · rw [h3]
      rfl
    · rw [h3]
      rfl

/-- Instance of C10: after `b = move(a)` with `a = Tensor({2,3}, 7)`, `b(1,2)` reads `7`,
`b.numElements()` is `6` and `a.numElements()` is `0`; the same after move assignment onto
`b = Tensor({4}, 1)`. -/
theorem move_transfers_witness :
    (1 : Nat) ≠ 0 ∧
    Tensor.call (Tensor.moveCtor (Tensor.fillCtor (Memory.empty Int) 0 [2, 3] 7) 1 0) 1 [1, 2] =
      Except.ok 7 ∧
    ((Tensor.moveCtor (Tensor.fillCtor (Memory.empty Int) 0 [2, 3] 7) 1 0).tensors 1).numElements
      = 6 ∧
    ((Tensor.moveCtor (Tensor.fillCtor (Memory.empty Int) 0 [2, 3] 7) 1 0).tensors 0).numElements
      = 0 ∧
    ∃ m1, Tensor.moveAssign
        (Tensor.fillCtor (Tensor.fillCtor (Memory.empty Int) 0 [2, 3] 7) 1 [4] 1) 1 0 =
          Except.ok m1 ∧
      Tensor.call m1 1 [1, 2] = Except.ok 7 ∧ (m1.tensors 0).numElements = 0 := by
  refine ⟨by decide, ?_, ?_, ?_, ?_⟩
  · rw [(move_transfers (Tensor.fillCtor (Memory.empty Int) 0 [2, 3] 7) 0 1
      (by decide)).1.2.2.1 [1, 2]]
    decide
  · decide
  · exact (move_transfers (Tensor.fillCtor (Memory.empty Int) 0 [2, 3] 7) 0 1
      (by decide)).1.2.2.2.2.1
  · obtain ⟨m1, h1, _, _, h4, _, h6, _⟩ :=
      (move_transfers (Tensor.fillCtor (Tensor.fillCtor (Memory.empty Int) 0 [2, 3] 7) 1 [4] 1)
        0 1 (by decide)).2 (by decide) (by decide)
    refine ⟨m1, h1, ?_, h6⟩
    rw [h4 [1, 2]]
    decide

/-! ## The state predicate -/

theorem consistent_fillCtor {α : Type} (m : Memory α) (self : Nat) (s : List Nat) (v : α) :
    Tensor.Consistent (Tensor.fillCtor m self s v)
      ((Tensor.fillCtor m self s v).tensors self) := by
  have ha := array_fillCtor m self s v
  rw [tensors_fillCtor] at ha ⊢
  refine ⟨holdsElements_of_array _ _ m.arrays.length _ rfl ha (by simp), ?_, rfl⟩
  exact calculateNumElements_eq s

theorem consistent_shapeCtor {α : Type} [Zero α] (m : Memory α) (self : Nat) (s : List Nat) :
    Tensor.Consistent (Tensor.shapeCtor m self s)
      ((Tensor.shapeCtor m self s).tensors self) := by
  have ha := array_shapeCtor m self s
  rw [tensors_shapeCtor] at ha ⊢
  refine ⟨holdsElements_of_array _ _ m.arrays.length _ rfl ha (by simp), ?_, rfl⟩
  exact calculateNumElements_eq s

theorem readDataLoop_ok {σ α : Type} (io : IStream σ α) (n : Nat) :
    ∀ (i : Nat) (file : σ) (buf : List α), i + n ≤ buf.length →
      ∃ r, readDataLoop io n i file buf = Except.ok r ∧ r.1.length = buf.length := by
  induction n with
  | zero =>
    intro i file buf _
    exact ⟨(buf, file), rfl, rfl⟩
  | succ n ih =>
    intro i file buf h
    have hi : i < buf.length := by omega
    rw [readDataLoop, List.getElem?_eq_getElem hi]
    simp only
    obtain ⟨r, hr, hl⟩ := ih (i + 1) (io.extractValue file buf[i]).2
      (buf.set i (io.extractValue file buf[i]).1) (by rw [List.length_set]; omega)
    exact ⟨r, hr, by rw [hl, List.length_set]⟩

/-- The reader returns a tensor, whatever the stream delivers, and the tensor satisfies the
state predicate. -/
theorem readTensorFromFile_consistent {σ α : Type} [Zero α] (io : IStream σ α)
    (filename : List Char) (f : σ) (m : Memory α) (self rank : Nat) :
    ∃ m1, readTensorFromFile io filename (some f) m self rank = Except.ok m1 ∧
      Tensor.Consistent m1 (m1.tensors self) := by
  have hc := consistent_shapeCtor (α := α) m self (readShape io f rank).1
  have ha := array_shapeCtor (α := α) m self (readShape io f rank).1
  have ht := tensors_shapeCtor (α := α) m self (readShape io f rank).1
  have hd : ((Tensor.shapeCtor m self (readShape io f rank).1).tensors self).data_ =
      some m.arrays.length := by rw [ht]
  rw [hd] at ha
  obtain ⟨r, hr, hl⟩ := readDataLoop_ok io
    ((Tensor.shapeCtor m self (readShape io f rank).1).tensors self).numElements 0
    (readShape io f rank).2
    (List.replicate (calculateNumElements (readShape io f rank).1) (0 : α))
    (by rw [ht]; simp [Tensor.numElements])
  have hlt : m.arrays.length < (Tensor.shapeCtor m self (readShape io f rank).1).arrays.length :=
    array_isSome_lt _ _ (by rw [ha]; rfl)
  refine ⟨Memory.mk (Tensor.shapeCtor m self (readShape io f rank).1).tensors
    ((Tensor.shapeCtor m self (readShape io f rank).1).arrays.set m.arrays.length (some r.1)),
    ?_, ?_⟩
  · unfold readTensorFromFile readData
    simp only [hd, ha, hr]
  · obtain ⟨_, h2, h3⟩ := hc
    refine ⟨?_, h2, h3⟩
    refine holdsElements_of_array _ _ m.arrays.length r.1 hd
      (array_set_eq _ _ _ hlt) ?_
    rw [hl, ht]
    simp

theorem consistent_of_fields {α : Type} (m m1 : Memory α) (t u : Tensor)
    (hc : Tensor.Consistent m t) (hs : u.matrix_shape = t.matrix_shape)
    (he : u.elements_ = t.elements_) (hr : u.rank_ = t.rank_)
    (hh : Tensor.HoldsElements m1 u) : Tensor.Consistent m1 u := by
  obtain ⟨_, h2, h3⟩ := hc
  exact ⟨hh, by rw [he, hs]; exact h2, by rw [hr, hs]; exact h3⟩

/-- C6 (as amended): the state predicate "buffer length == elementCount == product(shape)
mod 2^64 and rank == length(shape)" is established by `Tensor(shape)`,
`Tensor(shape, fill)` and `readTensorFromFile`; from a source `a` that satisfies it, copy
construction and move construction give a destination `b` that satisfies it, and so do copy
assignment and move assignment onto a destination whose array can be deleted and is not the
array of `a`; the source keeps it under the copies, and under the moves is left with buffer
length == elementCount == 0 and rank == length(shape) == 0; self-assignment changes
nothing; and a write through `operator()` keeps it for every tensor. -/
theorem state_predicate {σ α : Type} [Zero α] (io : IStream σ α) (m : Memory α) (a b : Nat)
    (hab : b ≠ a) :
    (∀ s : List Nat, Tensor.Consistent (Tensor.shapeCtor m b s)
        ((Tensor.shapeCtor m b s).tensors b) ∧
      ∀ v : α, Tensor.Consistent (Tensor.fillCtor m b s v)
        ((Tensor.fillCtor m b s v).tensors b)) ∧
    (∀ (filename : List Char) (f : σ) (rank : Nat),
      ∃ m1, readTensorFromFile io filename (some f) m b rank = Except.ok m1 ∧
        Tensor.Consistent m1 (m1.tensors b)) ∧
    (Tensor.Consistent m (m.tensors a) →
      (∃ m1, Tensor.copyCtor m b a = Except.ok m1 ∧
        Tensor.Consistent m1 (m1.tensors b) ∧ Tensor.Consistent m1 (m1.tensors a)) ∧
      (Tensor.Consistent (Tensor.moveCtor m b a) ((Tensor.moveCtor m b a).tensors b) ∧
        Tensor.HoldsElements (Tensor.moveCtor m b a) ((Tensor.moveCtor m b a).tensors a) ∧
        ((Tensor.moveCtor m b a).tensors a).numElements = 0 ∧
        ((Tensor.moveCtor m b a).tensors a).rank_ = 0 ∧
        ((Tensor.moveCtor m b a).tensors a).rank = 0) ∧
      (Tensor.Deletable m (m.tensors b) → Tensor.Unshared (m.tensors b) (m.tensors a) →
        (∃ m1, Tensor.copyAssign m b a = Except.ok m1 ∧
          Tensor.Consistent m1 (m1.tensors b) ∧ Tensor.Consistent m1 (m1.tensors a)) ∧
        (∃ m1, Tensor.moveAssign m b a = Except.ok m1 ∧
          Tensor.Consistent m1 (m1.tensors b) ∧
          Tensor.HoldsElements m1 (m1.tensors a) ∧
          (m1.tensors a).numElements = 0 ∧ (m1.tensors a).rank_ = 0 ∧
          (m1.tensors a).rank = 0))) ∧
    (Tensor.copyAssign m a a = Except.ok m ∧ Tensor.moveAssign m a a = Except.ok m) ∧
    (∀ idx v m2, Tensor.assignAt m a idx v = Except.ok m2 →
      ∀ q, Tensor.Consistent m (m.tensors q) → Tensor.Consistent m2 (m2.tensors q)) := by
  refine ⟨fun s => ⟨consistent_shapeCtor m b s, fun v => consistent_fillCtor m b s v⟩,
    fun filename f rank => readTensorFromFile_consistent io filename f m b rank, ?_, ?_, ?_⟩
  · intro hc
    have ha := hc.1
    refine ⟨?_, ?_, ?_⟩
    · obtain ⟨m1, h, h1, h2, _, _, h5, h6⟩ := copyCtor_post m a b hab ha
      refine ⟨m1, h, consistent_of_fields m m1 _ _ hc (by rw [h1]) (by rw [h1]) (by rw [h1]) h5,
        consistent_of_fields m m1 _ _ hc (by rw [h2]) (by rw [h2]) (by rw [h2]) h6⟩
    · obtain ⟨g1, g2, _, g4⟩ := moveCtor_post m a b hab
      refine ⟨consistent_of_fields m _ _ _ hc (by rw [g1]) (by rw [g1]) (by rw [g1])
        (by rw [g1, g4]; exact ha), ?_, ?_, ?_, ?_⟩
      · rw [g2]
        exact Or.inl ⟨rfl, rfl⟩
      · rw [g2]
        rfl
      · rw [g2]
        rfl
      · rw [g2]
        rfl
    · intro hd hu
      constructor
      · obtain ⟨m1, h, h1, h2, _, _, h5, h6⟩ := copyAssign_post m a b hab ha hd hu
        refine ⟨m1, h,
          consistent_of_fields m m1 _ _ hc (by rw [h1]) (by rw [h1]) (by rw [h1]) h5,
          consistent_of_fields m m1 _ _ hc (by rw [h2]) (by rw [h2]) (by rw [h2]) h6⟩
      · obtain ⟨m1, h, h1, h2, _, h4⟩ := moveAssign_post m a b hab hd hu
        refine ⟨m1, h,
          consistent_of_fields m m1 _ _ hc (by rw [h1]) (by rw [h1]) (by rw [h1]) (h4 ha),
          ?_, ?_, ?_, ?_⟩
        · rw [h2]
          exact Or.inl ⟨rfl, rfl⟩
        · rw [h2]
          rfl
        · rw [h2]
          rfl
        · rw [h2]
          rfl
  · constructor
    · simp [Tensor.copyAssign]
    · simp [Tensor.moveAssign]
  · intro idx v m2 hw q hq
    obtain ⟨f1, f2, _, _⟩ := assignAt_frame m m2 a idx v hw
    rw [f1]
    exact ⟨f2 _ hq.1, hq.2⟩

/-- Instance of C6: copying `Tensor({2,3}, 7)` gives two tensors that satisfy the state
predicate. -/
theorem state_predicate_witness :
    (1 : Nat) ≠ 0 ∧
    Tensor.Consistent (Tensor.fillCtor (Memory.empty Int) 0 [2, 3] 7)
      ((Tensor.fillCtor (Memory.empty Int) 0 [2, 3] 7).tensors 0) ∧
    ∃ m1, Tensor.copyCtor (Tensor.fillCtor (Memory.empty Int) 0 [2, 3] 7) 1 0 = Except.ok m1 ∧
      Tensor.Consistent m1 (m1.tensors 1) ∧ Tensor.Consistent m1 (m1.tensors 0) :=
  ⟨by decide, by decide,
    ((state_predicate (IStream.mk (fun (f : Unit) n => (n, f)) (fun f (x : Int) => (x, f)))
      (Tensor.fillCtor (Memory.empty Int) 0 [2, 3] 7) 0 1 (by decide)).2.2.1
        (by decide)).1⟩

/-- C6 as stated fails.  After `b = move(a)` with `a = Tensor({2}, 7)`, the source `a` has
`numElements() == 0` and an empty shape, whose product is `1`.  `Tensor({2^63, 4})` has
`numElements() == 0` where the product of the extents is `2^65`.  The default constructor
run on a storage whose `elements_` field holds `5` leaves `numElements() == 5` with a
buffer of one element. -/
theorem state_predicate_counterexample :
    (((Tensor.moveCtor (Tensor.fillCtor (Memory.empty Int) 0 [2] 7) 1 0).tensors 0).numElements
        = 0 ∧
      ((Tensor.moveCtor (Tensor.fillCtor (Memory.empty Int) 0 [2] 7) 1 0).tensors
        0).matrix_shape.prod = 1 ∧
      ¬ Tensor.Consistent (Tensor.moveCtor (Tensor.fillCtor (Memory.empty Int) 0 [2] 7) 1 0)
        ((Tensor.moveCtor (Tensor.fillCtor (Memory.empty Int) 0 [2] 7) 1 0).tensors 0)) ∧
    (((Tensor.shapeCtor (Memory.empty Int) 0 [2 ^ 63, 4]).tensors 0).numElements = 0 ∧
      ((Tensor.shapeCtor (Memory.empty Int) 0 [2 ^ 63, 4]).tensors 0).matrix_shape.prod =
        2 ^ 65) ∧
    (((Tensor.defaultCtor (Memory.mk (fun _ => Tensor.mk 5 [] 5 none)
        ([] : List (Option (List Int)))) 0).tensors 0).numElements = 5 ∧
      (Tensor.defaultCtor (Memory.mk (fun _ => Tensor.mk 5 [] 5 none)
        ([] : List (Option (List Int)))) 0).buffer
        ((Tensor.defaultCtor (Memory.mk (fun _ => Tensor.mk 5 [] 5 none)
          ([] : List (Option (List Int)))) 0).tensors 0) = [0] ∧
      ¬ Tensor.Consistent (Tensor.defaultCtor (Memory.mk (fun _ => Tensor.mk 5 [] 5 none)
          ([] : List (Option (List Int)))) 0)
        ((Tensor.defaultCtor (Memory.mk (fun _ => Tensor.mk 5 [] 5 none)
          ([] : List (Option (List Int)))) 0).tensors 0)) := by
  refine ⟨⟨by decide, by decide, by decide⟩, ⟨by decide, by decide⟩,
    ⟨by decide, by decide, by decide⟩⟩

/-! ## The default constructor -/

theorem calculateFlatIndex_nil (idx : List Nat) : calculateFlatIndex [] idx = 0 := by
  obtain ⟨n, hn, heq, _⟩ := calculateFlatIndex_passes [] idx
  have h0 : n = 0 := Nat.le_zero.1 hn
  rw [heq, h0]
  rfl

/-- C14: what the default constructor gives.  `rank()` is `0` and the single element, read
with the empty index list, is zero, as the claim says; but `numElements()` is not set to
`1`: the constructor never assigns `elements_` (nor `rank_`), so `numElements()` returns
whatever the storage held, here shown on a storage that held `5`, where `Tensor(empty
shape)` reports `1`. -/
theorem defaultCtor_observed {α : Type} [Zero α] (m : Memory α) (self : Nat) :
    ((Tensor.defaultCtor m self).tensors self).rank = 0 ∧
    Tensor.call (Tensor.defaultCtor m self) self [] = Except.ok (0 : α) ∧
    ((Tensor.defaultCtor m self).tensors self).numElements = (m.tensors self).elements_ ∧
    ((Tensor.defaultCtor m self).tensors self).rank_ = (m.tensors self).rank_ ∧
    ((Tensor.defaultCtor (Memory.mk (fun _ => Tensor.mk 5 [] 5 none)
      ([] : List (Option (List Int)))) 0).tensors 0).numElements = 5 ∧
    ((Tensor.shapeCtor (Memory.mk (fun _ => Tensor.mk 5 [] 5 none)
      ([] : List (Option (List Int)))) 0 []).tensors 0).numElements = 1 := by
  have ht : (Tensor.defaultCtor m self).tensors self =
      Tensor.mk (m.tensors self).rank_ [] (m.tensors self).elements_
        (some m.arrays.length) := by
    simp [Tensor.defaultCtor, Memory.setTensor, Memory.newArray]
  refine ⟨by rw [ht]; rfl, ?_, by rw [ht]; rfl, by rw [ht], by decide, by decide⟩
  refine call_eq_ok _ self [] [(0 : α)] 0 ?_ ?_ ?_
  · rw [ht]
    exact ⟨rfl, fun k hk => absurd hk (Nat.not_lt_zero k)⟩
  · rw [ht]
    exact array_newArray m _ self _
  · rw [ht, calculateFlatIndex_nil]
    rfl

/-! ## Self-assignment -/

/-- C16: self-assignment is a no-op.  For every tensor `a`, both `a = a` and `a = move(a)`
return with the memory exactly as it was, so the shape, `rank()`, `numElements()`, the
pointer and every buffer element of `a` are unchanged; a self-move does not reset `a` to the
moved-from state. -/
theorem self_assignment_noop {α : Type} (m : Memory α) (a : Nat) :
    Tensor.copyAssign m a a = Except.ok m ∧
    Tensor.moveAssign m a a = Except.ok m ∧
    ∀ m1, (Tensor.copyAssign m a a = Except.ok m1 ∨ Tensor.moveAssign m a a = Except.ok m1) →
      m1.tensors a = m.tensors a ∧
      (m1.tensors a).matrix_shape = (m.tensors a).matrix_shape ∧
      (m1.tensors a).rank = (m.tensors a).rank ∧
      (m1.tensors a).numElements = (m.tensors a).numElements ∧
      m1.buffer (m1.tensors a) = m.buffer (m.tensors a) ∧
      ∀ idx, Tensor.call m1 a idx = Tensor.call m a idx := by
  have h1 : Tensor.copyAssign m a a = Except.ok m := by simp [Tensor.copyAssign]
  have h2 : Tensor.moveAssign m a a = Except.ok m := by simp [Tensor.moveAssign]
  refine ⟨h1, h2, ?_⟩
  intro m1 hm
  have : m1 = m := by
    rcases hm with hm | hm
    · rw [h1] at hm
      exact (Except.ok.inj hm).symm
    · rw [h2] at hm
      exact (Except.ok.inj hm).symm
  subst this
  exact ⟨rfl, rfl, rfl, rfl, rfl, fun _ => rfl⟩

/-- Instance of C16: `a = Tensor({2,3}, 7)` still has `6` elements and reads `7` at `(1,2)`
after `a = move(a)`. -/
theorem self_assignment_noop_witness :
    ∃ m1, Tensor.moveAssign (Tensor.fillCtor (Memory.empty Int) 0 [2, 3] 7) 0 0 =
        Except.ok m1 ∧
      (m1.tensors 0).numElements = 6 ∧ Tensor.call m1 0 [1, 2] = Except.ok 7 :=
  ⟨_, (self_assignment_noop (Tensor.fillCtor (Memory.empty Int) 0 [2, 3] 7) 0).2.1,
    by decide, by decide⟩

/-! ## No wrap-around inside the offset computation -/

theorem calculateFlatIndex_eq_passes (s idx : List Nat) :
    calculateFlatIndex s idx = flatIndexLoop s idx (flatIndexPasses s.length) 0 1 := rfl

theorem flatIndexPasses_le (n : Nat) : flatIndexPasses n ≤ n := by
  unfold flatIndexPasses
  rcases hti : toInt ((n + sizeMod - 1) % sizeMod) with i | j
  · have hle := toInt_ofNat_le _ i hti
    have hpos : 0 < n := by
      rcases Nat.eq_zero_or_pos n with h0 | hpos
      · exfalso
        have hneg : 2 ^ 31 ≤ (n + sizeMod - 1) % sizeMod % 2 ^ 32 := by
          rw [h0]
          norm_num [sizeMod]
        obtain ⟨k, hk⟩ := toInt_negSucc _ hneg
        rw [hk] at hti
        cases hti
      · exact hpos
    have e : n + sizeMod - 1 = (n - 1) + sizeMod := by omega
    have hm : (n + sizeMod - 1) % sizeMod ≤ n - 1 := by
      rw [e, Nat.add_mod_right]
      exact Nat.mod_le _ _
    have : (Int.ofNat i + 1).toNat = i + 1 := by
      simp only [Int.ofNat_eq_coe]
      omega
    rw [this]
    omega
  · have : (Int.negSucc j + 1).toNat = 0 := by
      rw [Int.toNat_eq_zero, Int.negSucc_eq]
      omega
    rw [this]
    exact Nat.zero_le _

theorem flatIndexLoopChecked_eq (s idx : List Nat) (hv : ValidIndex s idx) (n : Nat) :
    ∀ flat mult, n ≤ s.length → flat < mult → mult * (s.take n).prod < sizeMod →
      flatIndexLoopChecked s idx n flat mult = some (flatIndexLoop s idx n flat mult) := by
  have hpos := validIndex_pos s idx hv
  induction n with
  | zero =>
    intro flat mult _ _ _
    rfl
  | succ n ih =>
    intro flat mult hn hfm hbound
    have hn2 : n < s.length := hn
    have hidx := hv.2 n hn2
    rw [List.getD_eq_getElem s 0 hn2] at hidx
    rw [List.prod_take_succ s n hn2] at hbound
    have h1 : 1 ≤ (s.take n).prod :=
      List.one_le_prod_of_one_le (fun x hx => hpos x (List.mem_of_mem_take hx))
    have hms : mult * s[n] ≤ mult * ((s.take n).prod * s[n]) :=
      Nat.mul_le_mul_left _ (Nat.le_mul_of_pos_left _ h1)
    have hms2 : mult * s[n] < sizeMod := by omega
    have hstep : flat + idx.getD n 0 * mult < mult * s[n] := by
      calc flat + idx.getD n 0 * mult < mult + idx.getD n 0 * mult := by omega
        _ = mult * (idx.getD n 0 + 1) := by ring
        _ ≤ mult * s[n] := Nat.mul_le_mul_left _ hidx
    have hprod : idx.getD n 0 * mult < sizeMod := by omega
    have hsum : flat + idx.getD n 0 * mult < sizeMod := by omega
    simp only [flatIndexLoopChecked, flatIndexLoop]
    rw [List.getD_eq_getElem s 0 hn2]
    rw [if_pos ⟨hprod, hsum, hms2⟩, Nat.mod_eq_of_lt hprod, Nat.mod_eq_of_lt hsum,
      Nat.mod_eq_of_lt hms2]
    exact ih _ _ (by omega) hstep (by rw [Nat.mul_assoc, Nat.mul_comm s[n]]; exact hbound)

theorem calculateFlatIndexChecked_eq (s idx : List Nat) (hv : ValidIndex s idx)
    (hp : s.prod < sizeMod) :
    calculateFlatIndexChecked s idx = some (calculateFlatIndex s idx) := by
  have hpos := validIndex_pos s idx hv
  have hle := prod_take_le s hpos (flatIndexPasses s.length)
  rw [calculateFlatIndex_eq_passes]
  exact flatIndexLoopChecked_eq s idx hv _ 0 1 (flatIndexPasses_le _) (by norm_num) (by omega)

theorem consistent_array {α : Type} (m : Memory α) (t : Tensor)
    (hc : Tensor.Consistent m t) (hpos : 0 < t.elements_) :
    ∃ p, t.data_ = some p ∧ m.array (some p) = some (m.buffer t) ∧
      (m.buffer t).length = t.elements_ := by
  have hl := holdsElements_buffer_length m t hc.1
  rcases hc.1 with ⟨_, h0⟩ | ⟨hne, h⟩
  · omega
  · cases hd : t.data_ with
    | none => exact absurd hd hne
    | some p =>
      refine ⟨p, rfl, ?_, hl⟩
      unfold Memory.buffer
      rw [hd] at h ⊢
      cases hx : m.array (some p) with
      | none => simp [hx] at h
      | some buf => rfl

/-- C17 (in-bounds access): for every shape `s` whose product fits in `size_t` and every
index list accepted by `checkIndices`, `calculateFlatIndex(idx) < product(s) ==
numElements()`, no intermediate value of the offset or of the multiplier wraps around, and
on every tensor of that shape that satisfies the state predicate the read and the write
through `operator()` stay inside the buffer. -/
theorem access_in_bounds {α : Type} (s idx : List Nat) (hp : s.prod < 2 ^ 64)
    (hc : checkIndices s idx = Except.ok ()) :
    calculateFlatIndex s idx < s.prod ∧
    calculateNumElements s = s.prod ∧
    calculateFlatIndexChecked s idx = some (calculateFlatIndex s idx) ∧
    ∀ (m : Memory α) (a : Nat), Tensor.Consistent m (m.tensors a) →
      (m.tensors a).matrix_shape = s →
      (m.tensors a).numElements = s.prod ∧
      calculateFlatIndex s idx < (m.buffer (m.tensors a)).length ∧
      (∃ x, Tensor.call m a idx = Except.ok x) ∧
      ∀ v, ∃ m2, Tensor.assignAt m a idx v = Except.ok m2 := by
  have hv := (checkIndices_ok_iff s idx).1 hc
  have hlt := calculateFlatIndex_lt s idx hv hp
  have hn : calculateNumElements s = s.prod := by
    rw [calculateNumElements_eq]
    exact Nat.mod_eq_of_lt hp
  refine ⟨hlt, hn, calculateFlatIndexChecked_eq s idx hv hp, ?_⟩
  intro m a hcons hs
  have he : (m.tensors a).elements_ = s.prod := by
    rw [hcons.2.1, hs]
    exact Nat.mod_eq_of_lt hp
  obtain ⟨p, hd, harr, hl⟩ := consistent_array m _ hcons (by omega)
  have hk : calculateFlatIndex (m.tensors a).matrix_shape idx <
      (m.buffer (m.tensors a)).length := by
    rw [hs, hl, he]
    exact hlt
  refine ⟨he, by rw [hl, he]; exact hlt, ?_, ?_⟩
  · exact ⟨(m.buffer (m.tensors a))[calculateFlatIndex (m.tensors a).matrix_shape idx],
      call_eq_ok m a idx _ _ (by rw [hs]; exact hv) (by rw [hd]; exact harr)
        (List.getElem?_eq_getElem hk)⟩
  · intro v
    exact ⟨_, assignAt_ok m a p idx v _ hd harr (by rw [hs]; exact hv) hk⟩

/-- Instance of C17: shape `[2,3]`, index `(1,2)`: the offset `5` is below `6`. -/
theorem access_in_bounds_witness :
    [2, 3].prod < 2 ^ 64 ∧ checkIndices [2, 3] [1, 2] = Except.ok () ∧
    calculateFlatIndex [2, 3] [1, 2] < [2, 3].prod ∧
    calculateFlatIndexChecked [2, 3] [1, 2] = some 5 ∧
    ∃ x, Tensor.call (Tensor.fillCtor (Memory.empty Int) 0 [2, 3] 7) 0 [1, 2] = Except.ok x :=
  ⟨by decide, by decide,
    (access_in_bounds (α := Int) [2, 3] [1, 2] (by decide) (by decide)).1,
    by decide,
    ((access_in_bounds (α := Int) [2, 3] [1, 2] (by decide) (by decide)).2.2.2
      (Tensor.fillCtor (Memory.empty Int) 0 [2, 3] 7) 0 (by decide) (by decide)).2.2.1⟩

/-! ## The offset map on the valid multi-indices -/

theorem lexLess_cons (i j : Nat) (idx jdx : List Nat) :
    lexLess (i :: idx) (j :: jdx) ↔ i < j ∨ (i = j ∧ lexLess idx jdx) := by
  simp [lexLess, lexLessB]

theorem lexLess_total (idx jdx : List Nat) (hl : idx.length = jdx.length) (hne : idx ≠ jdx) :
    lexLess idx jdx ∨ lexLess jdx idx := by
  induction idx generalizing jdx with
  | nil =>
    cases jdx with
    | nil => exact absurd rfl hne
    | cons j jdx => simp at hl
  | cons i idx ih =>
    cases jdx with
    | nil => simp at hl
    | cons j jdx =>
      simp only [List.length_cons, Nat.add_right_cancel_iff] at hl
      rw [lexLess_cons, lexLess_cons]
      rcases Nat.lt_trichotomy i j with h | h | h
      · exact Or.inl (Or.inl h)
      · subst h
        have hne2 : idx ≠ jdx := fun h => hne (by rw [h])
        rcases ih jdx hl hne2 with h2 | h2
        · exact Or.inl (Or.inr ⟨rfl, h2⟩)
        · exact Or.inr (Or.inr ⟨rfl, h2⟩)
      · exact Or.inr (Or.inl h)

/-- The reference offset is strictly increasing for the lexicographic order. -/
theorem rowMajorOffset_strictMono (s idx jdx : List Nat) (hi : ValidIndex s idx)
    (hj : ValidIndex s jdx) (hlt : lexLess idx jdx) :
    rowMajorOffset s idx < rowMajorOffset s jdx := by
  induction s generalizing idx jdx with
  | nil =>
    cases idx with
    | nil => simp [lexLess, lexLessB] at hlt
    | cons i idx => simp [ValidIndex] at hi
  | cons d ds ih =>
    cases idx with
    | nil => simp [ValidIndex] at hi
    | cons i idx =>
      cases jdx with
      | nil => simp [ValidIndex] at hj
      | cons j jdx =>
        obtain ⟨_, hi2⟩ := (validIndex_cons d i ds idx).1 hi
        obtain ⟨_, hj2⟩ := (validIndex_cons d j ds jdx).1 hj
        rw [rowMajorOffset_cons, rowMajorOffset_cons]
        rcases (lexLess_cons i j idx jdx).1 hlt with h | ⟨h, h2⟩
        · have hb := rowMajorOffset_lt_prod ds idx hi2
          calc i * ds.prod + rowMajorOffset ds idx < i * ds.prod + ds.prod := by omega
            _ = (i + 1) * ds.prod := by ring
            _ ≤ j * ds.prod := Nat.mul_le_mul_right _ h
            _ ≤ j * ds.prod + rowMajorOffset ds jdx := Nat.le_add_right _ _
        · subst h
          have := ih idx jdx hi2 hj2 h2
          omega

theorem rowMajorOffset_injective (s idx jdx : List Nat) (hi : ValidIndex s idx)
    (hj : ValidIndex s jdx) (h : rowMajorOffset s idx = rowMajorOffset s jdx) : idx = jdx := by
  by_contra hne
  rcases lexLess_total idx jdx (hi.1.trans hj.1.symm) hne with hlt | hlt
  · have := rowMajorOffset_strictMono s idx jdx hi hj hlt
    omega
  · have := rowMajorOffset_strictMono s jdx idx hj hi hlt
    omega

theorem rowMajorOffset_surjective (s : List Nat) :
    ∀ k, k < s.prod → ∃ idx, ValidIndex s idx ∧ rowMajorOffset s idx = k := by
  induction s with
  | nil =>
    intro k hk
    refine ⟨[], by decide, ?_⟩
    simp only [List.prod_nil] at hk
    rw [rowMajorOffset_nil]
    omega
  | cons d ds ih =>
    intro k hk
    rw [List.prod_cons] at hk
    have hP : 0 < ds.prod := by
      rcases Nat.eq_zero_or_pos ds.prod with h0 | h
      · rw [h0] at hk
        omega
      · exact h
    obtain ⟨idx, hv, ho⟩ := ih (k % ds.prod) (Nat.mod_lt _ hP)
    refine ⟨(k / ds.prod) :: idx, ?_, ?_⟩
    · rw [validIndex_cons]
      refine ⟨?_, hv⟩
      apply Nat.div_lt_of_lt_mul
      rw [Nat.mul_comm]
      exact hk
    · rw [rowMajorOffset_cons, ho]
      rw [Nat.mul_comm]
      exact Nat.div_add_mod k ds.prod

/-- For a product of extents that fits in `size_t` and a rank of at most `2^31`,
`calculateFlatIndex` is a bijection from the valid multi-indices onto the offsets below the
product, strictly increasing for the lexicographic order. -/
theorem calculateFlatIndex_bijective (s : List Nat) (hp : s.prod < 2 ^ 64)
    (hr : s.length ≤ 2 ^ 31) :
    (∀ idx jdx, ValidIndex s idx → ValidIndex s jdx →
      calculateFlatIndex s idx = calculateFlatIndex s jdx → idx = jdx) ∧
    (∀ k, k < s.prod → ∃ idx, ValidIndex s idx ∧ calculateFlatIndex s idx = k) ∧
    (∀ idx jdx, ValidIndex s idx → ValidIndex s jdx → lexLess idx jdx →
      calculateFlatIndex s idx < calculateFlatIndex s jdx) := by
  refine ⟨?_, ?_, ?_⟩
  · intro idx jdx hi hj h
    rw [calculateFlatIndex_eq s idx hi hp hr, calculateFlatIndex_eq s jdx hj hp hr] at h
    exact rowMajorOffset_injective s idx jdx hi hj h
  · intro k hk
    obtain ⟨idx, hv, ho⟩ := rowMajorOffset_surjective s k hk
    exact ⟨idx, hv, by rw [calculateFlatIndex_eq s idx hv hp hr, ho]⟩
  · intro idx jdx hi hj hlt
    rw [calculateFlatIndex_eq s idx hi hp hr, calculateFlatIndex_eq s jdx hj hp hr]
    exact rowMajorOffset_strictMono s idx jdx hi hj hlt

theorem validIndex_replicate_last (n x : Nat) (hx : x < 2) :
    ValidIndex (List.replicate n 1 ++ [2]) (List.replicate n 0 ++ [x]) := by
  induction n with
  | zero =>
    show ValidIndex [2] [x]
    rw [validIndex_cons]
    exact ⟨hx, by decide⟩
  | succ n ih =>
    rw [List.replicate_succ, List.replicate_succ, List.cons_append, List.cons_append,
      validIndex_cons]
    exact ⟨by decide, ih⟩

theorem lexLess_replicate_last (n : Nat) :
    lexLess (List.replicate n 0 ++ [0]) (List.replicate n 0 ++ [1]) := by
  induction n with
  | zero => decide
  | succ n ih =>
    show lexLess (0 :: (List.replicate n 0 ++ [0])) (0 :: (List.replicate n 0 ++ [1]))
    rw [lexLess_cons]
    exact Or.inr ⟨rfl, ih⟩

/-- C18 at a rank beyond `2^31`: for the shape of `2^31 + 1` extents `1, ..., 1, 2`
(product `2`) the two valid multi-indices `(0, ..., 0, 0)` and `(0, ..., 0, 1)` are
distinct, the first before the second in lexicographic order, and `calculateFlatIndex`
maps both to `0`, because its `int` loop variable starts negative and the loop never
runs: neither injective, nor onto `{0, 1}`, nor strictly increasing. -/
theorem calculateFlatIndex_collision :
    (List.replicate (2 ^ 31) 1 ++ [2]).prod = 2 ∧
    ValidIndex (List.replicate (2 ^ 31) 1 ++ [2]) (List.replicate (2 ^ 31) 0 ++ [0]) ∧
    ValidIndex (List.replicate (2 ^ 31) 1 ++ [2]) (List.replicate (2 ^ 31) 0 ++ [1]) ∧
    List.replicate (2 ^ 31) 0 ++ [0] ≠ List.replicate (2 ^ 31) 0 ++ [1] ∧
    lexLess (List.replicate (2 ^ 31) 0 ++ [0]) (List.replicate (2 ^ 31) 0 ++ [1]) ∧
    calculateFlatIndex (List.replicate (2 ^ 31) 1 ++ [2])
      (List.replicate (2 ^ 31) 0 ++ [0]) = 0 ∧
    calculateFlatIndex (List.replicate (2 ^ 31) 1 ++ [2])
      (List.replicate (2 ^ 31) 0 ++ [1]) = 0 := by
  have hlen : (List.replicate (2 ^ 31) 1 ++ [2]).length = 2 ^ 31 + 1 := by
    rw [List.length_append, List.length_replicate, List.length_singleton]
  refine ⟨prod_replicate_one _, validIndex_replicate_last _ 0 (by decide),
    validIndex_replicate_last _ 1 (by decide), ?_, lexLess_replicate_last _,
    calculateFlatIndex_negative_start _ _ hlen, calculateFlatIndex_negative_start _ _ hlen⟩
  intro h
  have := List.append_cancel_left h
  cases this

/-! ## Write, then read -/

theorem call_after_assignAt {α : Type} (m m2 : Memory α) (a : Nat) (idx jdx : List Nat)
    (v : α) (hw : Tensor.assignAt m a idx v = Except.ok m2) :
    Tensor.call m2 a jdx =
      match checkIndices (m.tensors a).matrix_shape jdx with
      | Except.error e => Except.error e
      | Except.ok _ =>
        match ((m.buffer (m.tensors a)).set
            (calculateFlatIndex (m.tensors a).matrix_shape idx) v)[calculateFlatIndex
              (m.tensors a).matrix_shape jdx]? with
        | some x => Except.ok x
        | none => Except.error Fault.undefinedBehaviour := by
  obtain ⟨f1, _, _, f4⟩ := assignAt_frame m m2 a idx v hw
  rw [call_eq_buffer, f1, f4]

/-- C19 (as amended): for every tensor that satisfies the state predicate with a product of
extents below `2^64`, every valid index `idx` and every value `v`, the write `t(idx) = v`
is defined, `t(idx)` then reads `v`, and the fields of `t` (shape, `rank()`,
`numElements()`) are unchanged; when moreover the rank is at most `2^31`, reading
`t(jdx)` for every valid `jdx` other than `idx` returns what it returned before the
write. -/
theorem write_then_read {α : Type} (m : Memory α) (a : Nat) (idx : List Nat) (v : α)
    (hc : Tensor.Consistent m (m.tensors a))
    (hp : (m.tensors a).matrix_shape.prod < 2 ^ 64)
    (hv : ValidIndex (m.tensors a).matrix_shape idx) :
    ∃ m2, Tensor.assignAt m a idx v = Except.ok m2 ∧
      Tensor.call m2 a idx = Except.ok v ∧
      m2.tensors a = m.tensors a ∧
      (m2.tensors a).matrix_shape = (m.tensors a).matrix_shape ∧
      (m2.tensors a).rank = (m.tensors a).rank ∧
      (m2.tensors a).numElements = (m.tensors a).numElements ∧
      ((m.tensors a).matrix_shape.length ≤ 2 ^ 31 →
        ∀ jdx, ValidIndex (m.tensors a).matrix_shape jdx → jdx ≠ idx →
          Tensor.call m2 a jdx = Tensor.call m a jdx) := by
  have hlt := calculateFlatIndex_lt _ idx hv hp
  have he : (m.tensors a).elements_ = (m.tensors a).matrix_shape.prod := by
    rw [hc.2.1]
    exact Nat.mod_eq_of_lt hp
  obtain ⟨p, hd, harr, hl⟩ := consistent_array m _ hc (by omega)
  have hk : calculateFlatIndex (m.tensors a).matrix_shape idx <
      (m.buffer (m.tensors a)).length := by
    rw [hl, he]
    exact hlt
  have hw := assignAt_ok m a p idx v _ hd harr hv hk
  obtain ⟨f1, _, _, _⟩ := assignAt_frame m _ a idx v hw
  have ht : (Memory.mk m.tensors (m.arrays.set p (some ((m.buffer (m.tensors a)).set
      (calculateFlatIndex (m.tensors a).matrix_shape idx) v)))).tensors a = m.tensors a := rfl
  refine ⟨_, hw, ?_, ht, by rw [ht], by rw [ht], by rw [ht], ?_⟩
  · rw [call_after_assignAt m _ a idx idx v hw, (checkIndices_ok_iff _ _).2 hv]
    simp only
    rw [List.getElem?_set_self hk]
  · intro hr jdx hj hne
    rw [call_after_assignAt m _ a idx jdx v hw, call_eq_buffer]
    have hne2 : calculateFlatIndex (m.tensors a).matrix_shape idx ≠
        calculateFlatIndex (m.tensors a).matrix_shape jdx := by
      intro h
      exact hne ((calculateFlatIndex_bijective _ hp hr).1 idx jdx hv hj h).symm
    rw [List.getElem?_set_ne hne2]

/-- Instance of C19: on `Tensor({2,3}, 7)` the write `t(1,2) = 9` is defined, `t(1,2)`
then reads `9` and `t(0,0)` still reads `7`. -/
theorem write_then_read_witness :
    ∃ m2, Tensor.assignAt (Tensor.fillCtor (Memory.empty Int) 0 [2, 3] 7) 0 [1, 2] 9 =
        Except.ok m2 ∧
      Tensor.call m2 0 [1, 2] = Except.ok 9 ∧ Tensor.call m2 0 [0, 0] = Except.ok 7 := by
  obtain ⟨m2, h1, h2, _, _, _, _, h7⟩ :=
    write_then_read (Tensor.fillCtor (Memory.empty Int) 0 [2, 3] 7) 0 [1, 2] 9
      (by decide) (by decide) (by decide)
  refine ⟨m2, h1, h2, ?_⟩
  rw [h7 (by decide) [0, 0] (by decide) (by decide)]
  decide

/-- On a tensor with `2^31 + 1` dimensions and two elements every valid index is mapped to
offset `0`, so a write through one index is read back through another. -/
theorem write_read_beyond_int_rank (s idx jdx : List Nat) (hlen : s.length = 2 ^ 31 + 1)
    (hprod : s.prod = 2) (hi : ValidIndex s idx) (hj : ValidIndex s jdx) :
    ∃ m2, Tensor.assignAt (Tensor.fillCtor (Memory.empty Int) 0 s 7) 0 idx 9 = Except.ok m2 ∧
      Tensor.call (Tensor.fillCtor (Memory.empty Int) 0 s 7) 0 jdx = Except.ok 7 ∧
      Tensor.call m2 0 jdx = Except.ok 9 := by
  have hn : calculateNumElements s = 2 := by
    rw [calculateNumElements_eq, hprod]
    norm_num [sizeMod]
  have ht := tensors_fillCtor (Memory.empty Int) 0 s 7
  have ha := array_fillCtor (Memory.empty Int) 0 s 7
  rw [hn] at ha
  have hs : ((Tensor.fillCtor (Memory.empty Int) 0 s 7).tensors 0).matrix_shape = s := by
    rw [ht]
  have hd : ((Tensor.fillCtor (Memory.empty Int) 0 s 7).tensors 0).data_ = some 0 := by
    rw [ht]
    rfl
  rw [hd] at ha
  have hfi : calculateFlatIndex
      ((Tensor.fillCtor (Memory.empty Int) 0 s 7).tensors 0).matrix_shape idx = 0 := by
    rw [hs]
    exact calculateFlatIndex_negative_start s idx hlen
  have hfj : calculateFlatIndex
      ((Tensor.fillCtor (Memory.empty Int) 0 s 7).tensors 0).matrix_shape jdx = 0 := by
    rw [hs]
    exact calculateFlatIndex_negative_start s jdx hlen
  have hbuf : (Tensor.fillCtor (Memory.empty Int) 0 s 7).buffer
      ((Tensor.fillCtor (Memory.empty Int) 0 s 7).tensors 0) = List.replicate 2 7 := by
    unfold Memory.buffer
    rw [hd, ha]
    rfl
  have hw := assignAt_ok (Tensor.fillCtor (Memory.empty Int) 0 s 7) 0 0 idx 9
    (List.replicate 2 7) hd ha (by rw [hs]; exact hi) (by rw [hfi]; decide)
  refine ⟨_, hw, ?_, ?_⟩
  · refine call_eq_ok _ 0 jdx (List.replicate 2 7) 7 (by rw [hs]; exact hj) (by rw [hd]; exact ha) ?_
    rw [hfj]
    rfl
  · rw [call_after_assignAt _ _ 0 idx jdx 9 hw, (checkIndices_ok_iff _ _).2 (by rw [hs]; exact hj),
      hbuf, hfi, hfj]
    rfl

/-- C19 as stated fails.  `Tensor({2^63, 4}, 7)` has an empty buffer (the product `2^65`
wraps to `0`), so the write `t(0,0) = 9` with the valid index `(0,0)` is outside the buffer
and no read of `9` follows.  On the tensor of `2^31 + 1` extents `1, ..., 1, 2` filled with
`7`, the write `t(0, ..., 0, 1) = 9` changes what the other valid index `(0, ..., 0, 0)`
reads, from `7` to `9`, because the `int` loop variable of `calculateFlatIndex` starts
negative. -/
theorem write_then_read_counterexample :
    (ValidIndex [2 ^ 63, 4] [0, 0] ∧
      (Tensor.fillCtor (Memory.empty Int) 0 [2 ^ 63, 4] 7).buffer
        ((Tensor.fillCtor (Memory.empty Int) 0 [2 ^ 63, 4] 7).tensors 0) = [] ∧
      ∀ m2, Tensor.assignAt (Tensor.fillCtor (Memory.empty Int) 0 [2 ^ 63, 4] 7) 0 [0, 0] 9 ≠
        Except.ok m2) ∧
    (ValidIndex (List.replicate (2 ^ 31) 1 ++ [2]) (List.replicate (2 ^ 31) 0 ++ [1]) ∧
      ValidIndex (List.replicate (2 ^ 31) 1 ++ [2]) (List.replicate (2 ^ 31) 0 ++ [0]) ∧
      List.replicate (2 ^ 31) 0 ++ [0] ≠ List.replicate (2 ^ 31) 0 ++ [1] ∧
      ∃ m2, Tensor.assignAt
          (Tensor.fillCtor (Memory.empty Int) 0 (List.replicate (2 ^ 31) 1 ++ [2]) 7) 0
          (List.replicate (2 ^ 31) 0 ++ [1]) 9 = Except.ok m2 ∧
        Tensor.call (Tensor.fillCtor (Memory.empty Int) 0 (List.replicate (2 ^ 31) 1 ++ [2]) 7)
          0 (List.replicate (2 ^ 31) 0 ++ [0]) = Except.ok 7 ∧
        Tensor.call m2 0 (List.replicate (2 ^ 31) 0 ++ [0]) = Except.ok 9) := by
  have hlen : (List.replicate (2 ^ 31) 1 ++ [2]).length = 2 ^ 31 + 1 := by
    rw [List.length_append, List.length_replicate, List.length_singleton]
  refine ⟨⟨by decide, by decide, ?_⟩, validIndex_replicate_last _ 1 (by decide),
    validIndex_replicate_last _ 0 (by decide), ?_,
    write_read_beyond_int_rank _ _ _ hlen (prod_replicate_one _)
      (validIndex_replicate_last _ 1 (by decide)) (validIndex_replicate_last _ 0 (by decide))⟩
  · intro m2 h
    obtain ⟨_, _, _, f4⟩ := assignAt_frame _ m2 0 [0, 0] 9 h
    obtain ⟨p, buf, hd, hb, _, hlt, _⟩ := assignAt_inv _ m2 0 [0, 0] 9 h
    have hbuf : (Tensor.fillCtor (Memory.empty Int) 0 [2 ^ 63, 4] 7).buffer
        ((Tensor.fillCtor (Memory.empty Int) 0 [2 ^ 63, 4] 7).tensors 0) = buf := by
      unfold Memory.buffer
      rw [hd, hb]
      rfl
    have h0 : (Tensor.fillCtor (Memory.empty Int) 0 [2 ^ 63, 4] 7).buffer
        ((Tensor.fillCtor (Memory.empty Int) 0 [2 ^ 63, 4] 7).tensors 0) = [] := by decide
    rw [hbuf] at h0
    rw [h0] at hlt
    exact absurd hlt (Nat.not_lt_zero _)
  · intro h
    have := List.append_cancel_left h
    cases this


/-! ## Printing -/

/-- C15 on the code: `printTensorElements` started at dimension `0` on shape `[3]` with
buffer `1 2 3` sends `"[2\n, 2\n, 2\n]"`, not `"[1, 2, 3]"`, and on shape `[2,2]` with
buffer `1 2 3 4` it sends `"[[3\n, 3\n], [3\n, 3\n]]"`, not `"[[1, 2], [3, 4]]"`: the
recursion passes `currentIndex + 1` both as the dimension and as the position in the
buffer, so every leaf prints `data[rank]`, followed by `std::endl`. -/
theorem printTensorElements_observed :
    printTensorElements renderInt [1, 2, 3] [3] 1 0 = Except.ok "[2\n, 2\n, 2\n]".toList ∧
    printTensorElements renderInt [1, 2, 3] [3] 1 0 ≠ Except.ok "[1, 2, 3]".toList ∧
    printTensorElements renderInt [1, 2, 3, 4] [2, 2] 2 0 =
      Except.ok "[[3\n, 3\n], [3\n, 3\n]]".toList ∧
    printTensorElements renderInt [1, 2, 3, 4] [2, 2] 2 0 ≠
      Except.ok "[[1, 2], [3, 4]]".toList := by
  refine ⟨by decide, by decide, by decide, by decide⟩

/-! ## Writing a file -/

theorem writeData_eq {α : Type} (render : α → List Char) (buf : List α) (n : Nat) :
    ∀ i, i + n = buf.length →
      writeData render (some buf) n i = Except.ok (valuesText render (buf.drop i)) := by
  induction n with
  | zero =>
    intro i hi
    have : buf.drop i = [] := List.drop_eq_nil_of_le (by omega)
    rw [this]
    rfl
  | succ n ih =>
    intro i hi
    have hlt : i < buf.length := by omega
    have hb : (some buf).bind (fun b => b[i]?) = some buf[i] := by
      show buf[i]? = some buf[i]
      exact List.getElem?_eq_getElem hlt
    rw [writeData, hb]
    simp only
    rw [ih (i + 1) (by omega), List.drop_eq_getElem_cons hlt]
    rfl

theorem writeData_of_holds {α : Type} (render : α → List Char) (m : Memory α) (t : Tensor)
    (h : Tensor.HoldsElements m t) :
    writeData render (m.array t.data_) t.numElements 0 =
      Except.ok (valuesText render (m.buffer t)) := by
  have hl := holdsElements_buffer_length m t h
  unfold Memory.buffer at hl ⊢
  rcases h with ⟨hd, h0⟩ | ⟨hne, h⟩
  · rw [Tensor.numElements, h0, hd]
    rfl
  · cases hb : m.array t.data_ with
    | none => simp [hb] at h
    | some buf =>
      rw [hb] at hl
      exact writeData_eq render buf t.numElements 0 (by simpa [Tensor.numElements] using hl.symm)

theorem writeShape_eq (shape : List Nat) (n : Nat) :
    ∀ i, i + n = shape.length →
      writeShape shape n i = Except.ok (shapeText (shape.drop i)) := by
  induction n with
  | zero =>
    intro i hi
    have : shape.drop i = [] := List.drop_eq_nil_of_le (by omega)
    rw [this]
    rfl
  | succ n ih =>
    intro i hi
    have hlt : i < shape.length := by omega
    rw [writeShape, List.getElem?_eq_getElem hlt]
    simp only
    rw [ih (i + 1) (by omega), List.drop_eq_getElem_cons hlt]
    rfl

theorem writeTensorToFile_eq {α : Type} (render : α → List Char) (m : Memory α) (t : Nat)
    (filename : List Char) (h : Tensor.HoldsElements m (m.tensors t)) :
    writeTensorToFile render m t true filename =
      Except.ok (renderNat (m.tensors t).rank ++ '\n' ::
          (shapeText (m.tensors t).matrix_shape ++
            valuesText render (m.buffer (m.tensors t))),
        "Tensor written to file: ".toList ++ filename ++ ['\n']) := by
  unfold writeTensorToFile
  rw [if_pos rfl, writeData_of_holds render m _ h,
    writeShape_eq _ _ 0 (by rw [Nat.zero_add]; rfl)]
  rfl

/-! ## Reading back a written file -/

theorem digitChar_toNat (d : Nat) (h : d < 10) : (digitChar d).toNat = 48 + d := by
  interval_cases d <;> rfl

theorem isDigit_digitChar (d : Nat) (h : d < 10) : isDigit (digitChar d) = true := by
  interval_cases d <;> rfl

theorem digitsValue_append (ds : List Char) (c : Char) :
    digitsValue (ds ++ [c]) = digitsValue ds * 10 + (c.toNat - 48) := by
  unfold digitsValue
  rw [List.foldl_append]
  rfl

theorem renderNatAux_spec (fuel : Nat) :
    ∀ n, n < fuel →
      renderNatAux fuel n ≠ [] ∧ (∀ c ∈ renderNatAux fuel n, isDigit c = true) ∧
        digitsValue (renderNatAux fuel n) = n := by
  induction fuel with
  | zero => intro n h; omega
  | succ fuel ih =>
    intro n h
    rw [renderNatAux]
    by_cases h10 : n < 10
    · rw [if_pos h10]
      refine ⟨by simp, ?_, ?_⟩
      · intro c hc
        rw [List.mem_singleton] at hc
        rw [hc]
        exact isDigit_digitChar n h10
      · show 0 * 10 + ((digitChar n).toNat - 48) = n
        rw [digitChar_toNat n h10]
        omega
    · rw [if_neg h10]
      obtain ⟨_, h2, h3⟩ := ih (n / 10) (by omega)
      refine ⟨by simp, ?_, ?_⟩
      · intro c hc
        rw [List.mem_append, List.mem_singleton] at hc
        rcases hc with hc | hc
        · exact h2 c hc
        · rw [hc]
          exact isDigit_digitChar _ (Nat.mod_lt _ (by decide))
      · rw [digitsValue_append, h3, digitChar_toNat _ (Nat.mod_lt _ (by decide))]
        omega

theorem renderNat_spec (n : Nat) :
    renderNat n ≠ [] ∧ (∀ c ∈ renderNat n, isDigit c = true) ∧ digitsValue (renderNat n) = n :=
  renderNatAux_spec (n + 1) n (Nat.lt_succ_self n)

theorem isDigit_not_space (c : Char) (h : isDigit c = true) :
    isSpace c = false ∧ c ≠ '-' ∧ c ≠ '+' := by
  unfold isDigit at h
  simp only [Bool.and_eq_true, decide_eq_true_eq] at h
  refine ⟨?_, ?_, ?_⟩
  · unfold isSpace
    simp only [Bool.or_eq_false_iff, Bool.and_eq_false_iff, decide_eq_false_iff_not]
    omega
  · intro hc
    rw [hc] at h
    revert h
    decide
  · intro hc
    rw [hc] at h
    revert h
    decide

theorem dropWhile_spaces (ws l : List Char) (h : ∀ c ∈ ws, isSpace c = true) :
    (ws ++ l).dropWhile isSpace = l.dropWhile isSpace := by
  induction ws with
  | nil => rfl
  | cons c ws ih =>
    rw [List.cons_append, List.dropWhile_cons, if_pos (h c (List.mem_cons_self c ws))]
    exact ih (fun x hx => h x (List.mem_cons_of_mem c hx))

theorem notDigit_head_cons (s : Char) (tail : List Char) (h : isDigit s = false) :
    ∀ x ∈ (s :: tail).head?, isDigit x = false := by
  intro x hx
  rw [List.head?_cons, Option.mem_def, Option.some.injEq] at hx
  rw [← hx]
  exact h

theorem notDigit_head_nil : ∀ x ∈ ([] : List Char).head?, isDigit x = false := by
  intro x hx
  simp at hx

theorem takeWhile_digits (ds rest : List Char) (h : ∀ c ∈ ds, isDigit c = true)
    (hs : ∀ s ∈ rest.head?, isDigit s = false) :
    (ds ++ rest).takeWhile isDigit = ds ∧ (ds ++ rest).dropWhile isDigit = rest := by
  induction ds with
  | nil =>
    cases rest with
    | nil => exact ⟨rfl, rfl⟩
    | cons s tail =>
      have hs1 : isDigit s = false := hs s (by simp)
      constructor
      · rw [List.nil_append, List.takeWhile_cons, hs1]
        rfl
      · rw [List.nil_append, List.dropWhile_cons, hs1]
        rfl
  | cons c ds ih =>
    obtain ⟨h1, h2⟩ := ih (fun x hx => h x (List.mem_cons_of_mem c hx))
    have hc := h c (List.mem_cons_self c ds)
    constructor
    · rw [List.cons_append, List.takeWhile_cons, hc, if_pos rfl, h1]
    · rw [List.cons_append, List.dropWhile_cons, hc, if_pos rfl, h2]

/-- Scanning a numeral: after white space, an optional minus sign and a run of digits up
to the end of the text or a character that is not a digit. -/
theorem scanInteger_numeral (ws ds : List Char) (rest : List Char) (neg : Bool)
    (hws : ∀ c ∈ ws, isSpace c = true) (hne : ds ≠ [])
    (hds : ∀ c ∈ ds, isDigit c = true) (hs : ∀ s ∈ rest.head?, isDigit s = false) :
    scanInteger (IFStream.mk (ws ++ ((if neg then '-' :: ds else ds) ++ rest)) false) =
      Scanned.number neg (digitsValue ds) (IFStream.mk (rest) false) := by
  obtain ⟨d, ds1, rfl⟩ := List.exists_cons_of_ne_nil hne
  have hd := isDigit_not_space d (hds d (List.mem_cons_self d ds1))
  obtain ⟨ht, hdw⟩ := takeWhile_digits (d :: ds1) rest hds hs
  have hdrop : (ws ++ ((if neg then '-' :: d :: ds1 else d :: ds1) ++ rest)).dropWhile
      isSpace = (if neg then '-' :: d :: ds1 else d :: ds1) ++ rest := by
    rw [dropWhile_spaces ws _ hws]
    cases neg with
    | true =>
      show (('-' :: ((d :: ds1) ++ rest)) : List Char).dropWhile isSpace = _
      rw [List.dropWhile_cons, if_neg (by decide)]
      rfl
    | false =>
      show ((d :: (ds1 ++ rest)) : List Char).dropWhile isSpace = _
      rw [List.dropWhile_cons, hd.1, if_neg (by decide)]
      rfl
  have hsign : afterSign ((if neg then '-' :: d :: ds1 else d :: ds1) ++ rest) =
      (d :: ds1) ++ rest := by
    cases neg with
    | true =>
      show afterSign ('-' :: ((d :: ds1) ++ rest)) = _
      rw [afterSign, if_pos (Or.inl rfl)]
    | false =>
      show afterSign (d :: (ds1 ++ rest)) = _
      rw [afterSign, if_neg (by rintro (h | h); exact hd.2.1 h; exact hd.2.2 h)]
      rfl
  have hminus : hasMinus ((if neg then '-' :: d :: ds1 else d :: ds1) ++ rest) = neg := by
    cases neg with
    | true => rfl
    | false =>
      show hasMinus (d :: (ds1 ++ rest)) = false
      rw [hasMinus]
      exact decide_eq_false hd.2.1
  unfold scanInteger
  simp only [hdrop, hsign, ht, hdw, hminus]
  rw [if_neg (by decide), if_neg (by cases neg <;> simp), if_neg (by simp)]

theorem extractSize_rendered (ws : List Char) (n : Nat) (rest : List Char)
    (current : Nat) (hws : ∀ c ∈ ws, isSpace c = true) (hn : n < sizeMod)
    (hs : ∀ s ∈ rest.head?, isDigit s = false) :
    extractSize (IFStream.mk (ws ++ (renderNat n ++ rest)) false) current =
      (n, IFStream.mk (rest) false) := by
  obtain ⟨h1, h2, h3⟩ := renderNat_spec n
  have := scanInteger_numeral ws (renderNat n) rest false hws h1 h2 hs
  simp only [Bool.false_eq_true, if_false] at this
  unfold extractSize
  rw [this, h3]
  simp only
  rw [if_neg (by omega)]
  rfl

theorem extractInteger_rendered (signed : Bool) (bits : Nat) (ws : List Char) (x : Int)
    (rest : List Char) (current : Int) (hws : ∀ c ∈ ws, isSpace c = true)
    (hlo : intLo signed bits ≤ x) (hhi : x ≤ intHi signed bits) (hs : ∀ s ∈ rest.head?, isDigit s = false) :
    extractInteger signed bits (IFStream.mk (ws ++ (renderInt x ++ rest)) false) current =
      (x, IFStream.mk (rest) false) := by
  obtain ⟨h1, h2, h3⟩ := renderNat_spec x.natAbs
  have := scanInteger_numeral ws (renderNat x.natAbs) rest (decide (x < 0)) hws h1 h2 hs
  have hr : renderInt x = if decide (x < 0) = true then '-' :: renderNat x.natAbs
      else renderNat x.natAbs := by
    unfold renderInt
    simp only [decide_eq_true_eq]
  unfold extractInteger
  rw [hr, this, h3]
  simp only
  by_cases hx : x < 0
  · have hlo0 : intLo signed bits < 0 := by omega
    cases signed with
    | false => simp [intLo] at hlo0
    | true =>
      have habs : -(x.natAbs : Int) = x := by omega
      simp only [if_true, decide_eq_true hx, habs]
      rw [if_neg (by omega)]
  · have habs : (x.natAbs : Int) = x := by omega
    have hnh : ¬ intHi signed bits < x := not_lt.mpr hhi
    simp only [decide_eq_false hx, habs, Bool.false_eq_true, if_false, if_neg hnh]
    cases signed <;> rfl

theorem set_take_succ {β : Type} (x : β) :
    ∀ (buf : List β) (i : Nat), i < buf.length →
      (buf.set i x).take (i + 1) = buf.take i ++ [x] ∧
        ∀ k, (buf.set i x).drop (i + 1 + k) = buf.drop (i + 1 + k) := by
  intro buf
  induction buf with
  | nil => intro i h; simp at h
  | cons b buf ih =>
    intro i h
    cases i with
    | zero =>
      refine ⟨by simp, ?_⟩
      intro k
      rw [Nat.zero_add, Nat.add_comm 1 k]
      rfl
    | succ i =>
      obtain ⟨h1, h2⟩ := ih i (by simpa using h)
      refine ⟨by rw [List.set_cons_succ, List.take_succ_cons, h1]; rfl, ?_⟩
      intro k
      have e : i + 1 + 1 + k = (i + 1 + k) + 1 := by omega
      rw [e, List.set_cons_succ, List.drop_succ_cons, List.drop_succ_cons]
      exact h2 k

theorem set_getElem_same {β : Type} :
    ∀ (buf : List β) (i : Nat) (h : i < buf.length), buf.set i buf[i] = buf := by
  intro buf
  induction buf with
  | nil => intro i h; simp at h
  | cons b buf ih =>
    intro i h
    cases i with
    | zero => rfl
    | succ i =>
      rw [List.set_cons_succ]
      exact congrArg (List.cons b) (ih i (by simpa using h))

/-- The shape loop on the text of extents that `writeTensorToFile` produces reads those
extents. -/
theorem readShapeLoop_written {α : Type} (io : IStream IFStream α)
    (hio : io.extractSize = extractSize) (ds : List Nat) :
    ∀ (i : Nat) (vec : List Nat) (c : Char) (tail : List Char), isSpace c = true →
      (∀ d ∈ ds, d < sizeMod) → i + ds.length ≤ vec.length →
      ∃ c1, isSpace c1 = true ∧
        readShapeLoop io ds.length i (IFStream.mk (c :: (shapeText ds ++ tail)) false) vec =
          (vec.take i ++ ds ++ vec.drop (i + ds.length), IFStream.mk (c1 :: tail) false) := by
  induction ds with
  | nil =>
    intro i vec c tail hc _ _
    refine ⟨c, hc, ?_⟩
    show (vec, IFStream.mk (c :: tail) false) = _
    rw [List.append_nil, List.length_nil, Nat.add_zero, List.take_append_drop]
  | cons d ds ih =>
    intro i vec c tail hc hd hl
    rw [List.length_cons] at hl
    have hi : i < vec.length := by omega
    have hx : io.extractSize (IFStream.mk (c :: (shapeText (d :: ds) ++ tail)) false)
        (vec.getD i 0) = (d, IFStream.mk ('\n' :: (shapeText ds ++ tail)) false) := by
      rw [hio]
      have := extractSize_rendered [c] d ('\n' :: (shapeText ds ++ tail)) (vec.getD i 0)
        (by intro x hx; rw [List.mem_singleton] at hx; rw [hx]; exact hc)
        (hd d (List.mem_cons_self d ds)) (notDigit_head_cons _ _ (by decide))
      rw [← this]
      show _ = extractSize (IFStream.mk (c :: (renderNat d ++ '\n' :: (shapeText ds ++ tail)))
        false) _
      rw [shapeText, List.append_assoc, List.cons_append]
    obtain ⟨c1, hc1, h⟩ := ih (i + 1) (vec.set i d) '\n' tail (by decide)
      (fun x hx => hd x (List.mem_cons_of_mem d hx)) (by rw [List.length_set]; omega)
    refine ⟨c1, hc1, ?_⟩
    rw [List.length_cons, readShapeLoop, hx]
    simp only
    rw [h, (set_take_succ d vec i hi).1, (set_take_succ d vec i hi).2 ds.length]
    have e : i + (ds.length + 1) = i + 1 + ds.length := by omega
    rw [e, List.append_assoc, List.append_assoc, List.append_assoc]
    rfl

theorem readShape_written {α : Type} (io : IStream IFStream α)
    (hio : io.extractSize = extractSize) (shape : List Nat) (tail : List Char) (rank : Nat)
    (hr : shape.length < sizeMod) (hd : ∀ d ∈ shape, d < sizeMod) :
    ∃ c1, isSpace c1 = true ∧
      readShape io (IFStream.mk (renderNat shape.length ++ '\n' :: (shapeText shape ++ tail))
        false) rank = (shape, IFStream.mk (c1 :: tail) false) := by
  have hx : io.extractSize (IFStream.mk (renderNat shape.length ++ '\n' ::
      (shapeText shape ++ tail)) false) rank =
      (shape.length, IFStream.mk ('\n' :: (shapeText shape ++ tail)) false) := by
    rw [hio]
    exact extractSize_rendered [] shape.length ('\n' :: (shapeText shape ++ tail)) rank
      (by simp) hr (notDigit_head_cons _ _ (by decide))
  obtain ⟨c1, hc1, h⟩ := readShapeLoop_written io hio shape 0 (List.replicate shape.length 0)
    '\n' tail (by decide) hd (by simp)
  refine ⟨c1, hc1, ?_⟩
  unfold readShape
  rw [hx]
  simp only
  rw [h]
  simp

theorem scanInteger_exhausted (st : IFStream)
    (h : st.fail = true ∨ st.rest.dropWhile isSpace = []) :
    ∃ st1, scanInteger st = Scanned.untouched st1 ∧ st1.fail = true := by
  unfold scanInteger
  by_cases hf : st.fail = true
  · exact ⟨st, by rw [if_pos hf], hf⟩
  · rcases h with h | h
    · exact absurd h hf
    · exact ⟨IFStream.mk [] true, by rw [if_neg hf, if_pos h], rfl⟩

theorem extractInteger_exhausted (signed : Bool) (bits : Nat) (st : IFStream) (current : Int)
    (h : st.fail = true ∨ st.rest.dropWhile isSpace = []) :
    (extractInteger signed bits st current).1 = current ∧
      (extractInteger signed bits st current).2.fail = true := by
  obtain ⟨st1, h1, h2⟩ := scanInteger_exhausted st h
  unfold extractInteger
  rw [h1]
  exact ⟨rfl, h2⟩

/-- Once the text is used up, the data loop leaves the rest of the array as it is. -/
theorem readDataLoop_exhausted (signed : Bool) (bits : Nat) (n : Nat) :
    ∀ (i : Nat) (st : IFStream) (buf : List Int),
      (st.fail = true ∨ st.rest.dropWhile isSpace = []) → i + n ≤ buf.length →
      ∃ st1, readDataLoop (integerStream signed bits) n i st buf = Except.ok (buf, st1) := by
  induction n with
  | zero =>
    intro i st buf _ _
    exact ⟨st, rfl⟩
  | succ n ih =>
    intro i st buf h hl
    have hi : i < buf.length := by omega
    obtain ⟨h1, h2⟩ := extractInteger_exhausted signed bits st buf[i] h
    rw [readDataLoop, List.getElem?_eq_getElem hi]
    simp only
    have e1 : ((integerStream signed bits).extractValue st buf[i]).1 = buf[i] := h1
    rw [e1, set_getElem_same buf i hi]
    exact ih (i + 1) _ buf (Or.inl h2) (by omega)

theorem tokensText_true {α : Type} (render : α → List Char) (xs : List α) :
    tokensText render true xs = valuesText render xs := by
  induction xs with
  | nil => rfl
  | cons x xs ih =>
    cases xs with
    | nil => rfl
    | cons y ys =>
      show render x ++ ' ' :: tokensText render true (y :: ys) = _
      rw [ih]
      rfl

/-- After the first token come white space, possibly none at the end of the text, and then
the other tokens; a token is not followed by a digit. -/
theorem tokensText_cons (trailing : Bool) (x : Int) (xs : List Int) :
    ∃ sep : List Char, (∀ c ∈ sep, isSpace c = true) ∧
      (∀ s ∈ (sep ++ tokensText renderInt trailing xs).head?, isDigit s = false) ∧
      tokensText renderInt trailing (x :: xs) =
        renderInt x ++ (sep ++ tokensText renderInt trailing xs) := by
  cases xs with
  | nil =>
    cases trailing with
    | true => exact ⟨[' '], by decide, by decide, rfl⟩
    | false =>
      refine ⟨[], by simp, notDigit_head_nil, ?_⟩
      show renderInt x ++ [] = renderInt x ++ ([] ++ [])
      rfl
  | cons y ys =>
    exact ⟨[' '], by decide, notDigit_head_cons _ _ (by decide), rfl⟩

/-- The data loop on `k` tokens, `k` at most the number of passes, stores them in order and
leaves the rest of the array as it is. -/
theorem readDataLoop_tokens (signed : Bool) (bits : Nat) (trailing : Bool) (n : Nat) :
    ∀ (i : Nat) (xs : List Int) (ws : List Char) (buf : List Int),
      (∀ c ∈ ws, isSpace c = true) →
      (∀ x ∈ xs, intLo signed bits ≤ x ∧ x ≤ intHi signed bits) →
      xs.length ≤ n → i + n ≤ buf.length →
      ∃ st1, readDataLoop (integerStream signed bits) n i
          (IFStream.mk (ws ++ tokensText renderInt trailing xs) false) buf =
        Except.ok (buf.take i ++ xs ++ buf.drop (i + xs.length), st1) := by
  induction n with
  | zero =>
    intro i xs ws buf _ _ hk _
    have : xs = [] := List.length_eq_zero.mp (by omega)
    subst this
    refine ⟨IFStream.mk (ws ++ tokensText renderInt trailing []) false, ?_⟩
    rw [readDataLoop, List.append_nil, List.length_nil, Nat.add_zero, List.take_append_drop]
  | succ n ih =>
    intro i xs ws buf hws hx hk hl
    have hi : i < buf.length := by omega
    cases xs with
    | nil =>
      obtain ⟨st1, h⟩ := readDataLoop_exhausted signed bits (n + 1) i
        (IFStream.mk (ws ++ tokensText renderInt trailing []) false) buf
        (Or.inr (by
          show (ws ++ ([] : List Char)).dropWhile isSpace = []
          rw [dropWhile_spaces ws [] hws]
          rfl)) hl
      refine ⟨st1, ?_⟩
      rw [h, List.append_nil, List.length_nil, Nat.add_zero, List.take_append_drop]
    | cons x xs =>
      obtain ⟨sep, hsep, hhead, htext⟩ := tokensText_cons trailing x xs
      have hv : (integerStream signed bits).extractValue
          (IFStream.mk (ws ++ tokensText renderInt trailing (x :: xs)) false) buf[i] =
          (x, IFStream.mk (sep ++ tokensText renderInt trailing xs) false) := by
        rw [htext]
        exact extractInteger_rendered signed bits ws x _ buf[i] hws
          (hx x (List.mem_cons_self x xs)).1 (hx x (List.mem_cons_self x xs)).2 hhead
      obtain ⟨st1, h⟩ := ih (i + 1) xs sep (buf.set i x) hsep
        (fun y hy => hx y (List.mem_cons_of_mem x hy))
        (by rw [List.length_cons] at hk; omega) (by rw [List.length_set]; omega)
      refine ⟨st1, ?_⟩
      rw [readDataLoop, List.getElem?_eq_getElem hi]
      simp only
      rw [hv]
      simp only
      rw [h, (set_take_succ x buf i hi).1, (set_take_succ x buf i hi).2 xs.length]
      have e : i + (x :: xs).length = i + 1 + xs.length := by
        rw [List.length_cons]; omega
      rw [e, List.append_assoc, List.append_assoc, List.append_assoc]
      rfl

/-- What `readTensorFromFile` returns on a header in the format of the writer followed by
at most `numElements()` tokens: the tensor of that shape whose buffer starts with the
tokens and is zero after them; the rest of the memory is as before. -/
theorem readTensorFromFile_tokens (signed : Bool) (bits : Nat) (trailing : Bool)
    (filename : List Char) (m : Memory Int) (self rank : Nat) (shape : List Nat)
    (xs : List Int)
    (hr : shape.length < sizeMod) (hd : ∀ d ∈ shape, d < sizeMod)
    (hx : ∀ x ∈ xs, intLo signed bits ≤ x ∧ x ≤ intHi signed bits)
    (hk : xs.length ≤ calculateNumElements shape) :
    ∃ m1, readTensorFromFile (integerStream signed bits) filename
        (some (IFStream.mk (renderNat shape.length ++ '\n' ::
          (shapeText shape ++ tokensText renderInt trailing xs)) false)) m self rank =
        Except.ok m1 ∧
      m1.tensors self =
        Tensor.mk shape.length shape (calculateNumElements shape) (some m.arrays.length) ∧
      m1.buffer (m1.tensors self) =
        xs ++ List.replicate (calculateNumElements shape - xs.length) 0 ∧
      (∀ a, a ≠ self → m1.tensors a = m.tensors a) ∧
      (∀ t : Tensor, Tensor.HoldsElements m t → m1.buffer t = m.buffer t) := by
  obtain ⟨c1, hc1, hs⟩ := readShape_written (integerStream signed bits) rfl shape
    (tokensText renderInt trailing xs) rank hr hd
  obtain ⟨st1, hl⟩ := readDataLoop_tokens signed bits trailing (calculateNumElements shape) 0
    xs [c1] (List.replicate (calculateNumElements shape) 0)
    (by intro y hy; rw [List.mem_singleton] at hy; rw [hy]; exact hc1) hx hk (by simp)
  have hB : (List.replicate (calculateNumElements shape) (0 : Int)).take 0 ++ xs ++
      (List.replicate (calculateNumElements shape) (0 : Int)).drop (0 + xs.length) =
      xs ++ List.replicate (calculateNumElements shape - xs.length) 0 := by
    simp
  rw [hB] at hl
  have ha := array_shapeCtor (α := Int) m self shape
  have ht := tensors_shapeCtor (α := Int) m self shape
  have hdt : ((Tensor.shapeCtor m self shape).tensors self).data_ = some m.arrays.length := by
    rw [ht]
  have hn : ((Tensor.shapeCtor m self shape).tensors self).numElements =
      calculateNumElements shape := by
    rw [ht]
    rfl
  rw [hdt] at ha
  have hlt : m.arrays.length < (Tensor.shapeCtor m self shape).arrays.length :=
    array_isSome_lt _ _ (by rw [ha]; rfl)
  have hset := array_set_eq (Tensor.shapeCtor m self shape) m.arrays.length
    (some (xs ++ List.replicate (calculateNumElements shape - xs.length) 0)) hlt
  refine ⟨Memory.mk (Tensor.shapeCtor m self shape).tensors
    ((Tensor.shapeCtor m self shape).arrays.set m.arrays.length
      (some (xs ++ List.replicate (calculateNumElements shape - xs.length) 0))),
    ?_, ht, ?_, ?_, ?_⟩
  · unfold readTensorFromFile readData
    simp only [hs, hdt, ha, hn]
    have hl1 : readDataLoop (integerStream signed bits) (calculateNumElements shape) 0
        (IFStream.mk (c1 :: tokensText renderInt trailing xs) false)
        (List.replicate (calculateNumElements shape) 0) = _ := hl
    simp only [hl1]
  · show ((Memory.mk _ _ : Memory Int).array
      ((Tensor.shapeCtor m self shape).tensors self).data_).getD [] = _
    rw [hdt, hset]
    rfl
  · intro a hne
    show (Tensor.shapeCtor m self shape).tensors a = m.tensors a
    simp [Tensor.shapeCtor, Memory.setTensor, Memory.newArray, hne]
  · intro t hh
    unfold Memory.buffer
    rcases hh with ⟨hnone, _⟩ | ⟨hne, hsome⟩
    · rw [hnone]
      rfl
    · cases hp : t.data_ with
      | none => exact absurd hp hne
      | some p =>
        rw [hp] at hsome
        have hlive : (m.array (some p)).isSome = true := by
          cases hq : m.array (some p) with
          | none => rw [hq] at hsome; simp at hsome
          | some _ => rfl
        have hpl := array_isSome_lt m p hlive
        rw [array_set_ne (Tensor.shapeCtor m self shape) m.arrays.length p _ (by omega)]
        exact congrArg (fun o => Option.getD o []) (array_newArray_of_lt m _ self _ p hpl)

/-- C11 (as amended): for every tensor `t` of an integer component type whose values are
written as decimal numerals (a signed or unsigned integer type of any width, the character
types apart) and which satisfies the state predicate, `writeTensorToFile` produces a text,
and `readTensorFromFile` on that text returns a tensor with the same shape, the same
`numElements()` and the same value at every flat position: the two are equal under
`operator==`, and equal at every index list. -/
theorem round_trip (signed : Bool) (bits : Nat) (m : Memory Int) (t self rank : Nat)
    (filename : List Char) (hts : self ≠ t) (hc : Tensor.Consistent m (m.tensors t))
    (hr : (m.tensors t).matrix_shape.length < sizeMod)
    (hd : ∀ d ∈ (m.tensors t).matrix_shape, d < sizeMod)
    (hx : ∀ x ∈ m.buffer (m.tensors t), intLo signed bits ≤ x ∧ x ≤ intHi signed bits) :
    ∃ text notice m1,
      writeTensorToFile renderInt m t true filename = Except.ok (text, notice) ∧
      readTensorFromFile (integerStream signed bits) filename (some (IFStream.mk text false)) m self
        rank = Except.ok m1 ∧
      (m1.tensors self).matrix_shape = (m.tensors t).matrix_shape ∧
      (m1.tensors self).numElements = (m.tensors t).numElements ∧
      m1.buffer (m1.tensors self) = m.buffer (m.tensors t) ∧
      Tensor.operatorEq m1 self t = Except.ok true ∧
      ∀ idx, Tensor.call m1 self idx = Tensor.call m t idx := by
  have hlen := holdsElements_buffer_length m (m.tensors t) hc.1
  have hN : (m.tensors t).elements_ = calculateNumElements (m.tensors t).matrix_shape := by
    rw [calculateNumElements_eq]
    exact hc.2.1
  have hrank : (m.tensors t).rank = (m.tensors t).matrix_shape.length := rfl
  have hw := writeTensorToFile_eq renderInt m t filename hc.1
  rw [hrank, ← tokensText_true] at hw
  obtain ⟨m1, hrd, ht1, hb1, hfr, hfb⟩ := readTensorFromFile_tokens signed bits true filename m
    self
    rank (m.tensors t).matrix_shape (m.buffer (m.tensors t)) hr hd hx
    (by rw [hlen, hN])
  have hzero : calculateNumElements (m.tensors t).matrix_shape -
      (m.buffer (m.tensors t)).length = 0 := by
    rw [hlen, hN]
    exact Nat.sub_self _
  rw [hzero, List.replicate_zero, List.append_nil] at hb1
  have hs1 : (m1.tensors self).matrix_shape = (m.tensors t).matrix_shape := by rw [ht1]
  have hn1 : (m1.tensors self).numElements = (m.tensors t).numElements := by
    rw [ht1]
    exact hN.symm
  have htt : m1.tensors t = m.tensors t := hfr t (Ne.symm hts)
  have hbt : m1.buffer (m1.tensors t) = m.buffer (m.tensors t) := by
    rw [htt]
    exact hfb _ hc.1
  refine ⟨_, _, m1, hw, hrd, hs1, hn1, hb1, ?_, ?_⟩
  · rw [operatorEq_true_iff]
    refine ⟨by rw [hn1, htt], ?_⟩
    intro i hi
    rw [hn1] at hi
    have hi2 : i < (m.buffer (m.tensors t)).length := by
      rw [hlen]
      exact hi
    exact ⟨(m.buffer (m.tensors t))[i], by rw [hb1]; exact List.getElem?_eq_getElem hi2,
      by rw [hbt]; exact List.getElem?_eq_getElem hi2⟩
  · intro idx
    exact call_congr m1 m self t idx hs1 hb1

/-- Instance of C11: the `int` tensor of shape `{2,3}` with values `1 2 3 4 5 6` is written
as `"2\n2\n3\n1 2 3 4 5 6 "`, and the tensor read back has `t(0,0) = 1`, `t(0,2) = 3`,
`t(1,0) = 4`, `t(1,2) = 6`. -/
theorem round_trip_witness :
    ∃ m1, readTensorFromFile (integerStream true 32) "t.txt".toList
        (some (IFStream.mk "2\n2\n3\n1 2 3 4 5 6 ".toList false))
        (Memory.mk (fun _ => Tensor.mk 2 [2, 3] 6 (some 0)) [some [1, 2, 3, 4, 5, 6]]) 1 0 =
        Except.ok m1 ∧
      (m1.tensors 1).matrix_shape = [2, 3] ∧ (m1.tensors 1).numElements = 6 ∧
      m1.buffer (m1.tensors 1) = [1, 2, 3, 4, 5, 6] ∧
      Tensor.operatorEq m1 1 0 = Except.ok true ∧
      Tensor.call m1 1 [0, 0] = Except.ok 1 ∧ Tensor.call m1 1 [0, 2] = Except.ok 3 ∧
      Tensor.call m1 1 [1, 0] = Except.ok 4 ∧ Tensor.call m1 1 [1, 2] = Except.ok 6 := by
  obtain ⟨text, notice, m1, hw, hrd, hs, hn, hb, he, hcall⟩ := round_trip true 32
    (Memory.mk (fun _ => Tensor.mk 2 [2, 3] 6 (some 0)) [some [1, 2, 3, 4, 5, 6]]) 0 1 0
    "t.txt".toList (by decide) (by decide) (by decide) (by decide) (by decide)
  have htext : text = "2\n2\n3\n1 2 3 4 5 6 ".toList := by
    have h2 : writeTensorToFile renderInt
        (Memory.mk (fun _ => Tensor.mk 2 [2, 3] 6 (some 0)) [some [1, 2, 3, 4, 5, 6]]) 0 true
        "t.txt".toList =
        Except.ok ("2\n2\n3\n1 2 3 4 5 6 ".toList, "Tensor written to file: t.txt\n".toList) := by
      decide
    rw [h2] at hw
    injection hw with hw
    exact (congrArg Prod.fst hw).symm
  rw [htext] at hrd
  exact ⟨m1, hrd, hs, hn, hb, he, by rw [hcall]; decide, by rw [hcall]; decide,
    by rw [hcall]; decide, by rw [hcall]; decide⟩

/-- C11 as stated fails for the integer type `char`: `Tensor<char>({1}, ' ')` is written as
`"1\n1\n"` followed by two spaces, and reading that text back gives a tensor whose single
element is the zero character, not the space: the two are not equal under `operator==`. -/
theorem round_trip_counterexample :
    writeTensorToFile renderChar (Tensor.fillCtor (Memory.empty Char) 0 [1] ' ') 0 true
        "t.txt".toList =
      Except.ok ("1\n1\n  ".toList, "Tensor written to file: t.txt\n".toList) ∧
    (Tensor.fillCtor (Memory.empty Char) 0 [1] ' ').buffer
        ((Tensor.fillCtor (Memory.empty Char) 0 [1] ' ').tensors 0) = [' '] ∧
    (readTensorFromFile charStream "t.txt".toList (some (IFStream.mk "1\n1\n  ".toList false))
        (Tensor.fillCtor (Memory.empty Char) 0 [1] ' ') 1 0).map
      (fun m1 => m1.buffer (m1.tensors 1)) = Except.ok [Char.ofNat 0] ∧
    (readTensorFromFile charStream "t.txt".toList (some (IFStream.mk "1\n1\n  ".toList false))
        (Tensor.fillCtor (Memory.empty Char) 0 [1] ' ') 1 0).bind
      (fun m1 => Tensor.operatorEq m1 1 0) = Except.ok false := by
  refine ⟨by decide, by decide, by decide, by decide⟩

/-- On a tensor that satisfies the state predicate with a product of extents below `2^64`,
the read through `operator()` with a valid index returns the element of the buffer at the
offset `calculateFlatIndex` computes. -/
theorem call_defined {α : Type} (m : Memory α) (self : Nat) (idx : List Nat)
    (hc : Tensor.Consistent m (m.tensors self))
    (hp : (m.tensors self).matrix_shape.prod < 2 ^ 64)
    (hv : ValidIndex (m.tensors self).matrix_shape idx) :
    (m.buffer (m.tensors self)).length = (m.tensors self).matrix_shape.prod ∧
    ∃ x, (m.buffer (m.tensors self))[calculateFlatIndex (m.tensors self).matrix_shape idx]? =
        some x ∧ Tensor.call m self idx = Except.ok x := by
  have hlt := calculateFlatIndex_lt _ idx hv hp
  have hlen : (m.buffer (m.tensors self)).length = (m.tensors self).matrix_shape.prod := by
    rw [holdsElements_buffer_length m _ hc.1, hc.2.1]
    exact Nat.mod_eq_of_lt hp
  have hk : calculateFlatIndex (m.tensors self).matrix_shape idx <
      (m.buffer (m.tensors self)).length := by
    rw [hlen]
    exact hlt
  refine ⟨hlen, (m.buffer (m.tensors self))[calculateFlatIndex
    (m.tensors self).matrix_shape idx], List.getElem?_eq_getElem hk, ?_⟩
  rw [call_eq_buffer, (checkIndices_ok_iff _ _).2 hv]
  simp only
  rw [List.getElem?_eq_getElem hk]

/-- A write through `operator()` keeps the state predicate of every tensor. -/
theorem consistent_assignAt {α : Type} (m m2 : Memory α) (self : Nat) (idx : List Nat) (v : α)
    (h : Tensor.assignAt m self idx v = Except.ok m2) (q : Nat)
    (hc : Tensor.Consistent m (m.tensors q)) : Tensor.Consistent m2 (m2.tensors q) := by
  obtain ⟨f1, f2, _, _⟩ := assignAt_frame m m2 self idx v h
  rw [f1]
  exact ⟨f2 _ hc.1, hc.2.1, hc.2.2⟩

/-- C1 (as amended): for every tensor that satisfies the state predicate, as every tensor
built by `Tensor(s)` or `Tensor(s, fill)` does, also after writes through `operator()`,
whose shape has a product of extents below `2^64` and a rank of at most `2^31`, and for
every valid multi-index `idx`, `calculateFlatIndex` equals the reference row-major offset
`sum over k of idx[k] * product(s[k+1..])`, and `operator()(idx)` returns the element the
buffer holds at that offset. -/
theorem call_at_rowMajorOffset {α : Type} [Zero α] (m : Memory α) (self : Nat)
    (idx : List Nat) (hc : Tensor.Consistent m (m.tensors self))
    (hv : ValidIndex (m.tensors self).matrix_shape idx)
    (hp : (m.tensors self).matrix_shape.prod < 2 ^ 64)
    (hr : (m.tensors self).matrix_shape.length ≤ 2 ^ 31) :
    (calculateFlatIndex (m.tensors self).matrix_shape idx =
        rowMajorOffset (m.tensors self).matrix_shape idx ∧
      (m.buffer (m.tensors self)).length = (m.tensors self).matrix_shape.prod ∧
      ∃ x, (m.buffer (m.tensors self))[rowMajorOffset (m.tensors self).matrix_shape idx]? =
          some x ∧ Tensor.call m self idx = Except.ok x) ∧
    (∀ (m0 : Memory α) (q : Nat) (s : List Nat) (fill : α),
      (Tensor.Consistent (Tensor.shapeCtor m0 q s) ((Tensor.shapeCtor m0 q s).tensors q) ∧
        ((Tensor.shapeCtor m0 q s).tensors q).matrix_shape = s) ∧
      (Tensor.Consistent (Tensor.fillCtor m0 q s fill)
          ((Tensor.fillCtor m0 q s fill).tensors q) ∧
        ((Tensor.fillCtor m0 q s fill).tensors q).matrix_shape = s)) ∧
    (∀ idx1 v m2, Tensor.assignAt m self idx1 v = Except.ok m2 →
      Tensor.Consistent m2 (m2.tensors self) ∧
        (m2.tensors self).matrix_shape = (m.tensors self).matrix_shape) := by
  have heq := calculateFlatIndex_eq _ idx hv hp hr
  obtain ⟨hlen, x, hx, hcall⟩ := call_defined m self idx hc hp hv
  rw [heq] at hx
  refine ⟨⟨heq, hlen, x, hx, hcall⟩, ?_, ?_⟩
  · intro m0 q s fill
    exact ⟨⟨consistent_shapeCtor m0 q s, by rw [tensors_shapeCtor]⟩,
      ⟨consistent_fillCtor m0 q s fill, by rw [tensors_fillCtor]⟩⟩
  · intro idx1 v m2 hw
    refine ⟨consistent_assignAt m m2 self idx1 v hw self hc, ?_⟩
    rw [(assignAt_frame m m2 self idx1 v hw).1]

/-- Instances of C1: in the tensor of shape `[2,3]` holding `1 2 3 4 5 6` the index `(1,2)`
is at offset `5` and reads `6`; in the tensor of shape `[2,2,2]` holding `10 .. 17` the
index `(1,0,1)` is at offset `5` and reads `15`. -/
theorem call_at_rowMajorOffset_witness :
    (Tensor.Consistent
        (Memory.mk (fun _ => Tensor.mk 2 [2, 3] 6 (some 0)) [some [(1 : Int), 2, 3, 4, 5, 6]])
        (Tensor.mk 2 [2, 3] 6 (some 0)) ∧
      ValidIndex [2, 3] [1, 2] ∧ [2, 3].prod < 2 ^ 64 ∧ [2, 3].length ≤ 2 ^ 31 ∧
      rowMajorOffset [2, 3] [1, 2] = 5 ∧ calculateFlatIndex [2, 3] [1, 2] = 5 ∧
      Tensor.call
        (Memory.mk (fun _ => Tensor.mk 2 [2, 3] 6 (some 0)) [some [(1 : Int), 2, 3, 4, 5, 6]])
        0 [1, 2] = Except.ok 6) ∧
    (ValidIndex [2, 2, 2] [1, 0, 1] ∧ rowMajorOffset [2, 2, 2] [1, 0, 1] = 5 ∧
      calculateFlatIndex [2, 2, 2] [1, 0, 1] = 5 ∧
      Tensor.call
        (Memory.mk (fun _ => Tensor.mk 3 [2, 2, 2] 8 (some 0))
          [some [(10 : Int), 11, 12, 13, 14, 15, 16, 17]])
        0 [1, 0, 1] = Except.ok 15) := by
  have h1 := (call_at_rowMajorOffset
    (Memory.mk (fun _ => Tensor.mk 2 [2, 3] 6 (some 0)) [some [(1 : Int), 2, 3, 4, 5, 6]])
    0 [1, 2] (by decide) (by decide) (by decide) (by decide)).1
  have h2 := (call_at_rowMajorOffset
    (Memory.mk (fun _ => Tensor.mk 3 [2, 2, 2] 8 (some 0))
      [some [(10 : Int), 11, 12, 13, 14, 15, 16, 17]])
    0 [1, 0, 1] (by decide) (by decide) (by decide) (by decide)).1
  obtain ⟨e1, _, x1, hx1, hc1⟩ := h1
  obtain ⟨e2, _, x2, hx2, hc2⟩ := h2
  have v1 : x1 = 6 := by
    have : (6 : Int) = x1 := Option.some.inj hx1
    exact this.symm
  have v2 : x2 = 15 := by
    have : (15 : Int) = x2 := Option.some.inj hx2
    exact this.symm
  rw [v1] at hc1
  rw [v2] at hc2
  exact ⟨⟨by decide, by decide, by decide, by decide, by decide, e1.trans (by decide), hc1⟩,
    ⟨by decide, by decide, e2.trans (by decide), hc2⟩⟩

/-! ## Copies -/

/-- C8 (as amended): for every tensor `a` that owns its `numElements()` values, the copy
constructor returns, and so does copy assignment onto any destination `b` whose own array
can be deleted and is not the array of `a`; the copy `b` has the shape, `rank()`,
`numElements()` of `a` and the value of `a` at every flat position, so `b == a` is true and
`b(idx)` behaves as `a(idx)` for every index list, and `a` (fields, buffer, every read) is
unchanged.  When `a` satisfies the state predicate with a product of extents below `2^64`,
`b(idx)` and `a(idx)` return the same value for every valid `idx`. -/
theorem copy_equals_source {α : Type} [DecidableEq α] (m : Memory α) (a b : Nat)
    (hab : b ≠ a) (ha : Tensor.HoldsElements m (m.tensors a)) :
    (∃ m1, Tensor.copyCtor m b a = Except.ok m1) ∧
    (Tensor.Deletable m (m.tensors b) → Tensor.Unshared (m.tensors b) (m.tensors a) →
      ∃ m1, Tensor.copyAssign m b a = Except.ok m1) ∧
    ∀ m1, (Tensor.copyCtor m b a = Except.ok m1 ∨
        (Tensor.Deletable m (m.tensors b) ∧ Tensor.Unshared (m.tensors b) (m.tensors a) ∧
          Tensor.copyAssign m b a = Except.ok m1)) →
      (m1.tensors b).matrix_shape = (m.tensors a).matrix_shape ∧
      (m1.tensors b).rank = (m.tensors a).rank ∧
      (m1.tensors b).numElements = (m.tensors a).numElements ∧
      (m1.buffer (m1.tensors b)).length = (m.tensors a).numElements ∧
      (∀ i, i < (m.tensors a).numElements →
        (m1.buffer (m1.tensors b))[i]? = (m.buffer (m.tensors a))[i]?) ∧
      Tensor.operatorEq m1 b a = Except.ok true ∧
      (∀ idx, Tensor.call m1 b idx = Tensor.call m1 a idx) ∧
      m1.tensors a = m.tensors a ∧
      m1.buffer (m1.tensors a) = m.buffer (m.tensors a) ∧
      (∀ idx, Tensor.call m1 a idx = Tensor.call m a idx) ∧
      (Tensor.Consistent m (m.tensors a) → (m.tensors a).matrix_shape.prod < 2 ^ 64 →
        ∀ idx, ValidIndex (m.tensors a).matrix_shape idx →
          ∃ x, Tensor.call m1 b idx = Except.ok x ∧ Tensor.call m1 a idx = Except.ok x ∧
            Tensor.call m a idx = Except.ok x) := by
  refine ⟨?_, ?_, ?_⟩
  · obtain ⟨m1, h, _⟩ := copyCtor_post m a b hab ha
    exact ⟨m1, h⟩
  · intro hd hu
    obtain ⟨m1, h, _⟩ := copyAssign_post m a b hab ha hd hu
    exact ⟨m1, h⟩
  · intro m1 hm
    obtain ⟨h1, h2, h3, h4, h5, _⟩ := copy_post m m1 a b hab ha hm
    have hs : (m1.tensors b).matrix_shape = (m.tensors a).matrix_shape := by rw [h1]
    have he : (m1.tensors b).elements_ = (m.tensors a).elements_ := by rw [h1]
    obtain ⟨c1, c2, c3⟩ := copy_consequences m m1 a b hs he h2 h3 h4 h5
    refine ⟨hs, by rw [Tensor.rank, Tensor.rank, hs], he, ?_, ?_, c1, c2, h2, h4, c3, ?_⟩
    · rw [h3]
      exact holdsElements_buffer_length m _ ha
    · intro i _
      rw [h3]
    · intro hc hp idx hv
      obtain ⟨_, x, _, hx⟩ := call_defined m a idx hc hp hv
      exact ⟨x, by rw [c2 idx, c3 idx]; exact hx, by rw [c3 idx]; exact hx, hx⟩

/-- Instance of C8: the copy of the tensor of shape `{2,3}` holding `1 2 3 4 5 6` compares
equal to it, and both read `6` at `(1,2)`. -/
theorem copy_equals_source_witness :
    (1 : Nat) ≠ 0 ∧
    Tensor.HoldsElements
      (Memory.mk (fun _ => Tensor.mk 2 [2, 3] 6 (some 0)) [some [(1 : Int), 2, 3, 4, 5, 6]])
      (Tensor.mk 2 [2, 3] 6 (some 0)) ∧
    ∃ m1, Tensor.copyCtor
        (Memory.mk (fun _ => Tensor.mk 2 [2, 3] 6 (some 0)) [some [(1 : Int), 2, 3, 4, 5, 6]])
        1 0 = Except.ok m1 ∧
      Tensor.operatorEq m1 1 0 = Except.ok true ∧
      Tensor.call m1 1 [1, 2] = Except.ok 6 ∧ Tensor.call m1 0 [1, 2] = Except.ok 6 := by
  have h := copy_equals_source
    (Memory.mk (fun _ => Tensor.mk 2 [2, 3] 6 (some 0)) [some [(1 : Int), 2, 3, 4, 5, 6]])
    0 1 (by decide) (by decide)
  obtain ⟨m1, hm⟩ := h.1
  obtain ⟨_, _, _, _, _, heq, _, _, _, _, hv⟩ := h.2.2 m1 (Or.inl hm)
  obtain ⟨x, hb, ha, h0⟩ := hv (by decide) (by decide) [1, 2] (by decide)
  have hx : x = 6 := by
    have h6 : Tensor.call
        (Memory.mk (fun _ => Tensor.mk 2 [2, 3] 6 (some 0))
          [some [(1 : Int), 2, 3, 4, 5, 6]]) 0 [1, 2] = Except.ok 6 := by decide
    rw [h6] at h0
    exact (Except.ok.inj h0).symm
  rw [hx] at hb ha
  exact ⟨by decide, by decide, m1, hm, heq, hb, ha⟩

/-- C8 as stated fails.  The copy of `Tensor({2^63, 4}, 7)`, whose product `2^65` wraps to
`0` elements, has an empty buffer like its source, and the reads `b(0,0)` and `a(0,0)` with
the valid index `(0,0)` are both outside the buffers: neither returns a value.  The same
holds for the copy of a moved-from tensor and the valid empty index list.  The copy of a
default-constructed tensor on a storage whose `elements_` field holds `0` gets an array of
no element: `a()` reads `0`, `b()` reads outside the array. -/
theorem copy_equals_source_counterexample :
    (ValidIndex [2 ^ 63, 4] [0, 0] ∧
      (Tensor.copyCtor (Tensor.fillCtor (Memory.empty Int) 0 [2 ^ 63, 4] 7) 1 0).map
        (fun m1 => (m1.buffer (m1.tensors 1), Tensor.call m1 1 [0, 0],
          Tensor.call m1 0 [0, 0])) =
        Except.ok ([], Except.error Fault.undefinedBehaviour,
          Except.error Fault.undefinedBehaviour)) ∧
    (ValidIndex
        ((Tensor.moveCtor (Tensor.fillCtor (Memory.empty Int) 0 [2] 7) 1 0).tensors
          0).matrix_shape [] ∧
      (Tensor.copyCtor (Tensor.moveCtor (Tensor.fillCtor (Memory.empty Int) 0 [2] 7) 1 0)
          2 0).map
        (fun m1 => (m1.buffer (m1.tensors 2), Tensor.call m1 2 [], Tensor.call m1 0 [])) =
        Except.ok ([], Except.error Fault.undefinedBehaviour,
          Except.error Fault.undefinedBehaviour)) ∧
    (ValidIndex
        ((Tensor.defaultCtor (Memory.mk (fun _ => Tensor.mk 0 [] 0 none)
          ([] : List (Option (List Int)))) 0).tensors 0).matrix_shape [] ∧
      (Tensor.copyCtor (Tensor.defaultCtor (Memory.mk (fun _ => Tensor.mk 0 [] 0 none)
          ([] : List (Option (List Int)))) 0) 1 0).map
        (fun m1 => (m1.buffer (m1.tensors 1), Tensor.call m1 1 [], Tensor.call m1 0 [])) =
        Except.ok ([], Except.error Fault.undefinedBehaviour, Except.ok 0)) := by
  refine ⟨⟨by decide, by decide⟩, ⟨by decide, by decide⟩, ⟨by decide, by decide⟩⟩

/-- C9 (as amended, copy independence): for every tensor `a` that satisfies the state
predicate with a product of extents below `2^64`, the copy `b` of `a` is made (copy
construction, or copy assignment onto a destination whose array can be deleted and is not
the array of `a`), and for every valid index `idx` and every value `v` the write
`b(idx) = v` is defined; after it `b(idx)` reads `v`, every read `a(idx1)` returns what it
returned before the copy, a value for every valid `idx1`, `idx` included, and the shape,
`numElements()` and buffer of `a` are unchanged. -/
theorem copy_independent {α : Type} (m : Memory α) (a b : Nat) (hab : b ≠ a)
    (hc : Tensor.Consistent m (m.tensors a))
    (hp : (m.tensors a).matrix_shape.prod < 2 ^ 64) :
    (∃ m1, Tensor.copyCtor m b a = Except.ok m1) ∧
    (Tensor.Deletable m (m.tensors b) → Tensor.Unshared (m.tensors b) (m.tensors a) →
      ∃ m1, Tensor.copyAssign m b a = Except.ok m1) ∧
    ∀ m1, (Tensor.copyCtor m b a = Except.ok m1 ∨
        (Tensor.Deletable m (m.tensors b) ∧ Tensor.Unshared (m.tensors b) (m.tensors a) ∧
          Tensor.copyAssign m b a = Except.ok m1)) →
      ∀ idx v, ValidIndex (m.tensors a).matrix_shape idx →
        ∃ m2, Tensor.assignAt m1 b idx v = Except.ok m2 ∧
          Tensor.call m2 b idx = Except.ok v ∧
          (∀ idx1, Tensor.call m2 a idx1 = Tensor.call m a idx1) ∧
          (∀ idx1, ValidIndex (m.tensors a).matrix_shape idx1 →
            ∃ x, Tensor.call m a idx1 = Except.ok x ∧ Tensor.call m2 a idx1 = Except.ok x) ∧
          (m2.tensors a).matrix_shape = (m.tensors a).matrix_shape ∧
          (m2.tensors a).numElements = (m.tensors a).numElements ∧
          m2.buffer (m2.tensors a) = m.buffer (m.tensors a) := by
  have ha := hc.1
  refine ⟨?_, ?_, ?_⟩
  · obtain ⟨m1, h, _⟩ := copyCtor_post m a b hab ha
    exact ⟨m1, h⟩
  · intro hd hu
    obtain ⟨m1, h, _⟩ := copyAssign_post m a b hab ha hd hu
    exact ⟨m1, h⟩
  · intro m1 hm idx v hv
    obtain ⟨h1, h2, h3, h4, h5, h6⟩ := copy_post m m1 a b hab ha hm
    have hdb : (m1.tensors b).data_ = some m.arrays.length := by rw [h1]
    have hne : (m1.tensors a).data_ ≠ (m1.tensors b).data_ := by
      rw [h2, hdb]
      intro hd
      exact absurd (holdsElements_data_lt m _ _ ha hd) (Nat.lt_irrefl _)
    have hlt := calculateFlatIndex_lt _ idx hv hp
    have hlen : (m1.buffer (m1.tensors b)).length = (m.tensors a).matrix_shape.prod := by
      rw [h3, holdsElements_buffer_length m _ ha, hc.2.1]
      exact Nat.mod_eq_of_lt hp
    have hsb : (m1.tensors b).matrix_shape = (m.tensors a).matrix_shape := by rw [h1]
    have harr : m1.array (some m.arrays.length) = some (m1.buffer (m1.tensors b)) := by
      rcases h5 with ⟨hn, _⟩ | ⟨_, h5⟩
      · rw [hdb] at hn
        cases hn
      · unfold Memory.buffer
        rw [hdb] at h5 ⊢
        cases hx : m1.array (some m.arrays.length) with
        | none => simp [hx] at h5
        | some buf => rfl
    have hk : calculateFlatIndex (m1.tensors b).matrix_shape idx <
        (m1.buffer (m1.tensors b)).length := by
      rw [hsb, hlen]
      exact hlt
    have hw := assignAt_ok m1 b m.arrays.length idx v _ hdb harr (by rw [hsb]; exact hv) hk
    obtain ⟨f1, _, f3, f4⟩ := assignAt_frame m1 _ b idx v hw
    have hta : (Memory.mk m1.tensors (m1.arrays.set m.arrays.length
        (some ((m1.buffer (m1.tensors b)).set
          (calculateFlatIndex (m1.tensors b).matrix_shape idx) v)))).tensors a =
        m.tensors a := h2
    have hbuf := f3 (m1.tensors a) hne
    rw [h4] at hbuf
    have hcall : ∀ idx1, Tensor.call (Memory.mk m1.tensors (m1.arrays.set m.arrays.length
        (some ((m1.buffer (m1.tensors b)).set
          (calculateFlatIndex (m1.tensors b).matrix_shape idx) v)))) a idx1 =
        Tensor.call m a idx1 :=
      fun idx1 => call_congr _ m a a idx1 (by rw [hta]) hbuf
    refine ⟨_, hw, ?_, hcall, ?_, by rw [hta], by rw [hta], hbuf⟩
    · rw [call_eq_buffer, f1, (checkIndices_ok_iff _ _).2 (by rw [hsb]; exact hv), f4]
      simp only
      rw [List.getElem?_set_self hk]
    · intro idx1 hv1
      obtain ⟨_, x, _, hx⟩ := call_defined m a idx1 hc hp hv1
      exact ⟨x, hx, by rw [hcall idx1]; exact hx⟩

/-- Instance of C9: `a` of shape `{2,3}` holding `1 2 3 4 5 6`, `b` a copy of `a`, then
`b(1,2) = 9`: the write is defined, `b(1,2)` reads `9` and `a(1,2)` still reads `6`. -/
theorem copy_independent_witness :
    ∃ m1 m2,
      Tensor.copyCtor
        (Memory.mk (fun _ => Tensor.mk 2 [2, 3] 6 (some 0)) [some [(1 : Int), 2, 3, 4, 5, 6]])
        1 0 = Except.ok m1 ∧
      Tensor.assignAt m1 1 [1, 2] 9 = Except.ok m2 ∧
      Tensor.call m2 1 [1, 2] = Except.ok 9 ∧
      Tensor.call m2 0 [1, 2] = Except.ok 6 := by
  have h := copy_independent
    (Memory.mk (fun _ => Tensor.mk 2 [2, 3] 6 (some 0)) [some [(1 : Int), 2, 3, 4, 5, 6]])
    0 1 (by decide) (by decide) (by decide)
  obtain ⟨m1, hm⟩ := h.1
  obtain ⟨m2, hw, hb, hframe, _, _, _, _⟩ := h.2.2 m1 (Or.inl hm) [1, 2] 9 (by decide)
  refine ⟨m1, m2, hm, hw, hb, ?_⟩
  rw [hframe [1, 2]]
  decide

/-- C9 as stated fails.  On the copy `b` of `Tensor({2^63, 4}, 7)`, whose product `2^65`
wraps to `0` elements, the write `b(0,0) = 9` with the valid index `(0,0)` is outside the
empty buffer of `b`; so is the write `b() = 9` on the copy of a moved-from tensor.  The
same happens on the copy of a default-constructed tensor on a storage whose `elements_`
field holds `0`. -/
theorem copy_independent_counterexample :
    (ValidIndex [2 ^ 63, 4] [0, 0] ∧
      (Tensor.copyCtor (Tensor.fillCtor (Memory.empty Int) 0 [2 ^ 63, 4] 7) 1 0).map
        (fun m1 => (m1.buffer (m1.tensors 1),
          (Tensor.assignAt m1 1 [0, 0] 9).map (fun _ => ()))) =
        Except.ok ([], Except.error Fault.undefinedBehaviour)) ∧
    (ValidIndex
        ((Tensor.moveCtor (Tensor.fillCtor (Memory.empty Int) 0 [2] 7) 1 0).tensors
          0).matrix_shape [] ∧
      (Tensor.copyCtor (Tensor.moveCtor (Tensor.fillCtor (Memory.empty Int) 0 [2] 7) 1 0)
          2 0).map
        (fun m1 => (m1.buffer (m1.tensors 2),
          (Tensor.assignAt m1 2 [] 9).map (fun _ => ()))) =
        Except.ok ([], Except.error Fault.undefinedBehaviour)) ∧
    (ValidIndex
        ((Tensor.defaultCtor (Memory.mk (fun _ => Tensor.mk 0 [] 0 none)
          ([] : List (Option (List Int)))) 0).tensors 0).matrix_shape [] ∧
      (Tensor.copyCtor (Tensor.defaultCtor (Memory.mk (fun _ => Tensor.mk 0 [] 0 none)
          ([] : List (Option (List Int)))) 0) 1 0).map
        (fun m1 => (m1.buffer (m1.tensors 1),
          (Tensor.assignAt m1 1 [] 9).map (fun _ => ()))) =
        Except.ok ([], Except.error Fault.undefinedBehaviour)) := by
  refine ⟨⟨by decide, by decide⟩, ⟨by decide, by decide⟩, ⟨by decide, by decide⟩⟩

/-! ## The text of a written file -/

/-- The data loop of the writer returns exactly when it stays inside the array, and then
gives the values it passed over, each followed by a space. -/
theorem writeData_buffer {α : Type} (render : α → List Char) (data : Option (List α))
    (n : Nat) :
    ∀ i, writeData render data n i =
      if n = 0 ∨ i + n ≤ (data.getD []).length then
        Except.ok (valuesText render (((data.getD []).drop i).take n))
      else Except.error Fault.undefinedBehaviour := by
  induction n with
  | zero =>
    intro i
    rw [if_pos (Or.inl rfl), List.take_zero]
    rfl
  | succ n ih =>
    intro i
    have hb : data.bind (fun buf => buf[i]?) = (data.getD [])[i]? := by
      cases data with
      | none => rfl
      | some buf => rfl
    rw [writeData, hb, ih (i + 1)]
    by_cases hi : i < (data.getD []).length
    · rw [List.getElem?_eq_getElem hi]
      simp only
      by_cases hn : i + (n + 1) ≤ (data.getD []).length
      · rw [if_pos (Or.inr (by omega)), if_pos (Or.inr hn), List.drop_eq_getElem_cons hi,
          List.take_succ_cons]
        rfl
      · have h0 : ¬ (n = 0 ∨ i + 1 + n ≤ (data.getD []).length) := by omega
        rw [if_neg h0, if_neg (by omega)]
    · have h0 : ¬ (n + 1 = 0 ∨ i + (n + 1) ≤ (data.getD []).length) := by omega
      rw [List.getElem?_eq_none (Nat.le_of_not_lt hi), if_neg h0]

/-- C12 on the code: whenever the array of the tensor holds at least `numElements()`
values, the text `writeTensorToFile` puts in the file is the decimal rank and `'\n'`, then
each extent in order followed by `'\n'`, then each of the first `numElements()` values of
the buffer in flat order followed by one space, with nothing after, and the notice goes to
the standard output; for shape `{2,3}` with values `1 2 3 4 5 6` the file holds
`"2\n2\n3\n1 2 3 4 5 6 "`.  When the array holds fewer values the loop of lines 270-272
reads outside it; that is what happens for the default-constructed tensor on a storage
whose `elements_` field holds `5`, which owns one element. -/
theorem writeTensorToFile_text {α : Type} (render : α → List Char) (m : Memory α) (t : Nat)
    (filename : List Char) :
    ((m.tensors t).numElements ≤ (m.buffer (m.tensors t)).length →
      writeTensorToFile render m t true filename =
        Except.ok (renderNat (m.tensors t).rank ++ '\n' ::
            (shapeText (m.tensors t).matrix_shape ++
              valuesText render
                ((m.buffer (m.tensors t)).take (m.tensors t).numElements)),
          "Tensor written to file: ".toList ++ filename ++ ['\n'])) ∧
    ((m.buffer (m.tensors t)).length < (m.tensors t).numElements →
      writeTensorToFile render m t true filename =
        Except.error Fault.undefinedBehaviour) ∧
    writeTensorToFile renderInt
        (Memory.mk (fun _ => Tensor.mk 2 [2, 3] 6 (some 0)) [some [1, 2, 3, 4, 5, 6]]) 0 true
        "t.txt".toList =
      Except.ok ("2\n2\n3\n1 2 3 4 5 6 ".toList, "Tensor written to file: t.txt\n".toList) ∧
    (Tensor.defaultCtor (Memory.mk (fun _ => Tensor.mk 5 [] 5 none)
        ([] : List (Option (List Int)))) 0).buffer
      ((Tensor.defaultCtor (Memory.mk (fun _ => Tensor.mk 5 [] 5 none)
        ([] : List (Option (List Int)))) 0).tensors 0) = [0] ∧
    writeTensorToFile renderInt
        (Tensor.defaultCtor (Memory.mk (fun _ => Tensor.mk 5 [] 5 none)
          ([] : List (Option (List Int)))) 0) 0 true "t.txt".toList =
      Except.error Fault.undefinedBehaviour := by
  have hs := writeShape_eq (m.tensors t).matrix_shape (m.tensors t).rank 0
    (by rw [Nat.zero_add]; rfl)
  have hd := writeData_buffer render (m.array (m.tensors t).data_)
    (m.tensors t).numElements 0
  rw [Nat.zero_add, List.drop_zero] at hd
  refine ⟨?_, ?_, by decide, by decide, by decide⟩
  · intro h
    have h1 : (m.tensors t).numElements ≤ ((m.array (m.tensors t).data_).getD []).length := h
    rw [if_pos (Or.inr h1)] at hd
    unfold writeTensorToFile
    rw [if_pos rfl, hs, hd]
    rfl
  · intro h
    have h1 : ((m.array (m.tensors t).data_).getD []).length < (m.tensors t).numElements := h
    rw [if_neg (by omega)] at hd
    unfold writeTensorToFile
    rw [if_pos rfl, hs, hd]

/-- Instance of C12: `Tensor({2,2}, 5)` is written as `"2\n2\n2\n5 5 5 5 "`. -/
theorem writeTensorToFile_text_witness :
    ((Tensor.fillCtor (Memory.empty Int) 0 [2, 2] 5).tensors 0).numElements ≤
      ((Tensor.fillCtor (Memory.empty Int) 0 [2, 2] 5).buffer
        ((Tensor.fillCtor (Memory.empty Int) 0 [2, 2] 5).tensors 0)).length ∧
    writeTensorToFile renderInt (Tensor.fillCtor (Memory.empty Int) 0 [2, 2] 5) 0 true
        "t.txt".toList =
      Except.ok ("2\n2\n2\n5 5 5 5 ".toList, "Tensor written to file: t.txt\n".toList) :=
  ⟨by decide,
    ((writeTensorToFile_text renderInt (Tensor.fillCtor (Memory.empty Int) 0 [2, 2] 5) 0
      "t.txt".toList).1 (by decide)).trans (by decide)⟩

end TensorHpp
